import Mathlib

/-!
Verification of the graph-of-plan kernel: a shallow embedding of the
graph builder (`defineGraph` in `src/kernel/dsl.ts`), the validator
(`validatePlan` in `src/kernel/validate.ts`) and the relation deriver
(`deriveRelations` in `src/kernel/compile/derive-relations.ts`).

Modelling conventions:
* JavaScript object references are modelled as arena addresses: every
  `new` allocates the node at the end of a heap (`List Node`) and the
  reference is the index.  Two structurally equal nodes allocated
  separately are distinct addresses, exactly like JS object identity.
* A JavaScript `Map` (insertion ordered, `set` keeps the original slot
  of an existing key) is modelled by `OMap`, an ordered association
  list with first-match update.
* `throw new Error(msg)` is modelled by `Except` with a structured
  `BuildError` whose `render` reproduces the exact message string.
* Validation messages are a structured `Msg` type; `Msg.render`
  reproduces the exact template strings of the source.
-/

namespace GraphOfPlan

/-! ## Ordered maps (JS `Map` semantics) -/

abbrev OMap (κ α : Type) := List (κ × α)

/-- `Map.get`: first entry with the key. -/
def omGet [BEq κ] : OMap κ α → κ → Option α
  | [], _ => none
  | p :: t, k => if p.1 == k then some p.2 else omGet t k

/-- `Map.set`: update the existing slot in place, else append. -/
def omSet [BEq κ] : OMap κ α → κ → α → OMap κ α
  | [], k, v => [(k, v)]
  | p :: t, k, v => if p.1 == k then (k, v) :: t else p :: omSet t k v

/-- `Map.get(k)?.push(v)`: append `v` to the slot when the key exists. -/
def omPush [BEq κ] : OMap κ (List α) → κ → α → OMap κ (List α)
  | [], _, _ => []
  | p :: t, k, v => if p.1 == k then (p.1, p.2 ++ [v]) :: t else p :: omPush t k v

def omKeys (m : OMap κ α) : List κ := m.map (fun p => p.1)

/-- `Map.values()` in insertion order. -/
def omValues (m : OMap κ α) : List α := m.map (fun p => p.2)

/-! ## Node model (`src/kernel/schema.ts`) -/

inductive RiskStatus | active | mitigated | accepted
deriving DecidableEq, Repr

inductive ThreatLevel | noThreat | low | medium | high
deriving DecidableEq, Repr

inductive RepoType | owned | fork | dependency
deriving DecidableEq, Repr

inductive ConstraintSeverity | hard | soft
deriving DecidableEq, Repr

inductive ConstraintCategory | distribution | capital | team | technical | market
deriving DecidableEq, Repr

inductive MeasurementFrequency | daily | weekly | monthly
deriving DecidableEq, Repr

inductive ReviewFrequency | weekly | monthly | quarterly
deriving DecidableEq, Repr

inductive AssumptionStatus
  | untested | testing | validated | invalidated | partiallyValidated
deriving DecidableEq, Repr

inductive AssumptionCategory
  | market | customer | technical | financial | competitive | operational
deriving DecidableEq, Repr

inductive DecisionStatus | active | underReview | reversed | superseded
deriving DecidableEq, Repr

inductive DecisionCategory
  | strategic | technical | commercial | operational | sequencing
deriving DecidableEq, Repr

structure RejectedAlternative where
  option : String
  rationale : String
deriving DecidableEq, Repr

inductive TimelineVariant | expected | aggressive | speedOfLight
deriving DecidableEq, Repr

/-- The string the source interpolates for a `TimelineVariant`. -/
def TimelineVariant.render : TimelineVariant → String
  | .expected => "expected"
  | .aggressive => "aggressive"
  | .speedOfLight => "speedOfLight"

structure TimelineConfig where
  startMonth : Int
  durationMonths : Int
  included : Bool
deriving DecidableEq, Repr

structure Timelines where
  expected : TimelineConfig
  aggressive : TimelineConfig
  speedOfLight : TimelineConfig
deriving DecidableEq, Repr

/-- `milestone.timelines[variant]`. -/
def Timelines.get (t : Timelines) : TimelineVariant → TimelineConfig
  | .expected => t.expected
  | .aggressive => t.aggressive
  | .speedOfLight => t.speedOfLight

/-- Object references are arena addresses (JS object identity). -/
abbrev Addr := Nat

/-- The kind-specific fields of each `PlanNode` subclass; every
reference field holds addresses of the referenced nodes. -/
inductive NodeData where
  | primitive
  | supplier
  | customer
  | competitor (threatLevel : ThreatLevel)
  | supplierPrimitive (supplier : Addr)
  | tooling (dependsOn : List Addr) (supplierPrimitives : List Addr)
  | risk (mitigatedBy : List Addr) (status : RiskStatus)
  | capability (dependsOn : List Addr) (risks : List Addr)
      (suppliers : List Addr) (supplierPrimitives : List Addr)
      (tooling : List Addr)
  | product (enabledBy : List Addr) (customers : List Addr)
      (competitors : List Addr) (tooling : List Addr)
  | project (enabledBy : List Addr) (tooling : List Addr)
  | thesis (justifiedBy : List Addr)
  | milestone (expectedRevenue : Int) (expectedCosts : Int)
      (dependsOnMilestones : List Addr) (dependsOnCapabilities : List Addr)
      (products : List Addr) (timelines : Timelines) (gatedBy : List Addr)
  | repository (url : String) (stackLevel : Int) (repoType : RepoType)
      (language : String) (dependsOn : List Addr) (upstream : Option Addr)
      (products : List Addr) (capabilities : List Addr)
  | constraint (severity : ConstraintSeverity) (category : ConstraintCategory)
  | competency (evidencedBy : List Addr)
  | diagnosis (evidencedBy : List Addr) (constrainedBy : List Addr)
  | guidingPolicy (addressesDiagnosis : Addr) (leveragesCompetencies : List Addr)
      (worksAroundConstraints : List Addr)
  | proxyMetric (currentValue : Int) (targetValue : Int)
      (frequency : MeasurementFrequency) (unit : String)
  | actionGate (action : String) (passCriteria : List String)
      (proxyMetrics : List Addr) (blockedBy : List Addr) (unlocks : List Addr)
  | assumption (statement : String) (category : AssumptionCategory)
      (status : AssumptionStatus) (testMethod : String)
      (validationCriteria : List String) (invalidationCriteria : List String)
      (currentEvidence : List String) (confidence : Int)
      (reviewFrequency : ReviewFrequency) (dependentProducts : List Addr)
      (dependentMilestones : List Addr) (relatedRisks : List Addr)
  | decision (context : String) (category : DecisionCategory)
      (status : DecisionStatus) (alternatives : List RejectedAlternative)
      (choice : String) (rationale : String) (tradeoffs : List String)
      (reversalTriggers : List String) (reviewDate : String)
      (dependsOnAssumptions : List Addr) (affectedProducts : List Addr)
      (affectedMilestones : List Addr) (supersededBy : Option Addr)
deriving DecidableEq, Repr

structure Node where
  id : String
  title : String
  data : NodeData
deriving DecidableEq, Repr

/-- The `kind` discriminant string of each subclass. -/
def NodeData.kindName : NodeData → String
  | .primitive => "primitive"
  | .supplier => "supplier"
  | .customer => "customer"
  | .competitor _ => "competitor"
  | .supplierPrimitive _ => "supplier-primitive"
  | .tooling _ _ => "tooling"
  | .risk _ _ => "risk"
  | .capability _ _ _ _ _ => "capability"
  | .product _ _ _ _ => "product"
  | .project _ _ => "project"
  | .thesis _ => "thesis"
  | .milestone _ _ _ _ _ _ _ => "milestone"
  | .repository _ _ _ _ _ _ _ _ => "repository"
  | .constraint _ _ => "constraint"
  | .competency _ => "competency"
  | .diagnosis _ _ => "diagnosis"
  | .guidingPolicy _ _ _ => "guiding-policy"
  | .proxyMetric _ _ _ _ => "proxy-metric"
  | .actionGate _ _ _ _ _ => "action-gate"
  | .assumption _ _ _ _ _ _ _ _ _ _ _ _ => "assumption"
  | .decision _ _ _ _ _ _ _ _ _ _ _ _ _ => "decision"

abbrev Heap := List Node

def dummyNode : Node := { id := "", title := "", data := NodeData.primitive }

/-- Dereference an address.  References produced by the builder are
always in range; out-of-range dereference (impossible in the typed
source) yields a fixed dummy node. -/
def derefD (h : Heap) (a : Addr) : Node := h.getD a dummyNode

/-! ## Validator (`src/kernel/validate.ts`)

Error messages are structured; `Msg.render` reproduces the exact
template string the source pushes for each check. -/

inductive Msg where
  | duplicateId (id : String)
  | missingContent (kind : String) (id : String)
  | thesisNoJustification
  | capabilityNoPrimitive
  | productNoCapability
  | milestoneNegRevenue
  | milestoneNegCosts
  | milestoneBadStart (variant : TimelineVariant)
  | milestoneBadDuration (variant : TimelineVariant)
  | repoBadStackLevel (stackLevel : Int)
  | forkNoUpstream
  | upstreamNotFork
  | repoUrlNotHttps
  | solExceeds (maxEnd : Int)
  | depNotIncluded (msId : String) (depId : String) (variant : TimelineVariant)
  | timingViolation (msId : String) (startMonth : Int) (depId : String)
      (depEnd : Int) (variant : TimelineVariant)
  | diagnosisNoRisk
  | policyNoCompetency
  | gateNoAction
  | gateNoPassCriteria
  | metricTargetEqualsCurrent
  | metricNegCurrent
  | metricNegTarget
  | assumptionNoStatement
  | assumptionNoTestMethod
  | assumptionNoValidationCriteria
  | assumptionNoInvalidationCriteria
  | assumptionBadConfidence
  | assumptionValidatedNoEvidence
  | assumptionInvalidatedNoEvidence
  | decisionNoContext
  | decisionNoChoice
  | decisionNoRationale
  | decisionActiveNoTriggers
  | decisionNoTradeoffs
  | decisionBadReviewDate
  | decisionSupersededNoRef
deriving DecidableEq, Repr

def Msg.render : Msg → String
  | .duplicateId id => "Duplicate node ID: \"" ++ id ++ "\""
  | .missingContent kind id =>
      "Missing content file: content/" ++ kind ++ "/" ++ id ++ ".mdx"
  | .thesisNoJustification => "Thesis must be justified by at least one capability"
  | .capabilityNoPrimitive => "Capability must depend on at least one primitive"
  | .productNoCapability => "Product must be enabled by at least one capability"
  | .milestoneNegRevenue => "Milestone expectedRevenue must be non-negative"
  | .milestoneNegCosts => "Milestone expectedCosts must be non-negative"
  | .milestoneBadStart v =>
      "Milestone timeline \"" ++ v.render ++ "\" has invalid startMonth (must be >= 0)"
  | .milestoneBadDuration v =>
      "Milestone timeline \"" ++ v.render ++ "\" has invalid durationMonths (must be >= 0)"
  | .repoBadStackLevel lvl =>
      "Repository stackLevel must be 0-4, got " ++ toString lvl
  | .forkNoUpstream => "Fork repository must specify an upstream repository"
  | .upstreamNotFork =>
      "Only fork repositories should have an upstream (use dependsOn for dependencies)"
  | .repoUrlNotHttps => "Repository URL must start with https://"
  | .solExceeds maxEnd =>
      "Speed of Light timeline exceeds 12 months (ends at month " ++ toString maxEnd ++ ")"
  | .depNotIncluded msId depId v =>
      "Milestone \"" ++ msId ++ "\" is included in " ++ v.render ++
        " timeline but depends on skipped milestone \"" ++ depId ++ "\""
  | .timingViolation msId startMonth depId depEnd v =>
      "Milestone \"" ++ msId ++ "\" starts at month " ++ toString startMonth ++
        " but dependency \"" ++ depId ++ "\" ends at month " ++ toString depEnd ++
        " in " ++ v.render ++ " timeline"
  | .diagnosisNoRisk => "Diagnosis must be evidenced by at least one risk"
  | .policyNoCompetency => "Guiding policy must leverage at least one competency"
  | .gateNoAction => "Action gate must have an action description"
  | .gateNoPassCriteria => "Action gate must have at least one pass criterion"
  | .metricTargetEqualsCurrent => "Proxy metric target value should differ from current value"
  | .metricNegCurrent => "Proxy metric current value must be non-negative"
  | .metricNegTarget => "Proxy metric target value must be non-negative"
  | .assumptionNoStatement => "Assumption must have a statement"
  | .assumptionNoTestMethod => "Assumption must have a test method"
  | .assumptionNoValidationCriteria => "Assumption must have at least one validation criterion"
  | .assumptionNoInvalidationCriteria => "Assumption must have at least one invalidation criterion"
  | .assumptionBadConfidence => "Assumption confidence must be between 0 and 100"
  | .assumptionValidatedNoEvidence => "Validated assumption should have supporting evidence"
  | .assumptionInvalidatedNoEvidence => "Invalidated assumption should have evidence of invalidation"
  | .decisionNoContext => "Decision must have context explaining the situation"
  | .decisionNoChoice => "Decision must state the choice made"
  | .decisionNoRationale => "Decision must have rationale explaining why this choice was made"
  | .decisionActiveNoTriggers => "Active decision should have at least one reversal trigger"
  | .decisionNoTradeoffs => "Decision should acknowledge at least one tradeoff"
  | .decisionBadReviewDate => "Decision review date should be in YYYY-MM-DD format"
  | .decisionSupersededNoRef =>
      "Superseded decision should reference the decision that supersedes it"

structure VError where
  nodeId : String
  message : Msg
deriving DecidableEq, Repr

structure ValidationResult where
  valid : Bool
  errors : List VError
deriving DecidableEq, Repr

/-- The content-store collaborator: does `content/{kind}/{id}.mdx` exist? -/
abbrev ContentExists := String → String → Bool

def variantsList : List TimelineVariant :=
  [TimelineVariant.expected, TimelineVariant.aggressive, TimelineVariant.speedOfLight]

/-- The `/^\d{4}-\d{2}-\d{2}$/` test of `validateDecision`. -/
def isIsoDate (s : String) : Bool :=
  match s.data with
  | [y1, y2, y3, y4, s1, m1, m2, s2, d1, d2] =>
      y1.isDigit && y2.isDigit && y3.isDigit && y4.isDigit && s1 == '-' &&
        m1.isDigit && m2.isDigit && s2 == '-' && d1.isDigit && d2.isDigit
  | _ => false

/-- `url.startsWith("https://")`, written over the character list so
that it evaluates in the kernel. -/
def strStartsWith (s p : String) : Bool := p.data.isPrefixOf s.data

def Node.isMilestone (n : Node) : Bool :=
  match n.data with
  | .milestone _ _ _ _ _ _ _ => true
  | _ => false

def zeroTimelines : Timelines :=
  { expected := ⟨0, 0, false⟩, aggressive := ⟨0, 0, false⟩, speedOfLight := ⟨0, 0, false⟩ }

def msTimelines (n : Node) : Timelines :=
  match n.data with
  | .milestone _ _ _ _ _ tl _ => tl
  | _ => zeroTimelines

def msDeps (n : Node) : List Addr :=
  match n.data with
  | .milestone _ _ deps _ _ _ _ => deps
  | _ => []

/-- Duplicate-id detection: the first loop of `validatePlan`.  An error
is pushed for a node exactly when its id was already seen. -/
def dupLoop (h : Heap) : List String → List Addr → List VError
  | _, [] => []
  | seen, a :: rest =>
    let n := derefD h a
    (if seen.contains n.id then [⟨n.id, Msg.duplicateId n.id⟩] else [])
      ++ dupLoop h (n.id :: seen) rest

def dupErrors (h : Heap) (addrs : List Addr) : List VError := dupLoop h [] addrs

/-- The kind-specific validations (`validateThesis` … `validateDecision`),
dispatched on the `isX` chain of `validatePlan`.  `validateRisk` is the
empty function of the source. -/
def validateNodeE (n : Node) : List VError :=
  match n.data with
  | .thesis justifiedBy =>
      if justifiedBy.length = 0 then [⟨n.id, Msg.thesisNoJustification⟩] else []
  | .capability dependsOn _ _ _ _ =>
      if dependsOn.length = 0 then [⟨n.id, Msg.capabilityNoPrimitive⟩] else []
  | .risk _ _ => []
  | .product enabledBy _ _ _ =>
      if enabledBy.length = 0 then [⟨n.id, Msg.productNoCapability⟩] else []
  | .milestone rev costs _ _ _ tl _ =>
      (if rev < 0 then [⟨n.id, Msg.milestoneNegRevenue⟩] else [])
        ++ (if costs < 0 then [⟨n.id, Msg.milestoneNegCosts⟩] else [])
        ++ variantsList.flatMap (fun v =>
            (if (tl.get v).startMonth < 0 then [⟨n.id, Msg.milestoneBadStart v⟩] else [])
              ++ (if (tl.get v).durationMonths < 0 then
                    [⟨n.id, Msg.milestoneBadDuration v⟩] else []))
  | .repository url stackLevel repoType _ _ upstream _ _ =>
      (if stackLevel < 0 ∨ stackLevel > 4 then
          [⟨n.id, Msg.repoBadStackLevel stackLevel⟩] else [])
        ++ (if repoType = RepoType.fork ∧ upstream.isNone then
              [⟨n.id, Msg.forkNoUpstream⟩] else [])
        ++ (if repoType ≠ RepoType.fork ∧ upstream.isSome then
              [⟨n.id, Msg.upstreamNotFork⟩] else [])
        ++ (if url ≠ "" ∧ ¬ strStartsWith url "https://" then
              [⟨n.id, Msg.repoUrlNotHttps⟩] else [])
  | .diagnosis evidencedBy _ =>
      if evidencedBy.length = 0 then [⟨n.id, Msg.diagnosisNoRisk⟩] else []
  | .guidingPolicy _ leveragesCompetencies _ =>
      if leveragesCompetencies.length = 0 then [⟨n.id, Msg.policyNoCompetency⟩] else []
  | .actionGate action passCriteria _ _ _ =>
      (if action.trim = "" then [⟨n.id, Msg.gateNoAction⟩] else [])
        ++ (if passCriteria.length = 0 then [⟨n.id, Msg.gateNoPassCriteria⟩] else [])
  | .proxyMetric currentValue targetValue _ _ =>
      (if currentValue = targetValue then [⟨n.id, Msg.metricTargetEqualsCurrent⟩] else [])
        ++ (if currentValue < 0 then [⟨n.id, Msg.metricNegCurrent⟩] else [])
        ++ (if targetValue < 0 then [⟨n.id, Msg.metricNegTarget⟩] else [])
  | .assumption statement _ status testMethod validationCriteria invalidationCriteria
      currentEvidence confidence _ _ _ _ =>
      (if statement.trim = "" then [⟨n.id, Msg.assumptionNoStatement⟩] else [])
        ++ (if testMethod.trim = "" then [⟨n.id, Msg.assumptionNoTestMethod⟩] else [])
        ++ (if validationCriteria.length = 0 then
              [⟨n.id, Msg.assumptionNoValidationCriteria⟩] else [])
        ++ (if invalidationCriteria.length = 0 then
              [⟨n.id, Msg.assumptionNoInvalidationCriteria⟩] else [])
        ++ (if confidence < 0 ∨ confidence > 100 then
              [⟨n.id, Msg.assumptionBadConfidence⟩] else [])
        ++ (if status = AssumptionStatus.validated ∧ currentEvidence.length = 0 then
              [⟨n.id, Msg.assumptionValidatedNoEvidence⟩] else [])
        ++ (if status = AssumptionStatus.invalidated ∧ currentEvidence.length = 0 then
              [⟨n.id, Msg.assumptionInvalidatedNoEvidence⟩] else [])
  | .decision context _ status _ choice rationale tradeoffs reversalTriggers
      reviewDate _ _ _ supersededBy =>
      (if context.trim = "" then [⟨n.id, Msg.decisionNoContext⟩] else [])
        ++ (if choice.trim = "" then [⟨n.id, Msg.decisionNoChoice⟩] else [])
        ++ (if rationale.trim = "" then [⟨n.id, Msg.decisionNoRationale⟩] else [])
        ++ (if status = DecisionStatus.active ∧ reversalTriggers.length = 0 then
              [⟨n.id, Msg.decisionActiveNoTriggers⟩] else [])
        ++ (if tradeoffs.length = 0 then [⟨n.id, Msg.decisionNoTradeoffs⟩] else [])
        ++ (if reviewDate ≠ "" ∧ ¬ isIsoDate reviewDate then
              [⟨n.id, Msg.decisionBadReviewDate⟩] else [])
        ++ (if status = DecisionStatus.superseded ∧ supersededBy.isNone then
              [⟨n.id, Msg.decisionSupersededNoRef⟩] else [])
  | _ => []

/-- Content check plus kind dispatch — the body of the second loop of
`validatePlan` for one node. -/
def nodeErrors (ce : ContentExists) (h : Heap) (a : Addr) : List VError :=
  let n := derefD h a
  (if ce n.data.kindName n.id then []
   else [⟨n.id, Msg.missingContent n.data.kindName n.id⟩])
    ++ validateNodeE n

/-- Check 1 of `validateTimelines`: Speed of Light must end by month 12. -/
def solErrorsE (ms : List Node) : List VError :=
  let included := ms.filter (fun m => (msTimelines m).speedOfLight.included)
  match included.map (fun m =>
      (msTimelines m).speedOfLight.startMonth + (msTimelines m).speedOfLight.durationMonths) with
  | [] => []
  | e :: rest =>
      let maxEnd := rest.foldl max e
      if maxEnd > 12 then [⟨"timeline-speedOfLight", Msg.solExceeds maxEnd⟩] else []

/-- Check 2 of `validateTimelines`: an included milestone must not
depend on a skipped milestone. -/
def feasErrorsE (h : Heap) (v : TimelineVariant) (ms : List Node) : List VError :=
  ms.flatMap (fun m =>
    if ((msTimelines m).get v).included then
      (msDeps m).flatMap (fun dep =>
        if ((msTimelines (derefD h dep)).get v).included then []
        else [⟨m.id, Msg.depNotIncluded m.id (derefD h dep).id v⟩])
    else [])

/-- Check 3 of `validateTimelines`: a dependency must end no later than
the dependent starts. -/
def timingErrorsE (h : Heap) (v : TimelineVariant) (ms : List Node) : List VError :=
  ms.flatMap (fun m =>
    if ((msTimelines m).get v).included then
      (msDeps m).flatMap (fun dep =>
        if ((msTimelines (derefD h dep)).get v).included then
          (if ((msTimelines (derefD h dep)).get v).startMonth
                + ((msTimelines (derefD h dep)).get v).durationMonths
                > ((msTimelines m).get v).startMonth then
            [⟨m.id, Msg.timingViolation m.id ((msTimelines m).get v).startMonth
                (derefD h dep).id
                (((msTimelines (derefD h dep)).get v).startMonth
                  + ((msTimelines (derefD h dep)).get v).durationMonths) v⟩]
          else [])
        else [])
    else [])

def validateTimelinesE (h : Heap) (ms : List Node) : List VError :=
  variantsList.flatMap (fun v =>
    (if v = TimelineVariant.speedOfLight then solErrorsE ms else [])
      ++ feasErrorsE h v ms ++ timingErrorsE h v ms)

/-- `validatePlan` of `src/kernel/validate.ts`. -/
def validatePlan (ce : ContentExists) (h : Heap) (addrs : List Addr) : ValidationResult :=
  let errs1 := dupErrors h addrs
  let errs2 := errs1 ++ addrs.flatMap (nodeErrors ce h)
  let milestones := (addrs.map (derefD h)).filter (fun n => n.isMilestone)
  let errs3 := errs2 ++
    (if milestones.length > 0 then validateTimelinesE h milestones else [])
  { valid := errs3.isEmpty, errors := errs3 }

/-! ## Relation deriver (`src/kernel/compile/derive-relations.ts`) -/

structure DerivedRelations where
  justifies : OMap Addr (List Addr)
  dependedOnBy : OMap Addr (List Addr)
  risksFor : OMap Addr (List Addr)
  mitigates : OMap Addr (List Addr)
  enables : OMap Addr (List Addr)
deriving Repr

/-- `for (const x of targets) map.get(x)?.push(node)`. -/
def pushAll (m : OMap Addr (List Addr)) (src : Addr) : List Addr → OMap Addr (List Addr)
  | [] => m
  | t :: ts => pushAll (omPush m t src) src ts

/-- The initialisation loop: give every node an empty slot in a map. -/
def initLoop : OMap Addr (List Addr) → List Addr → OMap Addr (List Addr)
  | m, [] => m
  | m, a :: rest => initLoop (omSet m a []) rest

/-- The body of the derivation loop for one node: the four `isX`
guarded blocks of `deriveRelations`. -/
def deriveStep (h : Heap) (maps : DerivedRelations) (a : Addr) : DerivedRelations :=
  let n := derefD h a
  let maps1 :=
    match n.data with
    | .thesis justifiedBy =>
        { maps with justifies := pushAll maps.justifies a justifiedBy }
    | _ => maps
  let maps2 :=
    match n.data with
    | .capability dependsOn risks _ _ _ =>
        { maps1 with dependedOnBy := pushAll maps1.dependedOnBy a dependsOn,
                     risksFor := pushAll maps1.risksFor a risks }
    | _ => maps1
  let maps3 :=
    match n.data with
    | .risk mitigatedBy _ =>
        { maps2 with mitigates := pushAll maps2.mitigates a mitigatedBy }
    | _ => maps2
  match n.data with
  | .product enabledBy _ _ _ =>
      { maps3 with enables := pushAll maps3.enables a enabledBy }
  | _ => maps3

def deriveLoop (h : Heap) : DerivedRelations → List Addr → DerivedRelations
  | maps, [] => maps
  | maps, a :: rest => deriveLoop h (deriveStep h maps a) rest

/-- `deriveRelations`: initialise every map with every node as a key
and `[]` as value, then one linear pass appending reverse edges. -/
def deriveRelations (h : Heap) (nodes : List Addr) : DerivedRelations :=
  let init := initLoop [] nodes
  deriveLoop h
    { justifies := init, dependedOnBy := init, risksFor := init,
      mitigates := init, enables := init } nodes

/-- `node.justifiedBy` when the node is a Thesis, else `[]`. -/
def thesisRefs (n : Node) : List Addr :=
  match n.data with
  | .thesis justifiedBy => justifiedBy
  | _ => []

/-- `node.dependsOn` when the node is a Capability, else `[]`. -/
def capDependsOn (n : Node) : List Addr :=
  match n.data with
  | .capability dependsOn _ _ _ _ => dependsOn
  | _ => []

/-- `node.risks` when the node is a Capability, else `[]`. -/
def capRisks (n : Node) : List Addr :=
  match n.data with
  | .capability _ risks _ _ _ => risks
  | _ => []

/-- `node.mitigatedBy` when the node is a Risk, else `[]`. -/
def riskMitigatedBy (n : Node) : List Addr :=
  match n.data with
  | .risk mitigatedBy _ => mitigatedBy
  | _ => []

/-- `node.enabledBy` when the node is a Product, else `[]`. -/
def prodEnabledBy (n : Node) : List Addr :=
  match n.data with
  | .product enabledBy _ _ _ => enabledBy
  | _ => []

/-- The single derivation pass restricted to one reverse map. -/
def derive1 (f : Node → List Addr) (h : Heap) :
    OMap Addr (List Addr) → List Addr → OMap Addr (List Addr)
  | m, [] => m
  | m, a :: rest => derive1 f h (pushAll m a (f (derefD h a))) rest

/-- Slot lookup, `[]` when absent (`map.get(n) ?? []`). -/
def slotOf (m : OMap Addr (List Addr)) (j : Addr) : List Addr :=
  (omGet m j).getD []

/-- `Math.max(...)` over a non-empty spread, with `0` on the (guarded
away) empty list. -/
def solMax : List Int → Int
  | [] => 0
  | e :: rest => rest.foldl max e

def ceTrue : ContentExists := fun _ _ => true

def dupHeap : Heap :=
  [{ id := "a", title := "first", data := NodeData.risk [] RiskStatus.active },
   { id := "a", title := "second", data := NodeData.risk [] RiskStatus.active }]

/-- The ends (`startMonth + durationMonths`) of the milestones of the
sequence that are `included` in the speedOfLight variant. -/
def solEnds (h : Heap) (addrs : List Addr) : List Int :=
  (((addrs.map (derefD h)).filter (fun n => n.isMilestone)).filter
      (fun m => (msTimelines m).speedOfLight.included)).map
    (fun m => (msTimelines m).speedOfLight.startMonth
      + (msTimelines m).speedOfLight.durationMonths)

def c6tlA : Timelines :=
  { expected := ⟨5, 1, true⟩, aggressive := ⟨0, 0, false⟩,
    speedOfLight := ⟨0, 0, false⟩ }

def c6tlB : Timelines :=
  { expected := ⟨0, 6, true⟩, aggressive := ⟨0, 0, false⟩,
    speedOfLight := ⟨0, 0, false⟩ }

def c6heap : Heap :=
  [{ id := "A", title := "A",
     data := NodeData.milestone 0 0 [1] [] [] c6tlA [] },
   { id := "B", title := "B",
     data := NodeData.milestone 0 0 [] [] [] c6tlB [] }]

/-! ## Claim C7: Repository url validation -/

/-- `repo.url` for Repository nodes. -/
def repoUrl (n : Node) : Option String :=
  match n.data with
  | .repository url _ _ _ _ _ _ _ => some url
  | _ => none

def c7heap : Heap :=
  [{ id := "r", title := "empty-url repo",
     data := NodeData.repository "" 2 RepoType.owned "TypeScript" [] none [] [] }]

def c9heap : Heap :=
  [{ id := "r", title := "unmitigated active risk",
     data := NodeData.risk [] RiskStatus.active }]

def c7heap2 : Heap :=
  [{ id := "r2", title := "http url repo",
     data := NodeData.repository "http://x" 2 RepoType.owned "TypeScript"
       [] none [] [] }]

/-! ## Claim C10: the validator never mutates the graph

The heap and the address sequence are threaded through the translation
as explicit state; since no statement of the source assigns to a node
or the array, the state is returned unchanged and the result agrees
with the pure `validatePlan`. -/

def dupLoopSt (st : Heap × List Addr) :
    List String → List Addr → (Heap × List Addr) × List VError
  | _, [] => (st, [])
  | seen, a :: rest =>
    let n := derefD st.1 a
    let here : List VError :=
      if seen.contains n.id then [⟨n.id, Msg.duplicateId n.id⟩] else []
    let r := dupLoopSt st (n.id :: seen) rest
    (r.1, here ++ r.2)

def nodeLoopSt (ce : ContentExists) (st : Heap × List Addr) :
    List Addr → (Heap × List Addr) × List VError
  | [] => (st, [])
  | a :: rest =>
    let here := nodeErrors ce st.1 a
    let r := nodeLoopSt ce st rest
    (r.1, here ++ r.2)

def validatePlanSt (ce : ContentExists) (st : Heap × List Addr) :
    (Heap × List Addr) × ValidationResult :=
  let d := dupLoopSt st [] st.2
  let nd := nodeLoopSt ce d.1 d.1.2
  let st2 := nd.1
  let milestones := (st2.2.map (derefD st2.1)).filter (fun n => n.isMilestone)
  let t := if milestones.length > 0 then validateTimelinesE st2.1 milestones else []
  (st2, { valid := ((d.2 ++ nd.2) ++ t).isEmpty, errors := (d.2 ++ nd.2) ++ t })

def c1heap : Heap :=
  [{ id := "p", title := "p", data := NodeData.primitive },
   { id := "r", title := "r", data := NodeData.risk [0] RiskStatus.mitigated },
   { id := "c", title := "c", data := NodeData.capability [0] [1] [] [] [] },
   { id := "t", title := "t", data := NodeData.thesis [2] },
   { id := "pr", title := "pr", data := NodeData.product [2] [] [] [] }]

/-! ## Graph builder (`src/kernel/dsl.ts`)

The declarative definition types.  Fields that are optional in the
source (`field?: T`) are `Option`; the `?? default` of the source is
applied at the use site, exactly where the source applies it. -/

structure SupplierPrimitiveDef where
  title : String
  supplier : String
deriving DecidableEq, Repr

structure ToolingDef where
  title : String
  dependsOn : Option (List String) := none
  supplierPrimitives : Option (List String) := none
deriving DecidableEq, Repr

structure RiskDef where
  title : String
  mitigatedBy : List String
  status : Option RiskStatus := none
deriving DecidableEq, Repr

/-- `LeafNodeDef | CompetitorDef`. -/
inductive CompetitorEntry where
  | leaf (title : String)
  | full (title : String) (threatLevel : Option ThreatLevel)
deriving DecidableEq, Repr

structure CapabilityDef where
  title : String
  dependsOn : Option (List String) := none
  supplierPrimitives : Option (List String) := none
  risks : Option (List String) := none
  suppliers : Option (List String) := none
  tooling : Option (List String) := none
deriving DecidableEq, Repr

structure ProductDef where
  title : String
  enabledBy : List String
  customers : Option (List String) := none
  competitors : Option (List String) := none
  tooling : Option (List String) := none
deriving DecidableEq, Repr

structure ProjectDef where
  title : String
  enabledBy : List String
  tooling : Option (List String) := none
deriving DecidableEq, Repr

structure ThesisDef where
  title : String
  justifiedBy : List String
deriving DecidableEq, Repr

structure MilestoneDef where
  title : String
  expectedRevenue : Int
  expectedCosts : Int
  dependsOnMilestones : Option (List String) := none
  dependsOnCapabilities : Option (List String) := none
  products : Option (List String) := none
  gatedBy : Option (List String) := none
  timelines : Timelines
deriving DecidableEq, Repr

structure RepositoryDef where
  title : String
  url : String
  stackLevel : Int
  repoType : RepoType
  language : Option String := none
  dependsOn : Option (List String) := none
  upstream : Option String := none
  products : Option (List String) := none
  capabilities : Option (List String) := none
deriving DecidableEq, Repr

structure ConstraintDef where
  title : String
  severity : ConstraintSeverity
  category : ConstraintCategory
deriving DecidableEq, Repr

structure CompetencyDef where
  title : String
  evidencedBy : List String
deriving DecidableEq, Repr

structure DiagnosisDef where
  title : String
  evidencedBy : List String
  constrainedBy : List String
deriving DecidableEq, Repr

structure GuidingPolicyDef where
  title : String
  addressesDiagnosis : String
  leveragesCompetencies : List String
  worksAroundConstraints : List String
deriving DecidableEq, Repr

structure ProxyMetricDef where
  title : String
  currentValue : Int
  targetValue : Int
  frequency : MeasurementFrequency
  unit : String
deriving DecidableEq, Repr

structure ActionGateDef where
  title : String
  action : String
  passCriteria : List String
  proxyMetrics : List String
  blockedBy : Option (List String) := none
  unlocks : Option (List String) := none
deriving DecidableEq, Repr

structure AssumptionDef where
  title : String
  statement : String
  category : AssumptionCategory
  status : AssumptionStatus
  testMethod : String
  validationCriteria : List String
  invalidationCriteria : List String
  currentEvidence : Option (List String) := none
  confidence : Int
  reviewFrequency : ReviewFrequency
  dependentProducts : Option (List String) := none
  dependentMilestones : Option (List String) := none
  relatedRisks : Option (List String) := none
deriving DecidableEq, Repr

structure DecisionDef where
  title : String
  context : String
  category : DecisionCategory
  status : DecisionStatus
  alternatives : List RejectedAlternative
  choice : String
  rationale : String
  tradeoffs : List String
  reversalTriggers : List String
  reviewDate : String
  dependsOnAssumptions : Option (List String) := none
  affectedProducts : Option (List String) := none
  affectedMilestones : Option (List String) := none
  supersededBy : Option String := none
deriving DecidableEq, Repr

/-- The `GraphDef` record.  Each `Record<string, T>` becomes an ordered
association list (JS object keys preserve insertion order). -/
structure GraphDef where
  primitives : List (String × String) := []
  supplierPrimitives : List (String × SupplierPrimitiveDef) := []
  tooling : List (String × ToolingDef) := []
  suppliers : List (String × String) := []
  customers : List (String × String) := []
  competitors : List (String × CompetitorEntry) := []
  risks : List (String × RiskDef) := []
  capabilities : List (String × CapabilityDef) := []
  products : List (String × ProductDef) := []
  projects : List (String × ProjectDef) := []
  milestones : List (String × MilestoneDef) := []
  repositories : List (String × RepositoryDef) := []
  thesis : List (String × ThesisDef) := []
  constraints : List (String × ConstraintDef) := []
  competencies : List (String × CompetencyDef) := []
  diagnoses : List (String × DiagnosisDef) := []
  guidingPolicies : List (String × GuidingPolicyDef) := []
  proxyMetrics : List (String × ProxyMetricDef) := []
  actionGates : List (String × ActionGateDef) := []
  assumptions : List (String × AssumptionDef) := []
  decisions : List (String × DecisionDef) := []
deriving DecidableEq, Repr

/-- A `throw new Error(...)` of the builder, structured.  `render`
reproduces the exact message string of the source. -/
structure BuildError where
  srcKind : String
  srcId : String
  refNoun : String
  targetId : String
  suffix : String
deriving DecidableEq, Repr

def BuildError.render (e : BuildError) : String :=
  e.srcKind ++ " \"" ++ e.srcId ++ "\" references unknown " ++ e.refNoun ++
    " \"" ++ e.targetId ++ "\"" ++ e.suffix

def refErr (srcKind srcId noun suffix : String) : String → BuildError :=
  fun r => ⟨srcKind, srcId, noun, r, suffix⟩

/-- `new X(...)`: allocate at the end of the heap, return the address. -/
def alloc (h : Heap) (n : Node) : Heap × Addr := (h ++ [n], h.length)

/-- `ids.map(id => { const x = pool.get(id); if (!x) throw ...; return x })`. -/
def resolveRefs (m : OMap String Addr) (mk : String → BuildError) :
    List String → Except BuildError (List Addr)
  | [] => Except.ok []
  | r :: rs =>
    match omGet m r with
    | none => Except.error (mk r)
    | some a =>
      match resolveRefs m mk rs with
      | Except.error e => Except.error e
      | Except.ok as2 => Except.ok (a :: as2)

/-- One `for (const [id, def] of Object.entries(...))` construction
loop: run the per-entry body (which may throw), `new` the node, store
its reference under the id. -/
def phaseFold (step : String → δ → Except BuildError Node) :
    List (String × δ) → Heap × OMap String Addr →
    Except BuildError (Heap × OMap String Addr)
  | [], st => Except.ok st
  | (id, dd) :: rest, st =>
    match step id dd with
    | Except.error e => Except.error e
    | Except.ok n => phaseFold step rest (st.1 ++ [n], omSet st.2 id st.1.length)

def primitiveStep (id title : String) : Except BuildError Node :=
  Except.ok ⟨id, title, NodeData.primitive⟩

def supplierStep (id title : String) : Except BuildError Node :=
  Except.ok ⟨id, title, NodeData.supplier⟩

def customerStep (id title : String) : Except BuildError Node :=
  Except.ok ⟨id, title, NodeData.customer⟩

def competitorStep (id : String) (d : CompetitorEntry) : Except BuildError Node :=
  match d with
  | .leaf t => Except.ok ⟨id, t, NodeData.competitor ThreatLevel.low⟩
  | .full t tl => Except.ok ⟨id, t, NodeData.competitor (tl.getD ThreatLevel.low)⟩

def spStep (suppliers : OMap String Addr) (id : String)
    (d : SupplierPrimitiveDef) : Except BuildError Node :=
  match omGet suppliers d.supplier with
  | none => Except.error ⟨"SupplierPrimitive", id, "supplier", d.supplier, ""⟩
  | some s => Except.ok ⟨id, d.title, NodeData.supplierPrimitive s⟩

def toolingStep (primitives sps : OMap String Addr) (id : String)
    (d : ToolingDef) : Except BuildError Node := do
  let dep ← resolveRefs primitives (refErr "Tooling" id "primitive" "")
    (d.dependsOn.getD [])
  let sp ← resolveRefs sps (refErr "Tooling" id "supplier primitive" "")
    (d.supplierPrimitives.getD [])
  Except.ok ⟨id, d.title, NodeData.tooling dep sp⟩

def riskStep (primitives : OMap String Addr) (id : String)
    (d : RiskDef) : Except BuildError Node := do
  let mit ← resolveRefs primitives (refErr "Risk" id "primitive" "") d.mitigatedBy
  Except.ok ⟨id, d.title, NodeData.risk mit (d.status.getD RiskStatus.active)⟩

def capabilityStep (primitives risks suppliers sps toolingM : OMap String Addr)
    (id : String) (d : CapabilityDef) : Except BuildError Node := do
  let dep ← resolveRefs primitives (refErr "Capability" id "primitive" "")
    (d.dependsOn.getD [])
  let sp ← resolveRefs sps (refErr "Capability" id "supplier primitive" "")
    (d.supplierPrimitives.getD [])
  let tl ← resolveRefs toolingM (refErr "Capability" id "tooling" "")
    (d.tooling.getD [])
  let rk ← resolveRefs risks (refErr "Capability" id "risk" "")
    (d.risks.getD [])
  let supp ← resolveRefs suppliers (refErr "Capability" id "supplier" "")
    (d.suppliers.getD [])
  Except.ok ⟨id, d.title, NodeData.capability dep rk supp sp tl⟩

def productStep (capabilities customers competitors toolingM : OMap String Addr)
    (id : String) (d : ProductDef) : Except BuildError Node := do
  let en ← resolveRefs capabilities (refErr "Product" id "capability" "")
    d.enabledBy
  let cust ← resolveRefs customers (refErr "Product" id "customer" "")
    (d.customers.getD [])
  let comp ← resolveRefs competitors (refErr "Product" id "competitor" "")
    (d.competitors.getD [])
  let tl ← resolveRefs toolingM (refErr "Product" id "tooling" "")
    (d.tooling.getD [])
  Except.ok ⟨id, d.title, NodeData.product en cust comp tl⟩

def projectStep (capabilities toolingM : OMap String Addr)
    (id : String) (d : ProjectDef) : Except BuildError Node := do
  let en ← resolveRefs capabilities (refErr "Project" id "capability" "")
    d.enabledBy
  let tl ← resolveRefs toolingM (refErr "Project" id "tooling" "")
    (d.tooling.getD [])
  Except.ok ⟨id, d.title, NodeData.project en tl⟩

def milestoneStep (capabilities products : OMap String Addr)
    (id : String) (d : MilestoneDef) : Except BuildError Node := do
  let dcaps ← resolveRefs capabilities (refErr "Milestone" id "capability" "")
    (d.dependsOnCapabilities.getD [])
  let prods ← resolveRefs products (refErr "Milestone" id "product" "")
    (d.products.getD [])
  Except.ok ⟨id, d.title, NodeData.milestone d.expectedRevenue d.expectedCosts
    [] dcaps prods d.timelines []⟩

def thesisStep (capabilities : OMap String Addr)
    (id : String) (d : ThesisDef) : Except BuildError Node := do
  let jb ← resolveRefs capabilities (refErr "Thesis" id "capability" "")
    d.justifiedBy
  Except.ok ⟨id, d.title, NodeData.thesis jb⟩

def repoStep (products capabilities : OMap String Addr)
    (id : String) (d : RepositoryDef) : Except BuildError Node := do
  let prods ← resolveRefs products (refErr "Repository" id "product" "")
    (d.products.getD [])
  let caps ← resolveRefs capabilities (refErr "Repository" id "capability" "")
    (d.capabilities.getD [])
  Except.ok ⟨id, d.title, NodeData.repository d.url d.stackLevel d.repoType
    (d.language.getD "TypeScript") [] none prods caps⟩

def constraintStep (id : String) (d : ConstraintDef) : Except BuildError Node :=
  Except.ok ⟨id, d.title, NodeData.constraint d.severity d.category⟩

def pmStep (id : String) (d : ProxyMetricDef) : Except BuildError Node :=
  Except.ok ⟨id, d.title,
    NodeData.proxyMetric d.currentValue d.targetValue d.frequency d.unit⟩

def competencyStep (repositories : OMap String Addr)
    (id : String) (d : CompetencyDef) : Except BuildError Node := do
  let ev ← resolveRefs repositories (refErr "Competency" id "repository" "")
    d.evidencedBy
  Except.ok ⟨id, d.title, NodeData.competency ev⟩

def diagnosisStep (risks constraints : OMap String Addr)
    (id : String) (d : DiagnosisDef) : Except BuildError Node := do
  let ev ← resolveRefs risks (refErr "Diagnosis" id "risk" "") d.evidencedBy
  let cb ← resolveRefs constraints (refErr "Diagnosis" id "constraint" "")
    d.constrainedBy
  Except.ok ⟨id, d.title, NodeData.diagnosis ev cb⟩

def gateStep (proxyMetrics : OMap String Addr)
    (id : String) (d : ActionGateDef) : Except BuildError Node := do
  let pm ← resolveRefs proxyMetrics (refErr "ActionGate" id "proxy metric" "")
    d.proxyMetrics
  Except.ok ⟨id, d.title, NodeData.actionGate d.action d.passCriteria pm [] []⟩

def gpStep (diagnoses competencies constraints : OMap String Addr)
    (id : String) (d : GuidingPolicyDef) : Except BuildError Node :=
  match omGet diagnoses d.addressesDiagnosis with
  | none => Except.error
      ⟨"GuidingPolicy", id, "diagnosis", d.addressesDiagnosis, ""⟩
  | some diag => do
    let lev ← resolveRefs competencies (refErr "GuidingPolicy" id "competency" "")
      d.leveragesCompetencies
    let wac ← resolveRefs constraints (refErr "GuidingPolicy" id "constraint" "")
      d.worksAroundConstraints
    Except.ok ⟨id, d.title, NodeData.guidingPolicy diag lev wac⟩

def assumptionStep (products milestones risks : OMap String Addr)
    (id : String) (d : AssumptionDef) : Except BuildError Node := do
  let dp ← resolveRefs products (refErr "Assumption" id "product" "")
    (d.dependentProducts.getD [])
  let dm ← resolveRefs milestones (refErr "Assumption" id "milestone" "")
    (d.dependentMilestones.getD [])
  let rr ← resolveRefs risks (refErr "Assumption" id "risk" "")
    (d.relatedRisks.getD [])
  Except.ok ⟨id, d.title, NodeData.assumption d.statement d.category d.status
    d.testMethod d.validationCriteria d.invalidationCriteria
    (d.currentEvidence.getD []) d.confidence d.reviewFrequency dp dm rr⟩

def decisionStep (assumptions products milestones : OMap String Addr)
    (id : String) (d : DecisionDef) : Except BuildError Node := do
  let das ← resolveRefs assumptions (refErr "Decision" id "assumption" "")
    (d.dependsOnAssumptions.getD [])
  let aps ← resolveRefs products (refErr "Decision" id "product" "")
    (d.affectedProducts.getD [])
  let ams ← resolveRefs milestones (refErr "Decision" id "milestone" "")
    (d.affectedMilestones.getD [])
  Except.ok ⟨id, d.title, NodeData.decision d.context d.category d.status
    d.alternatives d.choice d.rationale d.tradeoffs d.reversalTriggers
    d.reviewDate das aps ams none⟩

/-- The `xDeps.set(id, ...)` bookkeeping performed during a pass-1 loop,
computed over the same entries (the two maps never interact). -/
def buildDepsMap (f : δ → β) : List (String × δ) → OMap String β → OMap String β
  | [], m => m
  | (id, dd) :: rest, m => buildDepsMap f rest (omSet m id (f dd))

/-- JS truthiness of `string | undefined`: `undefined` and `""` are falsy. -/
def jsTruthyStr : Option String → Bool
  | none => false
  | some s => !(s == "")

/-- Phase 8 pass 2: resolve milestone→milestone dependencies, rebuilding
each milestone with the resolved list (the constructor default leaves
`gatedBy` empty again). -/
def milestonePass2 : Heap → OMap String Addr → List (String × List String) →
    Except BuildError (Heap × OMap String Addr)
  | h, m, [] => Except.ok (h, m)
  | h, m, (id, depIds) :: rest =>
    if depIds.isEmpty then milestonePass2 h m rest
    else
      match resolveRefs m (refErr "Milestone" id "milestone" "") depIds with
      | Except.error e => Except.error e
      | Except.ok deps =>
        let ex := derefD h ((omGet m id).getD 0)
        let newNode : Node :=
          match ex.data with
          | NodeData.milestone rev costs _ dcaps prods tls _ =>
              ⟨ex.id, ex.title, NodeData.milestone rev costs deps dcaps prods tls []⟩
          | dOther => ⟨ex.id, ex.title, dOther⟩
        milestonePass2 (h ++ [newNode]) (omSet m id h.length) rest

/-- Phase 10 pass 2: resolve repository→repository `dependsOn` and
`upstream`; the skip and throw conditions follow JS truthiness of the
optional upstream string. -/
def repoPass2 : Heap → OMap String Addr →
    List (String × (List String × Option String)) →
    Except BuildError (Heap × OMap String Addr)
  | h, m, [] => Except.ok (h, m)
  | h, m, (id, deps) :: rest =>
    if deps.1.isEmpty && !(jsTruthyStr deps.2) then repoPass2 h m rest
    else
      match resolveRefs m (refErr "Repository" id "repository" "") deps.1 with
      | Except.error e => Except.error e
      | Except.ok dependsOnRepos =>
        match (match deps.2 with
               | some s =>
                 if s = "" then Except.ok (none : Option Addr)
                 else
                   match omGet m s with
                   | some a => Except.ok (some a)
                   | none => Except.error
                       (⟨"Repository", id, "upstream repository", s, ""⟩ : BuildError)
               | none => Except.ok none) with
        | Except.error e => Except.error e
        | Except.ok upstreamRepo =>
          let ex := derefD h ((omGet m id).getD 0)
          let newNode : Node :=
            match ex.data with
            | NodeData.repository url sl rt lang _ _ prods caps =>
                ⟨ex.id, ex.title,
                  NodeData.repository url sl rt lang dependsOnRepos upstreamRepo prods caps⟩
            | dOther => ⟨ex.id, ex.title, dOther⟩
          repoPass2 (h ++ [newNode]) (omSet m id h.length) rest

/-- Phase 15 pass 2: resolve action-gate `blockedBy` and `unlocks`. -/
def gatePass2 : Heap → OMap String Addr →
    List (String × (List String × List String)) →
    Except BuildError (Heap × OMap String Addr)
  | h, m, [] => Except.ok (h, m)
  | h, m, (id, deps) :: rest =>
    if deps.1.isEmpty && deps.2.isEmpty then gatePass2 h m rest
    else
      match resolveRefs m (refErr "ActionGate" id "action gate" " in blockedBy")
          deps.1 with
      | Except.error e => Except.error e
      | Except.ok blockedBy =>
        match resolveRefs m (refErr "ActionGate" id "action gate" " in unlocks")
            deps.2 with
        | Except.error e => Except.error e
        | Except.ok unlocks =>
          let ex := derefD h ((omGet m id).getD 0)
          let newNode : Node :=
            match ex.data with
            | NodeData.actionGate act pc pm _ _ =>
                ⟨ex.id, ex.title, NodeData.actionGate act pc pm blockedBy unlocks⟩
            | dOther => ⟨ex.id, ex.title, dOther⟩
          gatePass2 (h ++ [newNode]) (omSet m id h.length) rest

/-- Phase 17: `gatedBy` back-patch, rebuilding each gated milestone with
the resolved gates. -/
def gatedByPass (gates : OMap String Addr) : Heap → OMap String Addr →
    List (String × MilestoneDef) → Except BuildError (Heap × OMap String Addr)
  | h, m, [] => Except.ok (h, m)
  | h, m, (id, msDef) :: rest =>
    let gatedByIds := msDef.gatedBy.getD []
    if gatedByIds.isEmpty then gatedByPass gates h m rest
    else
      match resolveRefs gates (refErr "Milestone" id "action gate" " in gatedBy")
          gatedByIds with
      | Except.error e => Except.error e
      | Except.ok gb =>
        let ex := derefD h ((omGet m id).getD 0)
        let newNode : Node :=
          match ex.data with
          | NodeData.milestone rev costs deps dcaps prods tls _ =>
              ⟨ex.id, ex.title, NodeData.milestone rev costs deps dcaps prods tls gb⟩
          | dOther => ⟨ex.id, ex.title, dOther⟩
        gatedByPass gates (h ++ [newNode]) (omSet m id h.length) rest

/-- Phase 19 pass 2: resolve decision `supersededBy`. -/
def decisionPass2 : Heap → OMap String Addr → List (String × Option String) →
    Except BuildError (Heap × OMap String Addr)
  | h, m, [] => Except.ok (h, m)
  | h, m, (id, sup) :: rest =>
    match sup with
    | none => decisionPass2 h m rest
    | some s =>
      if s = "" then decisionPass2 h m rest
      else
        match omGet m s with
        | none => Except.error
            (⟨"Decision", id, "decision", s, " in supersededBy"⟩ : BuildError)
        | some supAddr =>
          let ex := derefD h ((omGet m id).getD 0)
          let newNode : Node :=
            match ex.data with
            | NodeData.decision ctx cat st alts ch rat tr rev rd das aps ams _ =>
                ⟨ex.id, ex.title,
                  NodeData.decision ctx cat st alts ch rat tr rev rd das aps ams
                    (some supAddr)⟩
            | dOther => ⟨ex.id, ex.title, dOther⟩
          decisionPass2 (h ++ [newNode]) (omSet m id h.length) rest

/-- `defineGraph`: the 19-phase builder.  Returns the final heap and the
ordered node sequence (the concatenation of the maps' values in the
source's return order). -/
def defineGraph (d : GraphDef) : Except BuildError (Heap × List Addr) := do
  let (h1, primitives) ← phaseFold primitiveStep d.primitives ([], [])
  let (h2, suppliers) ← phaseFold supplierStep d.suppliers (h1, [])
  let (h3, customers) ← phaseFold customerStep d.customers (h2, [])
  let (h4, competitors) ← phaseFold competitorStep d.competitors (h3, [])
  let (h5, supplierPrimitives) ←
    phaseFold (spStep suppliers) d.supplierPrimitives (h4, [])
  let (h6, toolingM) ←
    phaseFold (toolingStep primitives supplierPrimitives) d.tooling (h5, [])
  let (h7, risks) ← phaseFold (riskStep primitives) d.risks (h6, [])
  let (h8, capabilities) ←
    phaseFold (capabilityStep primitives risks suppliers supplierPrimitives toolingM)
      d.capabilities (h7, [])
  let (h9, products) ←
    phaseFold (productStep capabilities customers competitors toolingM)
      d.products (h8, [])
  let (h10, projects) ←
    phaseFold (projectStep capabilities toolingM) d.projects (h9, [])
  let (h11, milestones1) ←
    phaseFold (milestoneStep capabilities products) d.milestones (h10, [])
  let (h12, milestones2) ← milestonePass2 h11 milestones1
    (buildDepsMap (fun dd => dd.dependsOnMilestones.getD []) d.milestones [])
  let (h13, theses) ← phaseFold (thesisStep capabilities) d.thesis (h12, [])
  let (h14, repos1) ←
    phaseFold (repoStep products capabilities) d.repositories (h13, [])
  let (h15, repos2) ← repoPass2 h14 repos1
    (buildDepsMap (fun dd => (dd.dependsOn.getD [], dd.upstream)) d.repositories [])
  let (h16, constraints) ← phaseFold constraintStep d.constraints (h15, [])
  let (h17, proxyMetrics) ← phaseFold pmStep d.proxyMetrics (h16, [])
  let (h18, competencies) ←
    phaseFold (competencyStep repos2) d.competencies (h17, [])
  let (h19, diagnoses) ←
    phaseFold (diagnosisStep risks constraints) d.diagnoses (h18, [])
  let (h20, gates1) ← phaseFold (gateStep proxyMetrics) d.actionGates (h19, [])
  let (h21, gates2) ← gatePass2 h20 gates1
    (buildDepsMap (fun dd => (dd.blockedBy.getD [], dd.unlocks.getD []))
      d.actionGates [])
  let (h22, guidingPolicies) ←
    phaseFold (gpStep diagnoses competencies constraints) d.guidingPolicies (h21, [])
  let (h23, milestones3) ← gatedByPass gates2 h22 milestones2 d.milestones
  let (h24, assumptions) ←
    phaseFold (assumptionStep products milestones3 risks) d.assumptions (h23, [])
  let (h25, decisions1) ←
    phaseFold (decisionStep assumptions products milestones3) d.decisions (h24, [])
  let (h26, decisions2) ← decisionPass2 h25 decisions1
    (buildDepsMap (fun dd => dd.supersededBy) d.decisions [])
  Except.ok (h26,
    omValues primitives ++ omValues suppliers ++ omValues supplierPrimitives
      ++ omValues toolingM ++ omValues customers ++ omValues competitors
      ++ omValues risks ++ omValues capabilities ++ omValues products
      ++ omValues projects ++ omValues milestones3 ++ omValues repos2
      ++ omValues theses ++ omValues constraints ++ omValues proxyMetrics
      ++ omValues competencies ++ omValues diagnoses ++ omValues gates2
      ++ omValues guidingPolicies ++ omValues assumptions ++ omValues decisions2)

/-! ## Builder invariants -/

/-- Every reference field of a node, collected (including the optional
`upstream`, `supersededBy` and the single `addressesDiagnosis`). -/
def refsOf : NodeData → List Addr
  | .primitive => []
  | .supplier => []
  | .customer => []
  | .competitor _ => []
  | .supplierPrimitive s => [s]
  | .tooling dep sp => dep ++ sp
  | .risk mit _ => mit
  | .capability dep rk sup sp tl => dep ++ rk ++ sup ++ sp ++ tl
  | .product en cu co tl => en ++ cu ++ co ++ tl
  | .project en tl => en ++ tl
  | .thesis jb => jb
  | .milestone _ _ dm dc pr _ gb => dm ++ dc ++ pr ++ gb
  | .repository _ _ _ _ dep up pr ca => dep ++ up.toList ++ pr ++ ca
  | .constraint _ _ => []
  | .competency ev => ev
  | .diagnosis ev cb => ev ++ cb
  | .guidingPolicy ad lc wc => ad :: (lc ++ wc)
  | .proxyMetric _ _ _ _ => []
  | .actionGate _ _ pm bb ul => pm ++ bb ++ ul
  | .assumption _ _ _ _ _ _ _ _ _ dp dm rr => dp ++ dm ++ rr
  | .decision _ _ _ _ _ _ _ _ _ das aps ams sup => das ++ aps ++ ams ++ sup.toList

/-- All ids declared anywhere in the definition. -/
def SectionIds (d : GraphDef) : List String :=
  omKeys d.primitives ++ omKeys d.suppliers ++ omKeys d.supplierPrimitives
    ++ omKeys d.tooling ++ omKeys d.customers ++ omKeys d.competitors
    ++ omKeys d.risks ++ omKeys d.capabilities ++ omKeys d.products
    ++ omKeys d.projects ++ omKeys d.milestones ++ omKeys d.repositories
    ++ omKeys d.thesis ++ omKeys d.constraints ++ omKeys d.proxyMetrics
    ++ omKeys d.competencies ++ omKeys d.diagnoses ++ omKeys d.guidingPolicies
    ++ omKeys d.actionGates ++ omKeys d.assumptions ++ omKeys d.decisions

/-- The per-map invariant: each stored address is a live heap node whose
id is the map key and whose data satisfies the kind predicate. -/
def MapInv (h : Heap) (m : OMap String Addr) (K : NodeData → Prop) : Prop :=
  ∀ p ∈ m, p.2 < h.length ∧ (derefD h p.2).id = p.1 ∧ K (derefD h p.2).data

/-- The heap invariant: every reference of every heap node is a live
address whose node's id is a declared id. -/
def HeapOk (Ks : List String) (h : Heap) : Prop :=
  ∀ n ∈ h, ∀ r ∈ refsOf n.data, r < h.length ∧ (derefD h r).id ∈ Ks

def tlZero : Timelines :=
  { expected := ⟨0, 0, false⟩, aggressive := ⟨0, 0, false⟩,
    speedOfLight := ⟨0, 0, false⟩ }

/-- Three chained milestones: `a` depends on `b`, `b` depends on `c`.
In pass 2 `a` is rebuilt before `b`, so `a`'s resolved reference is the
pass-1 instance of `b`, which the pass-2 rebuild of `b` then replaces. -/
def c2def : GraphDef :=
  { milestones :=
      [("a", { title := "a", expectedRevenue := 0, expectedCosts := 0,
               dependsOnMilestones := some ["b"], timelines := tlZero }),
       ("b", { title := "b", expectedRevenue := 0, expectedCosts := 0,
               dependsOnMilestones := some ["c"], timelines := tlZero }),
       ("c", { title := "c", expectedRevenue := 0, expectedCosts := 0,
               timelines := tlZero })] }

/-- The heap `defineGraph c2def` produces: addresses 0–2 are the pass-1
instances, 3 and 4 the pass-2 rebuilds of `a` and `b`. -/
def c2heap : Heap :=
  [{ id := "a", title := "a", data := NodeData.milestone 0 0 [] [] [] tlZero [] },
   { id := "b", title := "b", data := NodeData.milestone 0 0 [] [] [] tlZero [] },
   { id := "c", title := "c", data := NodeData.milestone 0 0 [] [] [] tlZero [] },
   { id := "a", title := "a", data := NodeData.milestone 0 0 [1] [] [] tlZero [] },
   { id := "b", title := "b", data := NodeData.milestone 0 0 [2] [] [] tlZero [] }]

def c8def : GraphDef :=
  { supplierPrimitives := [("sp", { title := "SP", supplier := "s" })],
    suppliers := [("s", "S")],
    customers := [("c", "C")] }

def c8heap : Heap :=
  [{ id := "s", title := "S", data := NodeData.supplier },
   { id := "c", title := "C", data := NodeData.customer },
   { id := "sp", title := "SP", data := NodeData.supplierPrimitive 0 }]

/-- The index of each kind in the order of the return concatenation of
`defineGraph`. -/
def kindIdx : NodeData → Nat
  | .primitive => 0
  | .supplier => 1
  | .supplierPrimitive _ => 2
  | .tooling _ _ => 3
  | .customer => 4
  | .competitor _ => 5
  | .risk _ _ => 6
  | .capability _ _ _ _ _ => 7
  | .product _ _ _ _ => 8
  | .project _ _ => 9
  | .milestone _ _ _ _ _ _ _ => 10
  | .repository _ _ _ _ _ _ _ _ => 11
  | .thesis _ => 12
  | .constraint _ _ => 13
  | .proxyMetric _ _ _ _ => 14
  | .competency _ => 15
  | .diagnosis _ _ => 16
  | .actionGate _ _ _ _ _ => 17
  | .guidingPolicy _ _ _ => 18
  | .assumption _ _ _ _ _ _ _ _ _ _ _ _ => 19
  | .decision _ _ _ _ _ _ _ _ _ _ _ _ _ => 20

/-- The conjunction of all reference conditions checked by a pass-1
construction loop of `defineGraph` (the `gatedBy` back-patch iterates the
milestone definitions directly, so it appears here too). -/
def WFpass1 (d : GraphDef) : Prop :=
  (∀ p ∈ d.supplierPrimitives, p.2.supplier ∈ omKeys d.suppliers) ∧
  (∀ p ∈ d.tooling,
    (∀ r ∈ p.2.dependsOn.getD [], r ∈ omKeys d.primitives) ∧
    (∀ r ∈ p.2.supplierPrimitives.getD [], r ∈ omKeys d.supplierPrimitives)) ∧
  (∀ p ∈ d.risks, ∀ r ∈ p.2.mitigatedBy, r ∈ omKeys d.primitives) ∧
  (∀ p ∈ d.capabilities,
    (∀ r ∈ p.2.dependsOn.getD [], r ∈ omKeys d.primitives) ∧
    (∀ r ∈ p.2.supplierPrimitives.getD [], r ∈ omKeys d.supplierPrimitives) ∧
    (∀ r ∈ p.2.tooling.getD [], r ∈ omKeys d.tooling) ∧
    (∀ r ∈ p.2.risks.getD [], r ∈ omKeys d.risks) ∧
    (∀ r ∈ p.2.suppliers.getD [], r ∈ omKeys d.suppliers)) ∧
  (∀ p ∈ d.products,
    (∀ r ∈ p.2.enabledBy, r ∈ omKeys d.capabilities) ∧
    (∀ r ∈ p.2.customers.getD [], r ∈ omKeys d.customers) ∧
    (∀ r ∈ p.2.competitors.getD [], r ∈ omKeys d.competitors) ∧
    (∀ r ∈ p.2.tooling.getD [], r ∈ omKeys d.tooling)) ∧
  (∀ p ∈ d.projects,
    (∀ r ∈ p.2.enabledBy, r ∈ omKeys d.capabilities) ∧
    (∀ r ∈ p.2.tooling.getD [], r ∈ omKeys d.tooling)) ∧
  (∀ p ∈ d.milestones,
    (∀ r ∈ p.2.dependsOnCapabilities.getD [], r ∈ omKeys d.capabilities) ∧
    (∀ r ∈ p.2.products.getD [], r ∈ omKeys d.products) ∧
    (∀ r ∈ p.2.gatedBy.getD [], r ∈ omKeys d.actionGates)) ∧
  (∀ p ∈ d.thesis, ∀ r ∈ p.2.justifiedBy, r ∈ omKeys d.capabilities) ∧
  (∀ p ∈ d.repositories,
    (∀ r ∈ p.2.products.getD [], r ∈ omKeys d.products) ∧
    (∀ r ∈ p.2.capabilities.getD [], r ∈ omKeys d.capabilities)) ∧
  (∀ p ∈ d.competencies, ∀ r ∈ p.2.evidencedBy, r ∈ omKeys d.repositories) ∧
  (∀ p ∈ d.diagnoses,
    (∀ r ∈ p.2.evidencedBy, r ∈ omKeys d.risks) ∧
    (∀ r ∈ p.2.constrainedBy, r ∈ omKeys d.constraints)) ∧
  (∀ p ∈ d.actionGates, ∀ r ∈ p.2.proxyMetrics, r ∈ omKeys d.proxyMetrics) ∧
  (∀ p ∈ d.guidingPolicies,
    p.2.addressesDiagnosis ∈ omKeys d.diagnoses ∧
    (∀ r ∈ p.2.leveragesCompetencies, r ∈ omKeys d.competencies) ∧
    (∀ r ∈ p.2.worksAroundConstraints, r ∈ omKeys d.constraints)) ∧
  (∀ p ∈ d.assumptions,
    (∀ r ∈ p.2.dependentProducts.getD [], r ∈ omKeys d.products) ∧
    (∀ r ∈ p.2.dependentMilestones.getD [], r ∈ omKeys d.milestones) ∧
    (∀ r ∈ p.2.relatedRisks.getD [], r ∈ omKeys d.risks)) ∧
  (∀ p ∈ d.decisions,
    (∀ r ∈ p.2.dependsOnAssumptions.getD [], r ∈ omKeys d.assumptions) ∧
    (∀ r ∈ p.2.affectedProducts.getD [], r ∈ omKeys d.products) ∧
    (∀ r ∈ p.2.affectedMilestones.getD [], r ∈ omKeys d.milestones))

/-- The reference conditions checked by the second-pass loops, which
iterate the dependency *maps* recorded during pass 1 (so, per id, only
the last definition's fields when an id repeats). -/
def EntryChecks (d : GraphDef) : Prop :=
  (∀ p ∈ buildDepsMap (fun dd : MilestoneDef => dd.dependsOnMilestones.getD [])
      d.milestones [],
    ∀ r ∈ p.2, r ∈ omKeys d.milestones) ∧
  (∀ p ∈ buildDepsMap
      (fun dd : RepositoryDef => (dd.dependsOn.getD [], dd.upstream))
      d.repositories [],
    (∀ r ∈ p.2.1, r ∈ omKeys d.repositories) ∧
    (jsTruthyStr p.2.2 = true → p.2.2.getD "" ∈ omKeys d.repositories)) ∧
  (∀ p ∈ buildDepsMap
      (fun dd : ActionGateDef => (dd.blockedBy.getD [], dd.unlocks.getD []))
      d.actionGates [],
    (∀ r ∈ p.2.1, r ∈ omKeys d.actionGates) ∧
    (∀ r ∈ p.2.2, r ∈ omKeys d.actionGates)) ∧
  (∀ p ∈ buildDepsMap (fun dd : DecisionDef => dd.supersededBy) d.decisions [],
    jsTruthyStr p.2 = true → p.2.getD "" ∈ omKeys d.decisions)

/-- Every string-id reference of the declarative definition resolves
within the keys of the section the builder checks it against (the spec's
error condition, negated).  Optional upstream/supersededBy strings are
checked only when JS-truthy, matching the builder's guards. -/
def WellFormedDef (d : GraphDef) : Prop :=
  WFpass1 d ∧
  (∀ p ∈ d.milestones,
    ∀ r ∈ p.2.dependsOnMilestones.getD [], r ∈ omKeys d.milestones) ∧
  (∀ p ∈ d.repositories,
    (∀ r ∈ p.2.dependsOn.getD [], r ∈ omKeys d.repositories) ∧
    (jsTruthyStr p.2.upstream = true →
      p.2.upstream.getD "" ∈ omKeys d.repositories)) ∧
  (∀ p ∈ d.actionGates,
    (∀ r ∈ p.2.blockedBy.getD [], r ∈ omKeys d.actionGates) ∧
    (∀ r ∈ p.2.unlocks.getD [], r ∈ omKeys d.actionGates)) ∧
  (∀ p ∈ d.decisions,
    jsTruthyStr p.2.supersededBy = true →
      p.2.supersededBy.getD "" ∈ omKeys d.decisions)

/-- The thrown error names a referencing definition's id, its kind, and a
reference that does not resolve in the section the builder checks it
against, stated over the declarative definition. -/
def DanglingError (d : GraphDef) (e : BuildError) : Prop :=
  (∃ p ∈ d.supplierPrimitives,
    e = ⟨"SupplierPrimitive", p.1, "supplier", p.2.supplier, ""⟩ ∧
    p.2.supplier ∉ omKeys d.suppliers) ∨
  (∃ p ∈ d.tooling,
    (∃ r ∈ p.2.dependsOn.getD [],
      e = ⟨"Tooling", p.1, "primitive", r, ""⟩ ∧ r ∉ omKeys d.primitives) ∨
    (∃ r ∈ p.2.supplierPrimitives.getD [],
      e = ⟨"Tooling", p.1, "supplier primitive", r, ""⟩ ∧
      r ∉ omKeys d.supplierPrimitives)) ∨
  (∃ p ∈ d.risks, ∃ r ∈ p.2.mitigatedBy,
    e = ⟨"Risk", p.1, "primitive", r, ""⟩ ∧ r ∉ omKeys d.primitives) ∨
  (∃ p ∈ d.capabilities,
    (∃ r ∈ p.2.dependsOn.getD [],
      e = ⟨"Capability", p.1, "primitive", r, ""⟩ ∧ r ∉ omKeys d.primitives) ∨
    (∃ r ∈ p.2.supplierPrimitives.getD [],
      e = ⟨"Capability", p.1, "supplier primitive", r, ""⟩ ∧
      r ∉ omKeys d.supplierPrimitives) ∨
    (∃ r ∈ p.2.tooling.getD [],
      e = ⟨"Capability", p.1, "tooling", r, ""⟩ ∧ r ∉ omKeys d.tooling) ∨
    (∃ r ∈ p.2.risks.getD [],
      e = ⟨"Capability", p.1, "risk", r, ""⟩ ∧ r ∉ omKeys d.risks) ∨
    (∃ r ∈ p.2.suppliers.getD [],
      e = ⟨"Capability", p.1, "supplier", r, ""⟩ ∧ r ∉ omKeys d.suppliers)) ∨
  (∃ p ∈ d.products,
    (∃ r ∈ p.2.enabledBy,
      e = ⟨"Product", p.1, "capability", r, ""⟩ ∧ r ∉ omKeys d.capabilities) ∨
    (∃ r ∈ p.2.customers.getD [],
      e = ⟨"Product", p.1, "customer", r, ""⟩ ∧ r ∉ omKeys d.customers) ∨
    (∃ r ∈ p.2.competitors.getD [],
      e = ⟨"Product", p.1, "competitor", r, ""⟩ ∧ r ∉ omKeys d.competitors) ∨
    (∃ r ∈ p.2.tooling.getD [],
      e = ⟨"Product", p.1, "tooling", r, ""⟩ ∧ r ∉ omKeys d.tooling)) ∨
  (∃ p ∈ d.projects,
    (∃ r ∈ p.2.enabledBy,
      e = ⟨"Project", p.1, "capability", r, ""⟩ ∧ r ∉ omKeys d.capabilities) ∨
    (∃ r ∈ p.2.tooling.getD [],
      e = ⟨"Project", p.1, "tooling", r, ""⟩ ∧ r ∉ omKeys d.tooling)) ∨
  (∃ p ∈ d.milestones,
    (∃ r ∈ p.2.dependsOnCapabilities.getD [],
      e = ⟨"Milestone", p.1, "capability", r, ""⟩ ∧
      r ∉ omKeys d.capabilities) ∨
    (∃ r ∈ p.2.products.getD [],
      e = ⟨"Milestone", p.1, "product", r, ""⟩ ∧ r ∉ omKeys d.products)) ∨
  (∃ p ∈ d.milestones, ∃ r ∈ p.2.dependsOnMilestones.getD [],
    e = ⟨"Milestone", p.1, "milestone", r, ""⟩ ∧ r ∉ omKeys d.milestones) ∨
  (∃ p ∈ d.thesis, ∃ r ∈ p.2.justifiedBy,
    e = ⟨"Thesis", p.1, "capability", r, ""⟩ ∧ r ∉ omKeys d.capabilities) ∨
  (∃ p ∈ d.repositories,
    (∃ r ∈ p.2.products.getD [],
      e = ⟨"Repository", p.1, "product", r, ""⟩ ∧ r ∉ omKeys d.products) ∨
    (∃ r ∈ p.2.capabilities.getD [],
      e = ⟨"Repository", p.1, "capability", r, ""⟩ ∧
      r ∉ omKeys d.capabilities)) ∨
  (∃ p ∈ d.repositories,
    (∃ r ∈ p.2.dependsOn.getD [],
      e = ⟨"Repository", p.1, "repository", r, ""⟩ ∧
      r ∉ omKeys d.repositories) ∨
    (jsTruthyStr p.2.upstream = true ∧
      e = ⟨"Repository", p.1, "upstream repository", p.2.upstream.getD "", ""⟩ ∧
      p.2.upstream.getD "" ∉ omKeys d.repositories)) ∨
  (∃ p ∈ d.competencies, ∃ r ∈ p.2.evidencedBy,
    e = ⟨"Competency", p.1, "repository", r, ""⟩ ∧
    r ∉ omKeys d.repositories) ∨
  (∃ p ∈ d.diagnoses,
    (∃ r ∈ p.2.evidencedBy,
      e = ⟨"Diagnosis", p.1, "risk", r, ""⟩ ∧ r ∉ omKeys d.risks) ∨
    (∃ r ∈ p.2.constrainedBy,
      e = ⟨"Diagnosis", p.1, "constraint", r, ""⟩ ∧
      r ∉ omKeys d.constraints)) ∨
  (∃ p ∈ d.actionGates, ∃ r ∈ p.2.proxyMetrics,
    e = ⟨"ActionGate", p.1, "proxy metric", r, ""⟩ ∧
    r ∉ omKeys d.proxyMetrics) ∨
  (∃ p ∈ d.actionGates,
    (∃ r ∈ p.2.blockedBy.getD [],
      e = ⟨"ActionGate", p.1, "action gate", r, " in blockedBy"⟩ ∧
      r ∉ omKeys d.actionGates) ∨
    (∃ r ∈ p.2.unlocks.getD [],
      e = ⟨"ActionGate", p.1, "action gate", r, " in unlocks"⟩ ∧
      r ∉ omKeys d.actionGates)) ∨
  (∃ p ∈ d.guidingPolicies,
    (e = ⟨"GuidingPolicy", p.1, "diagnosis", p.2.addressesDiagnosis, ""⟩ ∧
      p.2.addressesDiagnosis ∉ omKeys d.diagnoses) ∨
    (∃ r ∈ p.2.leveragesCompetencies,
      e = ⟨"GuidingPolicy", p.1, "competency", r, ""⟩ ∧
      r ∉ omKeys d.competencies) ∨
    (∃ r ∈ p.2.worksAroundConstraints,
      e = ⟨"GuidingPolicy", p.1, "constraint", r, ""⟩ ∧
      r ∉ omKeys d.constraints)) ∨
  (∃ p ∈ d.milestones, ∃ r ∈ p.2.gatedBy.getD [],
    e = ⟨"Milestone", p.1, "action gate", r, " in gatedBy"⟩ ∧
    r ∉ omKeys d.actionGates) ∨
  (∃ p ∈ d.assumptions,
    (∃ r ∈ p.2.dependentProducts.getD [],
      e = ⟨"Assumption", p.1, "product", r, ""⟩ ∧ r ∉ omKeys d.products) ∨
    (∃ r ∈ p.2.dependentMilestones.getD [],
      e = ⟨"Assumption", p.1, "milestone", r, ""⟩ ∧
      r ∉ omKeys d.milestones) ∨
    (∃ r ∈ p.2.relatedRisks.getD [],
      e = ⟨"Assumption", p.1, "risk", r, ""⟩ ∧ r ∉ omKeys d.risks)) ∨
  (∃ p ∈ d.decisions,
    (∃ r ∈ p.2.dependsOnAssumptions.getD [],
      e = ⟨"Decision", p.1, "assumption", r, ""⟩ ∧
      r ∉ omKeys d.assumptions) ∨
    (∃ r ∈ p.2.affectedProducts.getD [],
      e = ⟨"Decision", p.1, "product", r, ""⟩ ∧ r ∉ omKeys d.products) ∨
    (∃ r ∈ p.2.affectedMilestones.getD [],
      e = ⟨"Decision", p.1, "milestone", r, ""⟩ ∧
      r ∉ omKeys d.milestones)) ∨
  (∃ p ∈ d.decisions,
    jsTruthyStr p.2.supersededBy = true ∧
    e = ⟨"Decision", p.1, "decision", p.2.supersededBy.getD "",
      " in supersededBy"⟩ ∧
    p.2.supersededBy.getD "" ∉ omKeys d.decisions)

/-- A small well-formed definition: one primitive and a tooling
depending on it. -/
def wfDef : GraphDef :=
  { primitives := [("p1", "Primitive one")],
    tooling := [("t1", { title := "Tool", dependsOn := some ["p1"] })] }

theorem omGet_nil [BEq κ] (k : κ) : omGet ([] : OMap κ α) k = none := rfl

theorem omGet_set [DecidableEq κ] (m : OMap κ α) (k j : κ) (v : α) :
    omGet (omSet m k v) j = if j = k then some v else omGet m j := by
  induction m with
  | nil =>
    by_cases h : j = k
    · simp [omSet, omGet, h]
    · have hkj : ¬ k = j := fun h2 => h h2.symm
      simp [omSet, omGet, h, beq_iff_eq, hkj]
  | cons p t ih =>
    by_cases hpk : p.1 = k
    · by_cases hj : j = k
      · simp [omSet, omGet, hpk, hj]
      · have hkj : ¬ k = j := fun h2 => hj h2.symm
        simp [omSet, omGet, hpk, hj, beq_iff_eq, hkj]
    · by_cases hpj : p.1 = j
      · have hj : ¬ j = k := by rw [← hpj]; exact hpk
        simp [omSet, omGet, hpk, hpj, hj, beq_iff_eq]
      · simp [omSet, omGet, hpk, hpj, beq_iff_eq, ih]

theorem omKeys_set [DecidableEq κ] (m : OMap κ α) (k : κ) (v : α) :
    omKeys (omSet m k v) =
      if k ∈ omKeys m then omKeys m else omKeys m ++ [k] := by
  induction m with
  | nil => simp [omSet, omKeys]
  | cons p t ih =>
    by_cases hpk : p.1 = k
    · simp [omSet, omKeys, hpk]
    · have hkp : ¬ k = p.1 := fun h => hpk h.symm
      simp only [omSet, beq_iff_eq, hpk, if_false]
      simp only [omKeys, List.map_cons] at ih ⊢
      rw [ih]
      by_cases hk : k ∈ List.map (fun p => p.1) t <;> simp [hk, hkp]

theorem omGet_push [DecidableEq κ] (m : OMap κ (List α)) (k j : κ) (v : α) :
    omGet (omPush m k v) j =
      if j = k then (omGet m k).map (fun l => l ++ [v]) else omGet m j := by
  induction m with
  | nil => by_cases h : j = k <;> simp [omPush, omGet, h]
  | cons p t ih =>
    by_cases hpk : p.1 = k
    · by_cases hj : j = k
      · simp [omPush, omGet, hpk, hj]
      · have hkj : ¬ k = j := fun h2 => hj h2.symm
        simp [omPush, omGet, hpk, hj, beq_iff_eq, hkj]
    · by_cases hpj : p.1 = j
      · have hj : ¬ j = k := by rw [← hpj]; exact hpk
        simp [omPush, omGet, hpk, hpj, hj, beq_iff_eq]
      · simp [omPush, omGet, hpk, hpj, beq_iff_eq, ih]

theorem omKeys_push [DecidableEq κ] (m : OMap κ (List α)) (k : κ) (v : α) :
    omKeys (omPush m k v) = omKeys m := by
  induction m with
  | nil => rfl
  | cons p t ih =>
    by_cases hpk : p.1 = k <;> simp [omPush, omKeys, hpk, beq_iff_eq] at ih ⊢
    · exact ih

theorem mem_omKeys_iff_isSome [DecidableEq κ] (m : OMap κ α) (k : κ) :
    k ∈ omKeys m ↔ (omGet m k).isSome := by
  induction m with
  | nil => simp [omKeys, omGet]
  | cons p t ih =>
    simp only [omKeys, List.map_cons, List.mem_cons, omGet]
    by_cases hpk : p.1 = k
    · subst hpk
      simp
    · have hkp : ¬ k = p.1 := fun h => hpk h.symm
      simp only [beq_iff_eq, hpk, if_false, hkp, false_or]
      simpa [omKeys] using ih

theorem omGet_eq_some_mem [DecidableEq κ] (m : OMap κ α) (k : κ) (v : α)
    (h : omGet m k = some v) : (k, v) ∈ m := by
  induction m with
  | nil => simp [omGet] at h
  | cons p t ih =>
    by_cases hpk : p.1 = k
    · simp only [omGet, hpk, beq_self_eq_true, if_true, Option.some.injEq] at h
      cases p with
      | mk a b => simp_all
    · simp only [omGet, beq_iff_eq, hpk, if_false] at h
      exact List.mem_cons_of_mem _ (ih h)

theorem mem_omValues [BEq κ] (m : OMap κ α) (v : α) :
    v ∈ omValues m ↔ ∃ k, (k, v) ∈ m := by
  simp only [omValues, List.mem_map]
  constructor
  · rintro ⟨⟨k, w⟩, hm, hv⟩
    refine ⟨k, ?_⟩
    simp only at hv
    rw [hv] at hm
    exact hm
  · rintro ⟨k, hm⟩
    exact ⟨(k, v), hm, rfl⟩

theorem mem_omKeys_of_mem [BEq κ] (m : OMap κ α) (p : κ × α) (h : p ∈ m) :
    p.1 ∈ omKeys m := List.mem_map_of_mem _ h

theorem derefD_append (h t : Heap) (a : Addr) (ha : a < h.length) :
    derefD (h ++ t) a = derefD h a := by
  simp [derefD, List.getD, List.getElem?_append, ha]

theorem derefD_mem (h : Heap) (a : Addr) (ha : a < h.length) :
    derefD h a ∈ h := by
  simp only [derefD, List.getD, List.get?_eq_getElem?,
    List.getElem?_eq_getElem ha, Option.getD_some]
  exact List.getElem_mem ha

theorem deriveStep_components (h : Heap) (maps : DerivedRelations) (a : Addr) :
    deriveStep h maps a =
      { justifies := pushAll maps.justifies a (thesisRefs (derefD h a)),
        dependedOnBy := pushAll maps.dependedOnBy a (capDependsOn (derefD h a)),
        risksFor := pushAll maps.risksFor a (capRisks (derefD h a)),
        mitigates := pushAll maps.mitigates a (riskMitigatedBy (derefD h a)),
        enables := pushAll maps.enables a (prodEnabledBy (derefD h a)) } := by
  cases hd : (derefD h a).data <;>
    simp [deriveStep, thesisRefs, capDependsOn, capRisks, riskMitigatedBy,
      prodEnabledBy, hd, pushAll]

theorem deriveLoop_components (h : Heap) (nodes : List Addr)
    (maps : DerivedRelations) :
    deriveLoop h maps nodes =
      { justifies := derive1 thesisRefs h maps.justifies nodes,
        dependedOnBy := derive1 capDependsOn h maps.dependedOnBy nodes,
        risksFor := derive1 capRisks h maps.risksFor nodes,
        mitigates := derive1 riskMitigatedBy h maps.mitigates nodes,
        enables := derive1 prodEnabledBy h maps.enables nodes } := by
  induction nodes generalizing maps with
  | nil => simp [deriveLoop, derive1]
  | cons a rest ih =>
    rw [deriveLoop, derive1, derive1, derive1, derive1, derive1,
      deriveStep_components, ih]

theorem pushAll_isSome (m : OMap Addr (List Addr)) (src : Addr)
    (ts : List Addr) (j : Addr) :
    (omGet (pushAll m src ts) j).isSome = (omGet m j).isSome := by
  induction ts generalizing m with
  | nil => rfl
  | cons t ts ih =>
    rw [pushAll, ih, omGet_push]
    by_cases hj : j = t
    · subst hj
      cases omGet m j <;> simp
    · simp [hj]

theorem pushAll_mem (m : OMap Addr (List Addr)) (src : Addr)
    (ts : List Addr) (j x : Addr) :
    x ∈ slotOf (pushAll m src ts) j ↔
      x ∈ slotOf m j ∨ (x = src ∧ j ∈ ts ∧ (omGet m j).isSome) := by
  induction ts generalizing m with
  | nil => simp [pushAll]
  | cons t ts ih =>
    rw [pushAll, ih]
    simp only [slotOf, omGet_push]
    by_cases hj : j = t
    · subst hj
      simp only [if_pos rfl]
      cases hg : omGet m j with
      | none => simp
      | some l =>
        simp [List.mem_append, List.mem_singleton]
        tauto
    · simp only [if_neg hj, List.mem_cons]
      tauto

theorem derive1_isSome (f : Node → List Addr) (h : Heap)
    (nodes : List Addr) (m : OMap Addr (List Addr)) (j : Addr) :
    (omGet (derive1 f h m nodes) j).isSome = (omGet m j).isSome := by
  induction nodes generalizing m with
  | nil => rfl
  | cons a rest ih => rw [derive1, ih, pushAll_isSome]

theorem derive1_mem (f : Node → List Addr) (h : Heap)
    (nodes : List Addr) (m : OMap Addr (List Addr)) (j x : Addr) :
    x ∈ slotOf (derive1 f h m nodes) j ↔
      x ∈ slotOf m j ∨
        (x ∈ nodes ∧ j ∈ f (derefD h x) ∧ (omGet m j).isSome) := by
  induction nodes generalizing m with
  | nil => simp [derive1]
  | cons a rest ih =>
    rw [derive1, ih, pushAll_mem, pushAll_isSome]
    constructor
    · rintro ((hx | ⟨hx, hts, hs⟩) | ⟨hx, hf, hs⟩)
      · exact Or.inl hx
      · subst hx
        exact Or.inr ⟨List.mem_cons_self _ _, hts, hs⟩
      · exact Or.inr ⟨List.mem_cons_of_mem _ hx, hf, hs⟩
    · rintro (hx | ⟨hx, hf, hs⟩)
      · exact Or.inl (Or.inl hx)
      · rcases List.mem_cons.mp hx with hx | hx
        · subst hx
          exact Or.inl (Or.inr ⟨rfl, hf, hs⟩)
        · exact Or.inr ⟨hx, hf, hs⟩

theorem initLoop_get (nodes : List Addr) (m : OMap Addr (List Addr)) (j : Addr) :
    omGet (initLoop m nodes) j = if j ∈ nodes then some [] else omGet m j := by
  induction nodes generalizing m with
  | nil => simp [initLoop]
  | cons a rest ih =>
    rw [initLoop, ih]
    by_cases hj : j ∈ rest
    · simp [hj]
    · by_cases hja : j = a <;> simp [hj, hja, omGet_set]

/-- Membership characterisation of every reverse map produced by
`deriveRelations`: a key exists exactly for the nodes of the sequence,
and `x` sits in the slot of `j` exactly when `x` is a node of the
sequence holding the matching forward reference to `j`. -/
theorem deriveRelations_mem (f : Node → List Addr) (h : Heap)
    (nodes : List Addr) (j x : Addr) (hj : j ∈ nodes) :
    x ∈ slotOf (derive1 f h (initLoop [] nodes) nodes) j ↔
      x ∈ nodes ∧ j ∈ f (derefD h x) := by
  rw [derive1_mem]
  simp [slotOf, initLoop_get, hj]

/-! ## Validator characterisation lemmas -/

theorem mem_ite_singleton {c : Prop} [Decidable c] (x e : α) :
    e ∈ (if c then [x] else []) ↔ c ∧ e = x := by
  by_cases h : c <;> simp [h]

theorem mem_ite_nil_singleton {c : Prop} [Decidable c] (x e : α) :
    e ∈ (if c then [] else [x]) ↔ ¬ c ∧ e = x := by
  by_cases h : c <;> simp [h]

/-- `true` exactly on the kind-specific validation messages (those
produced by a `validateX` helper, not by the duplicate-id, content or
cross-milestone timeline checks). -/
@[simp] def Msg.nodeSpec : Msg → Bool
  | .duplicateId _ => false
  | .missingContent _ _ => false
  | .solExceeds _ => false
  | .depNotIncluded _ _ _ => false
  | .timingViolation _ _ _ _ _ => false
  | _ => true

theorem mem_validateNodeE_shape (n : Node) (e : VError) (he : e ∈ validateNodeE n) :
    e.nodeId = n.id ∧ e.message.nodeSpec = true := by
  cases hd : n.data <;>
    simp only [validateNodeE, hd, List.mem_append, List.mem_flatMap,
      mem_ite_singleton, List.not_mem_nil, List.mem_singleton,
      false_or, or_false] at he <;>
    aesop

theorem mem_dupLoop_shape (h : Heap) (seen : List String) (addrs : List Addr)
    (e : VError) (he : e ∈ dupLoop h seen addrs) :
    e = ⟨e.nodeId, Msg.duplicateId e.nodeId⟩ := by
  induction addrs generalizing seen with
  | nil => simp [dupLoop] at he
  | cons a rest ih =>
    rw [dupLoop] at he
    rcases List.mem_append.mp he with he | he
    · rcases (mem_ite_singleton _ _).mp he with ⟨_, rfl⟩
      rfl
    · exact ih _ he

theorem mem_nodeErrors_shape (ce : ContentExists) (h : Heap) (a : Addr)
    (e : VError) (he : e ∈ nodeErrors ce h a) :
    e.nodeId = (derefD h a).id ∧
      (e.message.nodeSpec = true ∨
        e.message = Msg.missingContent (derefD h a).data.kindName (derefD h a).id) := by
  rcases List.mem_append.mp he with he | he
  · rcases (mem_ite_nil_singleton _ _).mp he with ⟨_, rfl⟩
    exact ⟨rfl, Or.inr rfl⟩
  · rcases mem_validateNodeE_shape _ _ he with ⟨h1, h2⟩
    exact ⟨h1, Or.inl h2⟩

theorem mem_solErrorsE_shape (ms : List Node) (e : VError)
    (he : e ∈ solErrorsE ms) :
    ∃ maxEnd, e = ⟨"timeline-speedOfLight", Msg.solExceeds maxEnd⟩ := by
  rw [solErrorsE] at he
  rcases hm : (ms.filter (fun m => (msTimelines m).speedOfLight.included)).map
      (fun m => (msTimelines m).speedOfLight.startMonth
        + (msTimelines m).speedOfLight.durationMonths) with _ | ⟨x, rest⟩ <;>
    rw [hm] at he
  · simp at he
  · rcases (mem_ite_singleton _ _).mp he with ⟨_, rfl⟩
    exact ⟨_, rfl⟩

theorem mem_feasErrorsE_shape (h : Heap) (v : TimelineVariant) (ms : List Node)
    (e : VError) (he : e ∈ feasErrorsE h v ms) :
    ∃ msId depId, e = ⟨msId, Msg.depNotIncluded msId depId v⟩ := by
  rw [feasErrorsE] at he
  rcases List.mem_flatMap.mp he with ⟨m, hmem, hm⟩
  by_cases hinc : ((msTimelines m).get v).included <;> simp [hinc] at hm
  rcases hm with ⟨dep, hdep, hninc, rfl⟩
  exact ⟨_, _, rfl⟩

theorem mem_timingErrorsE_shape (h : Heap) (v : TimelineVariant) (ms : List Node)
    (e : VError) (he : e ∈ timingErrorsE h v ms) :
    ∃ msId s depId de, e = ⟨msId, Msg.timingViolation msId s depId de v⟩ ∧ de > s := by
  rw [timingErrorsE] at he
  rcases List.mem_flatMap.mp he with ⟨m, hmem, hm⟩
  by_cases hinc : ((msTimelines m).get v).included <;> simp [hinc] at hm
  rcases hm with ⟨dep, hdep, hd, hgt, rfl⟩
  exact ⟨_, _, _, _, rfl, hgt⟩

@[simp] def Msg.isSolMsg : Msg → Bool
  | .solExceeds _ => true
  | _ => false

theorem nodeSpec_not_dup {m : Msg} (hm : m.nodeSpec = true) (s : String) :
    m ≠ Msg.duplicateId s := by
  cases m <;> simp_all

theorem nodeSpec_not_sol {m : Msg} (hm : m.nodeSpec = true) :
    m.isSolMsg = false := by
  cases m <;> simp_all

theorem nodeSpec_not_timing {m : Msg} (hm : m.nodeSpec = true)
    (a : String) (b : Int) (c : String) (d : Int) (v : TimelineVariant) :
    m ≠ Msg.timingViolation a b c d v := by
  cases m <;> simp_all

theorem solErrorsE_eq (ms : List Node) :
    solErrorsE ms =
      (if ((ms.filter (fun m => (msTimelines m).speedOfLight.included)).map
            (fun m => (msTimelines m).speedOfLight.startMonth
              + (msTimelines m).speedOfLight.durationMonths)) ≠ [] ∧
          solMax ((ms.filter (fun m => (msTimelines m).speedOfLight.included)).map
            (fun m => (msTimelines m).speedOfLight.startMonth
              + (msTimelines m).speedOfLight.durationMonths)) > 12
       then [⟨"timeline-speedOfLight",
              Msg.solExceeds (solMax ((ms.filter
                (fun m => (msTimelines m).speedOfLight.included)).map
                  (fun m => (msTimelines m).speedOfLight.startMonth
                    + (msTimelines m).speedOfLight.durationMonths)))⟩]
       else []) := by
  rw [solErrorsE]
  rcases hm : (ms.filter (fun m => (msTimelines m).speedOfLight.included)).map
      (fun m => (msTimelines m).speedOfLight.startMonth
        + (msTimelines m).speedOfLight.durationMonths) with _ | ⟨x, rest⟩
  · simp
  · simp only [solMax, ne_eq, reduceCtorEq, not_false_eq_true, true_and]

theorem dupLoop_countP (h : Heap) (s : String) (addrs : List Addr)
    (seen : List String) :
    (dupLoop h seen addrs).countP (fun e => e.message == Msg.duplicateId s) =
      if s ∈ seen then (addrs.map (fun a => (derefD h a).id)).count s
      else (addrs.map (fun a => (derefD h a).id)).count s - 1 := by
  induction addrs generalizing seen with
  | nil => simp [dupLoop]
  | cons a rest ih =>
    rw [dupLoop, List.countP_append, ih]
    by_cases hid : (derefD h a).id = s
    · subst hid
      by_cases hs : (derefD h a).id ∈ seen
      · have hc : seen.contains (derefD h a).id = true := List.elem_iff.mpr hs
        simp [hc, hs, List.count_cons, List.countP_cons, Nat.add_comm]
      · have hc : seen.contains (derefD h a).id = false := by
          simp [List.elem_iff, hs]
        simp [hc, hs, List.count_cons]
    · have hmem : s ∈ (derefD h a).id :: seen ↔ s ∈ seen := by
        simp only [List.mem_cons, or_iff_right_iff_imp]
        intro heq
        exact absurd heq.symm hid
      have hne : ¬ (Msg.duplicateId (derefD h a).id = Msg.duplicateId s) := by
        intro h2
        exact hid (by injection h2)
      by_cases hc : seen.contains (derefD h a).id <;>
        simp [hc, hmem, List.count_cons, hid, List.countP_cons, hne]

theorem dupLoop_nil (h : Heap) (addrs : List Addr) (seen : List String)
    (hdisj : ∀ a ∈ addrs, (derefD h a).id ∉ seen)
    (hnodup : (addrs.map (fun a => (derefD h a).id)).Nodup) :
    dupLoop h seen addrs = [] := by
  induction addrs generalizing seen with
  | nil => rfl
  | cons a rest ihr =>
    rw [dupLoop]
    have hc : seen.contains (derefD h a).id = false := by
      simp [List.elem_iff, hdisj a (List.mem_cons_self a rest)]
    rw [hc]
    simp only [Bool.false_eq_true, if_false, List.nil_append]
    have hpair := hnodup
    simp only [List.map_cons, List.nodup_cons, List.mem_map] at hpair
    obtain ⟨hni, hnd⟩ := hpair
    refine ihr _ ?_ hnd
    intro b hb
    simp only [List.mem_cons]
    push_neg
    refine ⟨fun heq => ?_, hdisj b (List.mem_cons_of_mem a hb)⟩
    exact hni ⟨b, hb, heq⟩

theorem validatePlan_errors (ce : ContentExists) (h : Heap) (addrs : List Addr) :
    (validatePlan ce h addrs).errors =
      dupErrors h addrs ++ addrs.flatMap (nodeErrors ce h)
        ++ (if ((addrs.map (derefD h)).filter (fun n => n.isMilestone)).length > 0
            then validateTimelinesE h
              ((addrs.map (derefD h)).filter (fun n => n.isMilestone))
            else []) := rfl

theorem mem_validateTimelinesE_shape (h : Heap) (ms : List Node) (e : VError)
    (he : e ∈ validateTimelinesE h ms) :
    (∃ maxEnd, e = ⟨"timeline-speedOfLight", Msg.solExceeds maxEnd⟩) ∨
      (∃ msId depId v, e = ⟨msId, Msg.depNotIncluded msId depId v⟩) ∨
      (∃ msId s depId de v,
        e = ⟨msId, Msg.timingViolation msId s depId de v⟩ ∧ de > s) := by
  rw [validateTimelinesE] at he
  rcases List.mem_flatMap.mp he with ⟨v, hv, hm⟩
  rcases List.mem_append.mp hm with hm | hm
  · rcases List.mem_append.mp hm with hm | hm
    · by_cases hsol : v = TimelineVariant.speedOfLight <;> simp [hsol] at hm
      rcases mem_solErrorsE_shape ms e hm with ⟨maxEnd, rfl⟩
      exact Or.inl ⟨maxEnd, rfl⟩
    · rcases mem_feasErrorsE_shape h v ms e hm with ⟨msId, depId, rfl⟩
      exact Or.inr (Or.inl ⟨msId, depId, v, rfl⟩)
  · rcases mem_timingErrorsE_shape h v ms e hm with ⟨msId, s, depId, de, rfl, hgt⟩
    exact Or.inr (Or.inr ⟨msId, s, depId, de, v, rfl, hgt⟩)

/-! ## Claim C3: duplicate-id reporting -/

theorem countP_dup_nodePart (ce : ContentExists) (h : Heap) (addrs : List Addr)
    (s : String) :
    (addrs.flatMap (nodeErrors ce h)).countP
      (fun e => e.message == Msg.duplicateId s) = 0 := by
  rw [List.countP_eq_zero]
  intro e he
  rcases List.mem_flatMap.mp he with ⟨a, _, hea⟩
  rcases mem_nodeErrors_shape ce h a e hea with ⟨_, hsp | hmc⟩
  · simp only [beq_iff_eq]
    exact fun hc => (nodeSpec_not_dup hsp s) (by simpa using hc)
  · simp [hmc, beq_iff_eq]

theorem countP_dup_timelinePart (h : Heap) (ms : List Node) (s : String) :
    (validateTimelinesE h ms).countP
      (fun e => e.message == Msg.duplicateId s) = 0 := by
  rw [List.countP_eq_zero]
  intro e he
  rcases mem_validateTimelinesE_shape h ms e he with
    ⟨_, rfl⟩ | ⟨_, _, _, rfl⟩ | ⟨_, _, _, _, _, rfl, _⟩ <;> simp

/-- **C3, amended**: for every id `s`, the validator reports one
duplicate-id error for each occurrence of `s` *after the first* — `k-1`
errors when `k` nodes bear the id, each carrying the id itself — and no
duplicate-id error when every id is unique.  (The claim as frozen
demanded one error per node bearing the id, i.e. `k` errors; the code
skips the first occurrence, see the counterexample.) -/
theorem claim3_duplicate_id_errors (ce : ContentExists) (h : Heap)
    (addrs : List Addr) (s : String) :
    ((validatePlan ce h addrs).errors.countP
        (fun e => e.message == Msg.duplicateId s)) =
      (addrs.map (fun a => (derefD h a).id)).count s - 1 ∧
    ∀ e ∈ (validatePlan ce h addrs).errors,
      e.message = Msg.duplicateId s → e.nodeId = s := by
  constructor
  · rw [validatePlan_errors, List.countP_append, List.countP_append,
      countP_dup_nodePart]
    have h3 : (if ((addrs.map (derefD h)).filter (fun n => n.isMilestone)).length > 0
        then validateTimelinesE h ((addrs.map (derefD h)).filter (fun n => n.isMilestone))
        else []).countP (fun e => e.message == Msg.duplicateId s) = 0 := by
      split
      · exact countP_dup_timelinePart h _ s
      · rfl
    rw [h3, dupErrors, dupLoop_countP]
    simp
  · intro e he hmsg
    rw [validatePlan_errors] at he
    rcases List.mem_append.mp he with he | he
    · rcases List.mem_append.mp he with he | he
      · have hsh := mem_dupLoop_shape h [] addrs e he
        have hm2 : e.message = Msg.duplicateId e.nodeId := by rw [hsh]
        rw [hm2] at hmsg
        injection hmsg
      · rcases List.mem_flatMap.mp he with ⟨a, _, hea⟩
        rcases mem_nodeErrors_shape ce h a e hea with ⟨_, hsp | hmc⟩
        · exact absurd hmsg (nodeSpec_not_dup hsp s)
        · rw [hmc] at hmsg
          exact absurd hmsg (by simp)
    · split at he
      · rcases mem_validateTimelinesE_shape _ _ _ he with
          ⟨_, heq⟩ | ⟨_, _, _, heq⟩ | ⟨_, _, _, _, _, heq, _⟩ <;>
          (rw [heq] at hmsg; exact absurd hmsg (by simp))
      · simp at he

/-- **C3, counterexample**: two nodes share the id `"a"`.  The claim as
frozen demands a duplicate-id error against *every* node bearing the id
(two errors); the validator emits exactly one (the first occurrence is
never flagged). -/
theorem claim3_counterexample :
    (([0, 1] : List Addr).map (fun a => (derefD dupHeap a).id)).count "a" = 2 ∧
    ((validatePlan ceTrue dupHeap [0, 1]).errors.countP
        (fun e => e.message == Msg.duplicateId "a")) = 1 ∧
    (1 : Nat) ≠ 2 := by
  refine ⟨by rfl, by rfl, by decide⟩

/-! ## Claim C5: the speedOfLight 12-month bound -/

theorem filter_sol_feas (h : Heap) (v : TimelineVariant) (ms : List Node) :
    (feasErrorsE h v ms).filter (fun e => e.message.isSolMsg) = [] := by
  rw [List.filter_eq_nil_iff]
  intro e he
  rcases mem_feasErrorsE_shape h v ms e he with ⟨_, _, rfl⟩
  simp

theorem filter_sol_timing (h : Heap) (v : TimelineVariant) (ms : List Node) :
    (timingErrorsE h v ms).filter (fun e => e.message.isSolMsg) = [] := by
  rw [List.filter_eq_nil_iff]
  intro e he
  rcases mem_timingErrorsE_shape h v ms e he with ⟨_, _, _, _, rfl, _⟩
  simp

theorem filter_sol_sol (ms : List Node) :
    (solErrorsE ms).filter (fun e => e.message.isSolMsg) = solErrorsE ms := by
  rw [List.filter_eq_self]
  intro e he
  rcases mem_solErrorsE_shape ms e he with ⟨maxEnd, heq⟩
  rw [heq]
  rfl

theorem validateTimelinesE_expand (h : Heap) (ms : List Node) :
    validateTimelinesE h ms =
      (([] : List VError) ++ feasErrorsE h TimelineVariant.expected ms
          ++ timingErrorsE h TimelineVariant.expected ms)
        ++ ((([] : List VError) ++ feasErrorsE h TimelineVariant.aggressive ms
          ++ timingErrorsE h TimelineVariant.aggressive ms)
        ++ ((solErrorsE ms ++ feasErrorsE h TimelineVariant.speedOfLight ms
          ++ timingErrorsE h TimelineVariant.speedOfLight ms)
          ++ ([] : List VError))) := rfl

theorem filter_sol_validateTimelinesE (h : Heap) (ms : List Node) :
    (validateTimelinesE h ms).filter (fun e => e.message.isSolMsg) = solErrorsE ms := by
  rw [validateTimelinesE_expand]
  simp only [List.filter_append, filter_sol_feas, filter_sol_timing,
    filter_sol_sol, List.filter_nil, List.append_nil, List.nil_append]

/-- **C5**: the validator emits exactly one Speed-of-Light bound error —
graph-level, with nodeId `"timeline-speedOfLight"` and naming the
maximal end month — exactly when some milestone is included in the
speedOfLight variant and the maximum of `startMonth + durationMonths`
over the included ones exceeds 12; otherwise it emits none.  The
condition consults only the `speedOfLight` timeline record, never
`expected` or `aggressive`. -/
theorem claim5_speed_of_light_deadline (ce : ContentExists) (h : Heap)
    (addrs : List Addr) :
    ((validatePlan ce h addrs).errors.filter (fun e => e.message.isSolMsg)) =
      (if solEnds h addrs ≠ [] ∧ solMax (solEnds h addrs) > 12
       then [⟨"timeline-speedOfLight", Msg.solExceeds (solMax (solEnds h addrs))⟩]
       else []) := by
  rw [validatePlan_errors, List.filter_append, List.filter_append]
  have h1 : (dupErrors h addrs).filter (fun e => e.message.isSolMsg) = [] := by
    rw [List.filter_eq_nil_iff]
    intro e he
    rw [mem_dupLoop_shape h [] addrs e he]
    simp
  have h2 : (addrs.flatMap (nodeErrors ce h)).filter
      (fun e => e.message.isSolMsg) = [] := by
    rw [List.filter_eq_nil_iff]
    intro e he
    rcases List.mem_flatMap.mp he with ⟨a, _, hea⟩
    rcases mem_nodeErrors_shape ce h a e hea with ⟨_, hsp | hmc⟩
    · simp only [Bool.not_eq_true]
      exact nodeSpec_not_sol hsp
    · rw [hmc]
      simp
  rw [h1, h2]
  simp only [List.nil_append]
  split
  · rw [filter_sol_validateTimelinesE, solErrorsE_eq]
    rfl
  · rename_i hpos
    have hms : (addrs.map (derefD h)).filter (fun n => n.isMilestone) = [] := by
      cases hq : (addrs.map (derefD h)).filter (fun n => n.isMilestone) with
      | nil => rfl
      | cons x xs => exact absurd (by simp [hq]) hpos
    have hse : solEnds h addrs = [] := by
      rw [solEnds, hms]
      rfl
    simp [hse]

/-! ## Claim C6: timing consistency across variants -/

theorem mem_variantsList (v : TimelineVariant) : v ∈ variantsList := by
  cases v <;> simp [variantsList]

theorem timingErrorsE_intro (h : Heap) (v : TimelineVariant) (ms : List Node)
    (m : Node) (hm : m ∈ ms) (dep : Addr) (hdep : dep ∈ msDeps m)
    (hinc : ((msTimelines m).get v).included = true)
    (hd : ((msTimelines (derefD h dep)).get v).included = true)
    (hgt : ((msTimelines (derefD h dep)).get v).startMonth
        + ((msTimelines (derefD h dep)).get v).durationMonths
        > ((msTimelines m).get v).startMonth) :
    (⟨m.id, Msg.timingViolation m.id ((msTimelines m).get v).startMonth
        (derefD h dep).id
        (((msTimelines (derefD h dep)).get v).startMonth
          + ((msTimelines (derefD h dep)).get v).durationMonths) v⟩ : VError)
      ∈ timingErrorsE h v ms := by
  rw [timingErrorsE]
  refine List.mem_flatMap.mpr ⟨m, hm, ?_⟩
  rw [if_pos hinc]
  refine List.mem_flatMap.mpr ⟨dep, hdep, ?_⟩
  rw [if_pos hd, if_pos hgt]
  exact List.mem_singleton.mpr rfl

/-- **C6**: for both-included milestones `A` (at address `a`) and its
dependency `B` (at address `b`, an element of `A.dependsOnMilestones`),
the validator emits the timing error — attributed to `A`, naming `B`
and both month values — exactly when `B.startMonth + B.durationMonths >
A.startMonth` in that variant; an exactly-adjacent dependency (end =
start) produces no error. -/
theorem claim6_timing_consistency (ce : ContentExists) (h : Heap)
    (addrs : List Addr) (v : TimelineVariant) (a b : Addr)
    (ha : a ∈ addrs) (hmsA : (derefD h a).isMilestone = true)
    (hdep : b ∈ msDeps (derefD h a))
    (hAinc : ((msTimelines (derefD h a)).get v).included = true)
    (hBinc : ((msTimelines (derefD h b)).get v).included = true) :
    ((⟨(derefD h a).id,
        Msg.timingViolation (derefD h a).id
          ((msTimelines (derefD h a)).get v).startMonth
          (derefD h b).id
          (((msTimelines (derefD h b)).get v).startMonth
            + ((msTimelines (derefD h b)).get v).durationMonths) v⟩ : VError)
      ∈ (validatePlan ce h addrs).errors) ↔
      ((msTimelines (derefD h b)).get v).startMonth
          + ((msTimelines (derefD h b)).get v).durationMonths
        > ((msTimelines (derefD h a)).get v).startMonth := by
  constructor
  · intro he
    rw [validatePlan_errors] at he
    rcases List.mem_append.mp he with he | he
    · rcases List.mem_append.mp he with he | he
      · have hsh := mem_dupLoop_shape h [] addrs _ he
        simp at hsh
      · rcases List.mem_flatMap.mp he with ⟨c, _, hec⟩
        rcases mem_nodeErrors_shape ce h c _ hec with ⟨_, hsp | hmc⟩
        · exact absurd rfl (nodeSpec_not_timing hsp _ _ _ _ _)
        · simp at hmc
    · split at he
      · rcases mem_validateTimelinesE_shape _ _ _ he with
          ⟨_, heq⟩ | ⟨_, _, _, heq⟩ | ⟨msId, s, depId, de, v2, heq, hgt⟩
        · simp at heq
        · simp at heq
        · simp only [VError.mk.injEq, Msg.timingViolation.injEq] at heq
          obtain ⟨h1, h2, hs, hd2, hde, hv⟩ := heq
          rw [hs, hde]
          exact hgt
      · simp at he
  · intro hgt
    rw [validatePlan_errors]
    refine List.mem_append.mpr (Or.inr ?_)
    have hmem : derefD h a ∈
        (addrs.map (derefD h)).filter (fun n => n.isMilestone) :=
      List.mem_filter.mpr ⟨List.mem_map_of_mem _ ha, hmsA⟩
    rw [if_pos (List.length_pos.mpr (List.ne_nil_of_mem hmem))]
    rw [validateTimelinesE]
    refine List.mem_flatMap.mpr ⟨v, mem_variantsList v, ?_⟩
    refine List.mem_append.mpr (Or.inr ?_)
    exact timingErrorsE_intro h v _ _ hmem b hdep hAinc hBinc hgt

theorem claim6_witness :
    (⟨"A", Msg.timingViolation "A" 5 "B" 6 TimelineVariant.expected⟩ : VError)
      ∈ (validatePlan ceTrue c6heap [0, 1]).errors :=
  (claim6_timing_consistency ceTrue c6heap [0, 1] TimelineVariant.expected 0 1
    (by decide) (by decide) (by decide) (by decide) (by decide)).mpr (by decide)

theorem urlErr_mem_validateNodeE (n : Node) (s : String) :
    ((⟨s, Msg.repoUrlNotHttps⟩ : VError) ∈ validateNodeE n) ↔
      (s = n.id ∧ ∃ url, repoUrl n = some url ∧ url ≠ "" ∧
        ¬ strStartsWith url "https://") := by
  cases hd : n.data <;>
    (simp [validateNodeE, hd, repoUrl, mem_ite_singleton,
      List.mem_flatMap]
     try aesop)

/-- **C7, amended**: a Repository node receives the
`"Repository URL must start with https://"` error exactly when its url
is *non-empty* and does not start with `https://`.  (The claim as
frozen demanded the error also for an empty url; the source guards the
check with JS truthiness of `repo.url`, so an empty url is never
flagged — see the counterexample.)  The uniqueness hypothesis pins the
reported node id to this node. -/
theorem claim7_repository_url (ce : ContentExists) (h : Heap)
    (addrs : List Addr) (a : Addr) (url : String)
    (ha : a ∈ addrs) (hurl : repoUrl (derefD h a) = some url)
    (huniq : ∀ b ∈ addrs, (derefD h b).id = (derefD h a).id →
      derefD h b = derefD h a) :
    ((⟨(derefD h a).id, Msg.repoUrlNotHttps⟩ : VError)
      ∈ (validatePlan ce h addrs).errors) ↔
      (url ≠ "" ∧ ¬ strStartsWith url "https://") := by
  constructor
  · intro he
    rw [validatePlan_errors] at he
    rcases List.mem_append.mp he with he | he
    · rcases List.mem_append.mp he with he | he
      · have hsh := mem_dupLoop_shape h [] addrs _ he
        simp at hsh
      · rcases List.mem_flatMap.mp he with ⟨c, hc, hec⟩
        rcases List.mem_append.mp hec with hec | hec
        · rcases (mem_ite_nil_singleton _ _).mp hec with ⟨_, heq⟩
          simp at heq
        · have hid : (derefD h c).id = (derefD h a).id :=
            ((urlErr_mem_validateNodeE _ _).mp hec).1.symm
          have hceq := huniq c hc hid
          rw [hceq] at hec
          rcases ((urlErr_mem_validateNodeE _ _).mp hec).2 with
            ⟨url2, hu2, hne, hns⟩
          rw [hurl] at hu2
          injection hu2 with hu2
          rw [hu2]
          exact ⟨hne, hns⟩
    · split at he
      · rcases mem_validateTimelinesE_shape _ _ _ he with
          ⟨_, heq⟩ | ⟨_, _, _, heq⟩ | ⟨_, _, _, _, _, heq, _⟩ <;> simp at heq
      · simp at he
  · intro hbad
    rw [validatePlan_errors]
    refine List.mem_append.mpr (Or.inl (List.mem_append.mpr (Or.inr ?_)))
    refine List.mem_flatMap.mpr ⟨a, ha, ?_⟩
    refine List.mem_append.mpr (Or.inr ?_)
    exact (urlErr_mem_validateNodeE _ _).mpr ⟨rfl, url, hurl, hbad.1, hbad.2⟩

/-- **C7, counterexample**: a Repository whose url is the empty string.
The empty string does not start with `https://`, so the claim as frozen
demands the url error against it; the validator emits no url error at
all for this node. -/
theorem claim7_counterexample :
    (strStartsWith "" "https://") = false ∧
    (validatePlan ceTrue c7heap [0]).errors.filter
      (fun e => e.message == Msg.repoUrlNotHttps) = [] := by
  refine ⟨by decide, by rfl⟩

/-! ## Claim C9: the Risk check is vacuous -/

/-- **C9**: for a sequence consisting only of Risk nodes — any statuses,
any (possibly empty) mitigation lists — with distinct ids and existing
content, the validator reports nothing at all: `validateRisk` is empty
and never consults `status` or `mitigatedBy`. -/
theorem claim9_risk_check_vacuous (ce : ContentExists) (h : Heap)
    (addrs : List Addr)
    (hrisk : ∀ a ∈ addrs, ∃ mit st, (derefD h a).data = NodeData.risk mit st)
    (hc : ∀ a ∈ addrs, ce "risk" (derefD h a).id = true)
    (hnodup : (addrs.map (fun a => (derefD h a).id)).Nodup) :
    validatePlan ce h addrs = ⟨true, []⟩ := by
  have herr : (validatePlan ce h addrs).errors = [] := by
    rw [validatePlan_errors]
    have h1 : dupErrors h addrs = [] :=
      dupLoop_nil h addrs [] (fun a _ => List.not_mem_nil _) hnodup
    have h2 : addrs.flatMap (nodeErrors ce h) = [] := by
      rw [List.flatMap_eq_nil_iff]
      intro a haddr
      rcases hrisk a haddr with ⟨mit, st, hd⟩
      have hck : (derefD h a).data.kindName = "risk" := by rw [hd]; rfl
      rw [nodeErrors]
      simp only [hck, hc a haddr, if_true, List.nil_append]
      rw [validateNodeE]
      split <;> simp_all
    have h3 : (addrs.map (derefD h)).filter (fun n => n.isMilestone) = [] := by
      rw [List.filter_eq_nil_iff]
      intro n hn
      rcases List.mem_map.mp hn with ⟨a, haddr, rfl⟩
      rcases hrisk a haddr with ⟨mit, st, hd⟩
      simp [Node.isMilestone, hd]
    rw [h1, h2, h3]
    rfl
  have hres : validatePlan ce h addrs =
      { valid := (validatePlan ce h addrs).errors.isEmpty,
        errors := (validatePlan ce h addrs).errors } := rfl
  rw [hres, herr]
  rfl

theorem claim9_witness : validatePlan ceTrue c9heap [0] = ⟨true, []⟩ :=
  claim9_risk_check_vacuous ceTrue c9heap [0]
    (by
      intro a ha
      simp only [List.mem_singleton] at ha
      subst ha
      exact ⟨[], RiskStatus.active, rfl⟩)
    (by decide) (by decide)

theorem claim7_witness :
    (⟨"r2", Msg.repoUrlNotHttps⟩ : VError)
      ∈ (validatePlan ceTrue c7heap2 [0]).errors :=
  (claim7_repository_url ceTrue c7heap2 [0] 0 "http://x" (by decide) (by rfl)
    (by decide)).mpr (by decide)

theorem dupLoopSt_spec (st : Heap × List Addr) (seen : List String)
    (l : List Addr) : dupLoopSt st seen l = (st, dupLoop st.1 seen l) := by
  induction l generalizing seen with
  | nil => rfl
  | cons a rest ih => simp [dupLoopSt, dupLoop, ih]

theorem nodeLoopSt_spec (ce : ContentExists) (st : Heap × List Addr)
    (l : List Addr) :
    nodeLoopSt ce st l = (st, l.flatMap (nodeErrors ce st.1)) := by
  induction l with
  | nil => rfl
  | cons a rest ih => simp [nodeLoopSt, ih]

/-- **C10**: validation leaves its input untouched — the heap and the
node sequence come back exactly as passed — and its only product is the
`{valid, errors}` value of the pure `validatePlan`. -/
theorem claim10_validate_does_not_mutate (ce : ContentExists) (h : Heap)
    (addrs : List Addr) :
    validatePlanSt ce (h, addrs) = ((h, addrs), validatePlan ce h addrs) := by
  simp [validatePlanSt, dupLoopSt_spec, nodeLoopSt_spec, validatePlan, dupErrors]

/-! ## Claim C1: reverse-index duality of `deriveRelations` -/

set_option linter.unusedVariables false in
/-- **C1**: over a closed node sequence, every node of the sequence is
a key of all five reverse maps (`isSome`; value `[]` when it has no
reverse edges), and for every pair of nodes of the sequence each
forward edge is reflected by exactly the corresponding reverse-map
membership — an iff, so no spurious and no missing entries: Capability
`dependsOn` ↔ `dependedOnBy`, Thesis `justifiedBy` ↔ `justifies`,
Risk `mitigatedBy` ↔ `mitigates`, Product `enabledBy` ↔ `enables`,
Capability `risks` ↔ `risksFor`.  (`capDependsOn a` is `a.dependsOn`
when `a` is a Capability and `[]` otherwise, so `b ∈ capDependsOn a`
says exactly "`a` is a Capability and `b ∈ a.dependsOn`".) -/
theorem claim1_reverse_index_duality (h : Heap) (nodes : List Addr)
    (hclosed : ∀ a ∈ nodes, ∀ r ∈ thesisRefs (derefD h a)
        ++ capDependsOn (derefD h a) ++ capRisks (derefD h a)
        ++ riskMitigatedBy (derefD h a) ++ prodEnabledBy (derefD h a),
        r ∈ nodes) :
    (∀ b ∈ nodes,
      (omGet (deriveRelations h nodes).justifies b).isSome = true ∧
      (omGet (deriveRelations h nodes).dependedOnBy b).isSome = true ∧
      (omGet (deriveRelations h nodes).risksFor b).isSome = true ∧
      (omGet (deriveRelations h nodes).mitigates b).isSome = true ∧
      (omGet (deriveRelations h nodes).enables b).isSome = true) ∧
    (∀ a ∈ nodes, ∀ b ∈ nodes,
      (b ∈ capDependsOn (derefD h a) ↔
        a ∈ slotOf (deriveRelations h nodes).dependedOnBy b) ∧
      (b ∈ thesisRefs (derefD h a) ↔
        a ∈ slotOf (deriveRelations h nodes).justifies b) ∧
      (b ∈ riskMitigatedBy (derefD h a) ↔
        a ∈ slotOf (deriveRelations h nodes).mitigates b) ∧
      (b ∈ prodEnabledBy (derefD h a) ↔
        a ∈ slotOf (deriveRelations h nodes).enables b) ∧
      (b ∈ capRisks (derefD h a) ↔
        a ∈ slotOf (deriveRelations h nodes).risksFor b)) := by
  have hr : deriveRelations h nodes =
      { justifies := derive1 thesisRefs h (initLoop [] nodes) nodes,
        dependedOnBy := derive1 capDependsOn h (initLoop [] nodes) nodes,
        risksFor := derive1 capRisks h (initLoop [] nodes) nodes,
        mitigates := derive1 riskMitigatedBy h (initLoop [] nodes) nodes,
        enables := derive1 prodEnabledBy h (initLoop [] nodes) nodes } :=
    deriveLoop_components h nodes _
  rw [hr]
  constructor
  · intro b hb
    refine ⟨?_, ?_, ?_, ?_, ?_⟩ <;>
      (rw [derive1_isSome, initLoop_get]; simp [hb])
  · intro a ha b hb
    refine ⟨?_, ?_, ?_, ?_, ?_⟩ <;>
      exact ⟨fun hf => (deriveRelations_mem _ h nodes b a hb).mpr ⟨ha, hf⟩,
        fun hs => ((deriveRelations_mem _ h nodes b a hb).mp hs).2⟩

theorem claim1_witness :
    (∀ b ∈ ([0, 1, 2, 3, 4] : List Addr),
      (omGet (deriveRelations c1heap [0, 1, 2, 3, 4]).justifies b).isSome = true ∧
      (omGet (deriveRelations c1heap [0, 1, 2, 3, 4]).dependedOnBy b).isSome = true ∧
      (omGet (deriveRelations c1heap [0, 1, 2, 3, 4]).risksFor b).isSome = true ∧
      (omGet (deriveRelations c1heap [0, 1, 2, 3, 4]).mitigates b).isSome = true ∧
      (omGet (deriveRelations c1heap [0, 1, 2, 3, 4]).enables b).isSome = true) ∧
    (∀ a ∈ ([0, 1, 2, 3, 4] : List Addr), ∀ b ∈ ([0, 1, 2, 3, 4] : List Addr),
      (b ∈ capDependsOn (derefD c1heap a) ↔
        a ∈ slotOf (deriveRelations c1heap [0, 1, 2, 3, 4]).dependedOnBy b) ∧
      (b ∈ thesisRefs (derefD c1heap a) ↔
        a ∈ slotOf (deriveRelations c1heap [0, 1, 2, 3, 4]).justifies b) ∧
      (b ∈ riskMitigatedBy (derefD c1heap a) ↔
        a ∈ slotOf (deriveRelations c1heap [0, 1, 2, 3, 4]).mitigates b) ∧
      (b ∈ prodEnabledBy (derefD c1heap a) ↔
        a ∈ slotOf (deriveRelations c1heap [0, 1, 2, 3, 4]).enables b) ∧
      (b ∈ capRisks (derefD c1heap a) ↔
        a ∈ slotOf (deriveRelations c1heap [0, 1, 2, 3, 4]).risksFor b)) :=
  claim1_reverse_index_duality c1heap [0, 1, 2, 3, 4] (by decide)

/-- **C2, counterexample**: the build succeeds, the returned sequence is
the addresses `[3, 4, 2]`, and the returned milestone `a` (address 3)
still references address 1 — the superseded pass-1 instance of `b` —
which is *not* an element of the returned sequence.  So a relation
field of a successfully built graph holds a reference to a node that is
not present in the sequence, refuting the claim as stated. -/
theorem claim2_counterexample :
    defineGraph c2def = Except.ok (c2heap, [3, 4, 2]) ∧
    (1 : Addr) ∈ refsOf (derefD c2heap 3).data ∧
    (1 : Addr) ∉ ([3, 4, 2] : List Addr) := by
  refine ⟨by rfl, by decide, by decide⟩

/-- **C8, counterexample**: the returned sequence puts the Customer
*after* the SupplierPrimitive (kind order supplier, supplier-primitive,
customer), contradicting the claimed resolution order in which the leaf
kinds Primitive, Supplier, Customer, Competitor all precede
SupplierPrimitive.  (The return concatenation of the source lists
customers and competitors after supplierPrimitives and tooling, and
theses after repositories.) -/
theorem claim8_counterexample :
    defineGraph c8def = Except.ok (c8heap, [0, 2, 1]) ∧
    ([0, 2, 1] : List Addr).map (fun a => (derefD c8heap a).data.kindName) =
      ["supplier", "supplier-primitive", "customer"] := by
  refine ⟨by rfl, by rfl⟩

theorem exceptBind_ok {ε α β : Type} (x : Except ε α) (f : α → Except ε β) (c : β) :
    (x >>= f = Except.ok c) ↔ ∃ b, x = Except.ok b ∧ f b = Except.ok c := by
  cases x <;> simp [Bind.bind, Except.bind]

theorem exceptBind_error {ε α β : Type} (x : Except ε α) (f : α → Except ε β) (e : ε) :
    (x >>= f = Except.error e) ↔
      x = Except.error e ∨ ∃ b, x = Except.ok b ∧ f b = Except.error e := by
  cases x <;> simp [Bind.bind, Except.bind]

theorem resolveRefs_isOk (m : OMap String Addr) (mk : String → BuildError)
    (refs : List String) :
    (∃ as2, resolveRefs m mk refs = Except.ok as2) ↔
      ∀ r ∈ refs, r ∈ omKeys m := by
  induction refs with
  | nil => simp [resolveRefs]
  | cons r rs ih =>
    rw [resolveRefs]
    cases hg : omGet m r with
    | none =>
      simp only [List.mem_cons]
      constructor
      · rintro ⟨as2, has⟩
        cases has
      · intro hall
        have : r ∈ omKeys m := hall r (Or.inl rfl)
        rw [mem_omKeys_iff_isSome, hg] at this
        cases this
    | some a =>
      have hrk : r ∈ omKeys m := by
        rw [mem_omKeys_iff_isSome, hg]
        rfl
      cases hrec : resolveRefs m mk rs with
      | error e =>
        simp only [List.mem_cons]
        constructor
        · rintro ⟨as2, has⟩
          cases has
        · intro hall
          rcases ih.mpr (fun x hx => hall x (Or.inr hx)) with ⟨as2, has⟩
          rw [has] at hrec
          cases hrec
      | ok as2 =>
        simp only [List.mem_cons]
        constructor
        · intro _ x hx
          rcases hx with rfl | hx
          · exact hrk
          · exact ih.mp ⟨as2, hrec⟩ x hx
        · intro _
          exact ⟨a :: as2, rfl⟩

theorem resolveRefs_error (m : OMap String Addr) (mk : String → BuildError)
    (refs : List String) (e : BuildError)
    (he : resolveRefs m mk refs = Except.error e) :
    ∃ r ∈ refs, e = mk r ∧ r ∉ omKeys m := by
  induction refs with
  | nil => cases he
  | cons r rs ih =>
    rw [resolveRefs] at he
    cases hg : omGet m r with
    | none =>
      rw [hg] at he
      cases he
      refine ⟨r, List.mem_cons_self _ _, rfl, ?_⟩
      rw [mem_omKeys_iff_isSome, hg]
      simp
    | some a =>
      rw [hg] at he
      cases hrec : resolveRefs m mk rs with
      | error e2 =>
        rw [hrec] at he
        cases he
        rcases ih hrec with ⟨x, hx, hxe, hxk⟩
        exact ⟨x, List.mem_cons_of_mem _ hx, hxe, hxk⟩
      | ok as2 =>
        rw [hrec] at he
        cases he

theorem resolveRefs_ok_forall (m : OMap String Addr) (mk : String → BuildError)
    (refs : List String) (as2 : List Addr)
    (hok : resolveRefs m mk refs = Except.ok as2) :
    ∀ a ∈ as2, ∃ r ∈ refs, omGet m r = some a := by
  induction refs generalizing as2 with
  | nil =>
    cases hok
    simp
  | cons r rs ih =>
    rw [resolveRefs] at hok
    cases hg : omGet m r with
    | none =>
      rw [hg] at hok
      cases hok
    | some a =>
      rw [hg] at hok
      cases hrec : resolveRefs m mk rs with
      | error e2 =>
        rw [hrec] at hok
        cases hok
      | ok as3 =>
        rw [hrec] at hok
        cases hok
        intro x hx
        rcases List.mem_cons.mp hx with rfl | hx
        · exact ⟨r, List.mem_cons_self _ _, hg⟩
        · rcases ih as3 hrec x hx with ⟨r2, hr2, hg2⟩
          exact ⟨r2, List.mem_cons_of_mem _ hr2, hg2⟩

theorem phaseFold_isOk_iff (step : String → δ → Except BuildError Node)
    (defs : List (String × δ)) (st : Heap × OMap String Addr) :
    (∃ r, phaseFold step defs st = Except.ok r) ↔
      ∀ p ∈ defs, ∃ n, step p.1 p.2 = Except.ok n := by
  induction defs generalizing st with
  | nil => simp [phaseFold]
  | cons p rest ih =>
    cases p with
    | mk id dd =>
      rw [phaseFold]
      cases hs : step id dd with
      | error e =>
        simp only [List.mem_cons]
        constructor
        · rintro ⟨r, hr⟩
          cases hr
        · intro hall
          rcases hall (id, dd) (Or.inl rfl) with ⟨n, hn⟩
          rw [hn] at hs
          cases hs
      | ok n =>
        rw [ih]
        simp only [List.mem_cons]
        constructor
        · intro hall q hq
          rcases hq with rfl | hq
          · exact ⟨n, hs⟩
          · exact hall q hq
        · intro hall q hq
          exact hall q (Or.inr hq)

theorem phaseFold_error (step : String → δ → Except BuildError Node)
    (defs : List (String × δ)) (st : Heap × OMap String Addr) (e : BuildError)
    (he : phaseFold step defs st = Except.error e) :
    ∃ p ∈ defs, step p.1 p.2 = Except.error e := by
  induction defs generalizing st with
  | nil => cases he
  | cons p rest ih =>
    cases p with
    | mk id dd =>
      rw [phaseFold] at he
      cases hs : step id dd with
      | error e2 =>
        rw [hs] at he
        cases he
        exact ⟨(id, dd), List.mem_cons_self _ _, hs⟩
      | ok n =>
        rw [hs] at he
        rcases ih _ he with ⟨q, hq, hqe⟩
        exact ⟨q, List.mem_cons_of_mem _ hq, hqe⟩

theorem phaseFold_heap_ext (step : String → δ → Except BuildError Node)
    (defs : List (String × δ)) (h : Heap) (m : OMap String Addr)
    (h2 : Heap) (m2 : OMap String Addr)
    (hok : phaseFold step defs (h, m) = Except.ok (h2, m2)) :
    ∃ t, h2 = h ++ t := by
  induction defs generalizing h m with
  | nil =>
    cases hok
    exact ⟨[], by simp⟩
  | cons p rest ih =>
    cases p with
    | mk id dd =>
      rw [phaseFold] at hok
      cases hs : step id dd with
      | error e =>
        rw [hs] at hok
        cases hok
      | ok n =>
        rw [hs] at hok
        rcases ih _ _ hok with ⟨t, ht⟩
        exact ⟨n :: t, by simp [ht]⟩

theorem phaseFold_keys (step : String → δ → Except BuildError Node)
    (defs : List (String × δ)) (h : Heap) (m : OMap String Addr)
    (h2 : Heap) (m2 : OMap String Addr)
    (hok : phaseFold step defs (h, m) = Except.ok (h2, m2)) (k : String) :
    k ∈ omKeys m2 ↔ k ∈ omKeys m ∨ k ∈ defs.map (fun p => p.1) := by
  induction defs generalizing h m with
  | nil =>
    cases hok
    simp
  | cons p rest ih =>
    cases p with
    | mk id dd =>
      rw [phaseFold] at hok
      cases hs : step id dd with
      | error e =>
        rw [hs] at hok
        cases hok
      | ok n =>
        rw [hs] at hok
        rw [ih _ _ hok, omKeys_set]
        by_cases hk : id ∈ omKeys m
        · simp only [if_pos hk, List.map_cons, List.mem_cons]
          constructor
          · rintro (hx | hx)
            · exact Or.inl hx
            · exact Or.inr (Or.inr hx)
          · rintro (hx | rfl | hx)
            · exact Or.inl hx
            · exact Or.inl hk
            · exact Or.inr hx
        · simp only [if_neg hk, List.mem_append, List.mem_singleton,
            List.map_cons, List.mem_cons]
          tauto

theorem buildDepsMap_keys (f : δ → β) (defs : List (String × δ))
    (m : OMap String β) (k : String) :
    k ∈ omKeys (buildDepsMap f defs m) ↔
      k ∈ omKeys m ∨ k ∈ defs.map (fun p => p.1) := by
  induction defs generalizing m with
  | nil => simp [buildDepsMap]
  | cons p rest ih =>
    cases p with
    | mk id dd =>
      rw [buildDepsMap, ih, omKeys_set]
      by_cases hk : id ∈ omKeys m
      · simp only [if_pos hk, List.map_cons, List.mem_cons]
        constructor
        · rintro (hx | hx)
          · exact Or.inl hx
          · exact Or.inr (Or.inr hx)
        · rintro (hx | rfl | hx)
          · exact Or.inl hx
          · exact Or.inl hk
          · exact Or.inr hx
      · simp only [if_neg hk, List.mem_append, List.mem_singleton,
          List.map_cons, List.mem_cons]
        tauto

theorem mem_omSet [BEq κ] (m : OMap κ α) (k : κ) (v : α) (p : κ × α)
    (hp : p ∈ omSet m k v) : p = (k, v) ∨ p ∈ m := by
  induction m with
  | nil =>
    rcases List.mem_singleton.mp hp with rfl
    exact Or.inl rfl
  | cons q t ih =>
    rw [omSet] at hp
    by_cases hq : (q.1 == k) = true
    · rw [if_pos hq] at hp
      rcases List.mem_cons.mp hp with rfl | hp
      · exact Or.inl rfl
      · exact Or.inr (List.mem_cons_of_mem _ hp)
    · rw [if_neg hq] at hp
      rcases List.mem_cons.mp hp with rfl | hp
      · exact Or.inr (List.mem_cons_self _ _)
      · rcases ih hp with hx | hx
        · exact Or.inl hx
        · exact Or.inr (List.mem_cons_of_mem _ hx)

theorem derefD_append_self (h : Heap) (n : Node) :
    derefD (h ++ [n]) h.length = n := by
  simp [derefD, List.getD]

theorem MapInv_mono (h t : Heap) (m : OMap String Addr) (K : NodeData → Prop)
    (hm : MapInv h m K) : MapInv (h ++ t) m K := by
  intro p hp
  rcases hm p hp with ⟨h1, h2, h3⟩
  refine ⟨lt_of_lt_of_le h1 (by simp), ?_, ?_⟩ <;>
    rw [derefD_append h t _ h1]
  · exact h2
  · exact h3

theorem HeapOk_append (Ks : List String) (h : Heap) (n : Node)
    (hh : HeapOk Ks h)
    (hn : ∀ r ∈ refsOf n.data, r < h.length ∧ (derefD h r).id ∈ Ks) :
    HeapOk Ks (h ++ [n]) := by
  intro x hx r hr
  have step : r < h.length ∧ (derefD h r).id ∈ Ks := by
    rcases List.mem_append.mp hx with hx | hx
    · exact hh x hx r hr
    · rcases List.mem_singleton.mp hx with rfl
      exact hn r hr
  refine ⟨lt_of_lt_of_le step.1 (by simp), ?_⟩
  rw [derefD_append h [n] r step.1]
  exact step.2

theorem phaseFold_inv (step : String → δ → Except BuildError Node)
    (defs : List (String × δ)) (Ks : List String) (K : NodeData → Prop)
    (h : Heap) (m : OMap String Addr) (h2 : Heap) (m2 : OMap String Addr)
    (hstep : ∀ id dd n, (id, dd) ∈ defs → step id dd = Except.ok n →
      n.id = id ∧ K n.data ∧
        ∀ r ∈ refsOf n.data, r < h.length ∧ (derefD h r).id ∈ Ks)
    (hm : MapInv h m K) (hh : HeapOk Ks h)
    (hok : phaseFold step defs (h, m) = Except.ok (h2, m2)) :
    MapInv h2 m2 K ∧ HeapOk Ks h2 := by
  induction defs generalizing h m with
  | nil =>
    cases hok
    exact ⟨hm, hh⟩
  | cons p rest ih =>
    cases p with
    | mk id dd =>
      rw [phaseFold] at hok
      cases hs : step id dd with
      | error e =>
        rw [hs] at hok
        cases hok
      | ok n =>
        rw [hs] at hok
        rcases hstep id dd n (List.mem_cons_self _ _) hs with ⟨hid, hK, hrefs⟩
        refine ih _ _ ?_ ?_ ?_ hok
        · intro id2 dd2 n2 hmem hs2
          rcases hstep id2 dd2 n2 (List.mem_cons_of_mem _ hmem) hs2 with
            ⟨g1, g2, g3⟩
          refine ⟨g1, g2, ?_⟩
          intro r hr
          rcases g3 r hr with ⟨r1, r2⟩
          refine ⟨lt_of_lt_of_le r1 (by simp), ?_⟩
          rw [derefD_append h [n] r r1]
          exact r2
        · intro q hq
          rcases mem_omSet _ _ _ _ hq with rfl | hq
          · refine ⟨by simp, ?_, ?_⟩
            · rw [derefD_append_self]
              exact hid
            · rw [derefD_append_self]
              exact hK
          · exact MapInv_mono h [n] m K hm q hq
        · exact HeapOk_append Ks h n hh hrefs

theorem mem_omSet_self [DecidableEq κ] (m : OMap κ α) (k : κ) (v : α) :
    (k, v) ∈ omSet m k v := by
  induction m with
  | nil => exact List.mem_singleton.mpr rfl
  | cons p t ih =>
    rw [omSet]
    by_cases hp : (p.1 == k) = true
    · rw [if_pos hp]
      exact List.mem_cons_self _ _
    · rw [if_neg hp]
      exact List.mem_cons_of_mem _ ih

theorem mem_omSet_of_ne [DecidableEq κ] (m : OMap κ α) (k : κ) (v : α)
    (p : κ × α) (hp : p ∈ m) (hne : p.1 ≠ k) : p ∈ omSet m k v := by
  induction m with
  | nil => cases hp
  | cons q t ih =>
    rw [omSet]
    by_cases hq : (q.1 == k) = true
    · rw [if_pos hq]
      rcases List.mem_cons.mp hp with rfl | hp
      · exact absurd (beq_iff_eq.mp hq) hne
      · exact List.mem_cons_of_mem _ hp
    · rw [if_neg hq]
      rcases List.mem_cons.mp hp with rfl | hp
      · exact List.mem_cons_self _ _
      · exact List.mem_cons_of_mem _ (ih hp)

theorem mem_buildDepsMap (f : δ → β) (defs : List (String × δ))
    (m : OMap String β) (p : String × β) (hp : p ∈ buildDepsMap f defs m) :
    p ∈ m ∨ ∃ dd, (p.1, dd) ∈ defs ∧ p.2 = f dd := by
  induction defs generalizing m with
  | nil => exact Or.inl hp
  | cons q rest ih =>
    cases q with
    | mk id dd =>
      rw [buildDepsMap] at hp
      rcases ih _ hp with hin | ⟨dd2, hdd2, hv⟩
      · rcases mem_omSet _ _ _ _ hin with rfl | hin
        · exact Or.inr ⟨dd, List.mem_cons_self _ _, rfl⟩
        · exact Or.inl hin
      · exact Or.inr ⟨dd2, List.mem_cons_of_mem _ hdd2, hv⟩

theorem buildDepsMap_mem_preserved (f : δ → β) (defs : List (String × δ))
    (m : OMap String β) (p : String × β) (hp : p ∈ m)
    (hni : p.1 ∉ defs.map (fun q => q.1)) : p ∈ buildDepsMap f defs m := by
  induction defs generalizing m with
  | nil => exact hp
  | cons q rest ih =>
    cases q with
    | mk id dd =>
      rw [buildDepsMap]
      simp only [List.map_cons, List.mem_cons, not_or] at hni
      exact ih _ (mem_omSet_of_ne m id (f dd) p hp hni.1) hni.2

theorem buildDepsMap_mem_of_mem (f : δ → β) (defs : List (String × δ))
    (m : OMap String β) (hnd : (defs.map (fun q => q.1)).Nodup)
    (id : String) (dd : δ) (h : (id, dd) ∈ defs) :
    (id, f dd) ∈ buildDepsMap f defs m := by
  induction defs generalizing m with
  | nil => cases h
  | cons q rest ih =>
    cases q with
    | mk j ed =>
      simp only [List.map_cons, List.nodup_cons] at hnd
      rw [buildDepsMap]
      rcases List.mem_cons.mp h with heq | h
      · injection heq with h1 h2
        subst h1 h2
        have hni : id ∉ rest.map (fun q => q.1) := hnd.1
        exact buildDepsMap_mem_preserved f rest _ (id, f dd)
          (mem_omSet_self m id (f dd)) hni
      · exact ih _ hnd.2 h

theorem kindIdx_milestone (dt : NodeData) (hk : kindIdx dt = 10) :
    ∃ rev costs dm dc pr tls gb,
      dt = NodeData.milestone rev costs dm dc pr tls gb := by
  cases dt <;> simp only [kindIdx] at hk <;> try exact absurd hk (by decide)
  exact ⟨_, _, _, _, _, _, _, rfl⟩

theorem kindIdx_repository (dt : NodeData) (hk : kindIdx dt = 11) :
    ∃ url sl rt lang dep up pr ca,
      dt = NodeData.repository url sl rt lang dep up pr ca := by
  cases dt <;> simp only [kindIdx] at hk <;> try exact absurd hk (by decide)
  exact ⟨_, _, _, _, _, _, _, _, rfl⟩

theorem kindIdx_actionGate (dt : NodeData) (hk : kindIdx dt = 17) :
    ∃ act pc pm bb ul, dt = NodeData.actionGate act pc pm bb ul := by
  cases dt <;> simp only [kindIdx] at hk <;> try exact absurd hk (by decide)
  exact ⟨_, _, _, _, _, rfl⟩

theorem kindIdx_decision (dt : NodeData) (hk : kindIdx dt = 20) :
    ∃ ctx cat st alts ch rat tr rev rd das aps ams sup,
      dt = NodeData.decision ctx cat st alts ch rat tr rev rd das aps ams sup := by
  cases dt <;> simp only [kindIdx] at hk <;> try exact absurd hk (by decide)
  exact ⟨_, _, _, _, _, _, _, _, _, _, _, _, _, rfl⟩

theorem resolveRefs_ok_valid (h : Heap) (Ks : List String) (K : NodeData → Prop)
    (m : OMap String Addr) (mk : String → BuildError) (refs : List String)
    (as2 : List Addr) (hm : MapInv h m K) (hks : ∀ k ∈ omKeys m, k ∈ Ks)
    (hok : resolveRefs m mk refs = Except.ok as2) :
    ∀ a ∈ as2, a < h.length ∧ (derefD h a).id ∈ Ks := by
  intro a ha
  obtain ⟨r, _, hg⟩ := resolveRefs_ok_forall m mk refs as2 hok a ha
  have hmem := omGet_eq_some_mem m r a hg
  obtain ⟨h1, h2, _⟩ := hm (r, a) hmem
  refine ⟨h1, ?_⟩
  rw [h2]
  exact hks r (mem_omKeys_of_mem m (r, a) hmem)

theorem omGet_some_valid (h : Heap) (Ks : List String) (K : NodeData → Prop)
    (m : OMap String Addr) (s : String) (a : Addr)
    (hm : MapInv h m K) (hks : ∀ k ∈ omKeys m, k ∈ Ks)
    (hg : omGet m s = some a) :
    a < h.length ∧ (derefD h a).id ∈ Ks := by
  have hmem := omGet_eq_some_mem m s a hg
  obtain ⟨h1, h2, _⟩ := hm (s, a) hmem
  refine ⟨h1, ?_⟩
  rw [h2]
  exact hks s (mem_omKeys_of_mem m (s, a) hmem)

theorem milestonePass2_master (Ks : List String) (h : Heap)
    (m : OMap String Addr) (entries : List (String × List String))
    (h2 : Heap) (m2 : OMap String Addr)
    (hks : ∀ p ∈ entries, p.1 ∈ omKeys m)
    (hmks : ∀ k ∈ omKeys m, k ∈ Ks)
    (hm : MapInv h m (fun dt => kindIdx dt = 10))
    (hh : HeapOk Ks h)
    (hok : milestonePass2 h m entries = Except.ok (h2, m2)) :
    (∃ t, h2 = h ++ t) ∧ (∀ k, k ∈ omKeys m2 ↔ k ∈ omKeys m) ∧
      MapInv h2 m2 (fun dt => kindIdx dt = 10) ∧ HeapOk Ks h2 ∧
      ∀ p ∈ entries, ∀ r ∈ p.2, r ∈ omKeys m := by
  induction entries generalizing h m with
  | nil =>
    cases hok
    exact ⟨⟨[], by simp⟩, fun k => Iff.rfl, hm, hh, by simp⟩
  | cons p rest ih =>
    cases p with
    | mk id depIds =>
      rw [milestonePass2] at hok
      by_cases hskip : depIds.isEmpty
      · rw [if_pos hskip] at hok
        obtain ⟨he, hkeq, hminv, hheap, hchecks⟩ :=
          ih h m (fun q hq => hks q (List.mem_cons_of_mem _ hq)) hmks hm hh hok
        refine ⟨he, hkeq, hminv, hheap, ?_⟩
        intro q hq r hr
        rcases List.mem_cons.mp hq with rfl | hq
        · rw [List.isEmpty_iff.mp hskip] at hr
          cases hr
        · exact hchecks q hq r hr
      · rw [if_neg hskip] at hok
        cases hres : resolveRefs m (refErr "Milestone" id "milestone" "") depIds with
        | error e =>
          rw [hres] at hok
          cases hok
        | ok deps =>
          have hidk : id ∈ omKeys m := hks (id, depIds) (List.mem_cons_self _ _)
          obtain ⟨a, hga⟩ :=
            Option.isSome_iff_exists.mp ((mem_omKeys_iff_isSome m id).mp hidk)
          have hmem := omGet_eq_some_mem m id a hga
          obtain ⟨hal, haid, hak⟩ := hm (id, a) hmem
          obtain ⟨rev, costs, dm0, dc0, pr0, tls0, gb0, hdata⟩ :=
            kindIdx_milestone _ hak
          simp only [hres, hga, Option.getD_some, hdata] at hok
          have hkeq0 : omKeys (omSet m id h.length) = omKeys m := by
            rw [omKeys_set]
            exact if_pos hidk
          have hks2 : ∀ q ∈ rest, q.1 ∈ omKeys (omSet m id h.length) := by
            rw [hkeq0]
            exact fun q hq => hks q (List.mem_cons_of_mem _ hq)
          have hmks2 : ∀ k ∈ omKeys (omSet m id h.length), k ∈ Ks := by
            rw [hkeq0]
            exact hmks
          have hrefsnew : ∀ r ∈ refsOf (NodeData.milestone rev costs deps dc0
              pr0 tls0 []), r < h.length ∧ (derefD h r).id ∈ Ks := by
            intro r hr
            simp only [refsOf, List.append_nil, List.mem_append] at hr
            rcases hr with (hr | hr) | hr
            · exact resolveRefs_ok_valid h Ks _ m _ depIds deps hm hmks hres r hr
            · refine hh (derefD h a) (derefD_mem h a hal) r ?_
              rw [hdata]
              simp only [refsOf, List.mem_append]
              exact Or.inl (Or.inl (Or.inr hr))
            · refine hh (derefD h a) (derefD_mem h a hal) r ?_
              rw [hdata]
              simp only [refsOf, List.mem_append]
              exact Or.inl (Or.inr hr)
          have hm2 : MapInv (h ++ [⟨(derefD h a).id, (derefD h a).title,
              NodeData.milestone rev costs deps dc0 pr0 tls0 []⟩])
              (omSet m id h.length) (fun dt => kindIdx dt = 10) := by
            intro q hq
            rcases mem_omSet _ _ _ _ hq with rfl | hq
            · refine ⟨by simp, ?_, ?_⟩
              · rw [derefD_append_self]
                exact haid
              · rw [derefD_append_self]
                rfl
            · exact MapInv_mono h _ m _ hm q hq
          have hh2 : HeapOk Ks (h ++ [⟨(derefD h a).id, (derefD h a).title,
              NodeData.milestone rev costs deps dc0 pr0 tls0 []⟩]) :=
            HeapOk_append Ks h _ hh hrefsnew
          obtain ⟨⟨t, ht⟩, hkeq, hminv, hheap, hchecks⟩ :=
            ih _ _ hks2 hmks2 hm2 hh2 hok
          refine ⟨⟨⟨(derefD h a).id, (derefD h a).title,
            NodeData.milestone rev costs deps dc0 pr0 tls0 []⟩ :: t,
            by rw [ht]; simp⟩, ?_, hminv, hheap, ?_⟩
          · intro k
            rw [hkeq k, hkeq0]
          · intro q hq r hr
            rcases List.mem_cons.mp hq with rfl | hq
            · exact (resolveRefs_isOk m _ depIds).mp ⟨deps, hres⟩ r hr
            · have := hchecks q hq r hr
              rwa [hkeq0] at this

theorem milestonePass2_error (h : Heap) (m : OMap String Addr)
    (entries : List (String × List String)) (e : BuildError)
    (hks : ∀ p ∈ entries, p.1 ∈ omKeys m)
    (he : milestonePass2 h m entries = Except.error e) :
    ∃ p ∈ entries, ∃ r ∈ p.2,
      e = ⟨"Milestone", p.1, "milestone", r, ""⟩ ∧ r ∉ omKeys m := by
  induction entries generalizing h m with
  | nil => cases he
  | cons p rest ih =>
    cases p with
    | mk id depIds =>
      rw [milestonePass2] at he
      by_cases hskip : depIds.isEmpty
      · rw [if_pos hskip] at he
        obtain ⟨q, hq, r, hr, hsh⟩ :=
          ih h m (fun q hq => hks q (List.mem_cons_of_mem _ hq)) he
        exact ⟨q, List.mem_cons_of_mem _ hq, r, hr, hsh⟩
      · rw [if_neg hskip] at he
        cases hres : resolveRefs m (refErr "Milestone" id "milestone" "") depIds with
        | error e0 =>
          rw [hres] at he
          injection he with he0
          obtain ⟨r, hr, hsh, hnk⟩ := resolveRefs_error m _ depIds e0 hres
          refine ⟨(id, depIds), List.mem_cons_self _ _, r, hr, ?_, hnk⟩
          rw [← he0, hsh]
          rfl
        | ok deps =>
          have hidk : id ∈ omKeys m := hks (id, depIds) (List.mem_cons_self _ _)
          have hkeq0 : omKeys (omSet m id h.length) = omKeys m := by
            rw [omKeys_set]
            exact if_pos hidk
          simp only [hres] at he
          obtain ⟨q, hq, r, hr, hsh, hnk⟩ := ih _ _
            (by rw [hkeq0]; exact fun q hq => hks q (List.mem_cons_of_mem _ hq)) he
          rw [hkeq0] at hnk
          exact ⟨q, List.mem_cons_of_mem _ hq, r, hr, hsh, hnk⟩

theorem gatePass2_master (Ks : List String) (h : Heap)
    (m : OMap String Addr) (entries : List (String × (List String × List String)))
    (h2 : Heap) (m2 : OMap String Addr)
    (hks : ∀ p ∈ entries, p.1 ∈ omKeys m)
    (hmks : ∀ k ∈ omKeys m, k ∈ Ks)
    (hm : MapInv h m (fun dt => kindIdx dt = 17))
    (hh : HeapOk Ks h)
    (hok : gatePass2 h m entries = Except.ok (h2, m2)) :
    (∃ t, h2 = h ++ t) ∧ (∀ k, k ∈ omKeys m2 ↔ k ∈ omKeys m) ∧
      MapInv h2 m2 (fun dt => kindIdx dt = 17) ∧ HeapOk Ks h2 ∧
      ∀ p ∈ entries, (∀ r ∈ p.2.1, r ∈ omKeys m) ∧ ∀ r ∈ p.2.2, r ∈ omKeys m := by
  induction entries generalizing h m with
  | nil =>
    cases hok
    exact ⟨⟨[], by simp⟩, fun k => Iff.rfl, hm, hh, by simp⟩
  | cons p rest ih =>
    cases p with
    | mk id deps =>
      rw [gatePass2] at hok
      by_cases hskip : (deps.1.isEmpty && deps.2.isEmpty) = true
      · rw [if_pos hskip] at hok
        obtain ⟨hbb, hul⟩ := Bool.and_eq_true_iff.mp hskip
        obtain ⟨he, hkeq, hminv, hheap, hchecks⟩ :=
          ih h m (fun q hq => hks q (List.mem_cons_of_mem _ hq)) hmks hm hh hok
        refine ⟨he, hkeq, hminv, hheap, ?_⟩
        intro q hq
        rcases List.mem_cons.mp hq with rfl | hq
        · rw [List.isEmpty_iff.mp hbb, List.isEmpty_iff.mp hul]
          simp
        · exact hchecks q hq
      · rw [if_neg hskip] at hok
        cases hres1 : resolveRefs m (refErr "ActionGate" id "action gate"
            " in blockedBy") deps.1 with
        | error e =>
          rw [hres1] at hok
          cases hok
        | ok bb =>
          rw [hres1] at hok
          cases hres2 : resolveRefs m (refErr "ActionGate" id "action gate"
              " in unlocks") deps.2 with
          | error e =>
            rw [hres2] at hok
            cases hok
          | ok ul =>
            have hidk : id ∈ omKeys m := hks (id, deps) (List.mem_cons_self _ _)
            obtain ⟨a, hga⟩ :=
              Option.isSome_iff_exists.mp ((mem_omKeys_iff_isSome m id).mp hidk)
            have hmem := omGet_eq_some_mem m id a hga
            obtain ⟨hal, haid, hak⟩ := hm (id, a) hmem
            obtain ⟨act, pc, pm0, bb0, ul0, hdata⟩ := kindIdx_actionGate _ hak
            simp only [hres2, hga, Option.getD_some, hdata] at hok
            have hkeq0 : omKeys (omSet m id h.length) = omKeys m := by
              rw [omKeys_set]
              exact if_pos hidk
            have hks2 : ∀ q ∈ rest, q.1 ∈ omKeys (omSet m id h.length) := by
              rw [hkeq0]
              exact fun q hq => hks q (List.mem_cons_of_mem _ hq)
            have hmks2 : ∀ k ∈ omKeys (omSet m id h.length), k ∈ Ks := by
              rw [hkeq0]
              exact hmks
            have hrefsnew : ∀ r ∈ refsOf (NodeData.actionGate act pc pm0 bb ul),
                r < h.length ∧ (derefD h r).id ∈ Ks := by
              intro r hr
              simp only [refsOf, List.mem_append] at hr
              rcases hr with (hr | hr) | hr
              · refine hh (derefD h a) (derefD_mem h a hal) r ?_
                rw [hdata]
                simp only [refsOf, List.mem_append]
                exact Or.inl (Or.inl hr)
              · exact resolveRefs_ok_valid h Ks _ m _ deps.1 bb hm hmks hres1 r hr
              · exact resolveRefs_ok_valid h Ks _ m _ deps.2 ul hm hmks hres2 r hr
            have hm2 : MapInv (h ++ [⟨(derefD h a).id, (derefD h a).title,
                NodeData.actionGate act pc pm0 bb ul⟩])
                (omSet m id h.length) (fun dt => kindIdx dt = 17) := by
              intro q hq
              rcases mem_omSet _ _ _ _ hq with rfl | hq
              · refine ⟨by simp, ?_, ?_⟩
                · rw [derefD_append_self]
                  exact haid
                · rw [derefD_append_self]
                  rfl
              · exact MapInv_mono h _ m _ hm q hq
            have hh2 : HeapOk Ks (h ++ [⟨(derefD h a).id, (derefD h a).title,
                NodeData.actionGate act pc pm0 bb ul⟩]) :=
              HeapOk_append Ks h _ hh hrefsnew
            obtain ⟨⟨t, ht⟩, hkeq, hminv, hheap, hchecks⟩ :=
              ih _ _ hks2 hmks2 hm2 hh2 hok
            refine ⟨⟨⟨(derefD h a).id, (derefD h a).title,
              NodeData.actionGate act pc pm0 bb ul⟩ :: t,
              by rw [ht]; simp⟩, ?_, hminv, hheap, ?_⟩
            · intro k
              rw [hkeq k, hkeq0]
            · intro q hq
              rcases List.mem_cons.mp hq with rfl | hq
              · exact ⟨(resolveRefs_isOk m _ deps.1).mp ⟨bb, hres1⟩,
                  (resolveRefs_isOk m _ deps.2).mp ⟨ul, hres2⟩⟩
              · obtain ⟨c1, c2⟩ := hchecks q hq
                rw [hkeq0] at c1 c2
                exact ⟨c1, c2⟩

theorem gatePass2_error (h : Heap) (m : OMap String Addr)
    (entries : List (String × (List String × List String))) (e : BuildError)
    (hks : ∀ p ∈ entries, p.1 ∈ omKeys m)
    (he : gatePass2 h m entries = Except.error e) :
    ∃ p ∈ entries,
      (∃ r ∈ p.2.1, e = ⟨"ActionGate", p.1, "action gate", r, " in blockedBy"⟩ ∧
        r ∉ omKeys m) ∨
      (∃ r ∈ p.2.2, e = ⟨"ActionGate", p.1, "action gate", r, " in unlocks"⟩ ∧
        r ∉ omKeys m) := by
  induction entries generalizing h m with
  | nil => cases he
  | cons p rest ih =>
    cases p with
    | mk id deps =>
      rw [gatePass2] at he
      by_cases hskip : (deps.1.isEmpty && deps.2.isEmpty) = true
      · rw [if_pos hskip] at he
        obtain ⟨q, hq, hsh⟩ :=
          ih h m (fun q hq => hks q (List.mem_cons_of_mem _ hq)) he
        exact ⟨q, List.mem_cons_of_mem _ hq, hsh⟩
      · rw [if_neg hskip] at he
        cases hres1 : resolveRefs m (refErr "ActionGate" id "action gate"
            " in blockedBy") deps.1 with
        | error e0 =>
          rw [hres1] at he
          injection he with he0
          obtain ⟨r, hr, hsh, hnk⟩ := resolveRefs_error m _ deps.1 e0 hres1
          refine ⟨(id, deps), List.mem_cons_self _ _, Or.inl ⟨r, hr, ?_, hnk⟩⟩
          rw [← he0, hsh]
          rfl
        | ok bb =>
          rw [hres1] at he
          cases hres2 : resolveRefs m (refErr "ActionGate" id "action gate"
              " in unlocks") deps.2 with
          | error e0 =>
            rw [hres2] at he
            injection he with he0
            obtain ⟨r, hr, hsh, hnk⟩ := resolveRefs_error m _ deps.2 e0 hres2
            refine ⟨(id, deps), List.mem_cons_self _ _, Or.inr ⟨r, hr, ?_, hnk⟩⟩
            rw [← he0, hsh]
            rfl
          | ok ul =>
            have hidk : id ∈ omKeys m := hks (id, deps) (List.mem_cons_self _ _)
            have hkeq0 : omKeys (omSet m id h.length) = omKeys m := by
              rw [omKeys_set]
              exact if_pos hidk
            simp only [hres2] at he
            obtain ⟨q, hq, hsh⟩ := ih _ _
              (by rw [hkeq0]; exact fun q hq => hks q (List.mem_cons_of_mem _ hq)) he
            rw [hkeq0] at hsh
            exact ⟨q, List.mem_cons_of_mem _ hq, hsh⟩

theorem gatedByPass_master (Ks : List String) (gates : OMap String Addr)
    (h : Heap) (m : OMap String Addr) (defs : List (String × MilestoneDef))
    (h2 : Heap) (m2 : OMap String Addr)
    (hks : ∀ p ∈ defs, p.1 ∈ omKeys m)
    (hmks : ∀ k ∈ omKeys m, k ∈ Ks)
    (hgks : ∀ k ∈ omKeys gates, k ∈ Ks)
    (hm : MapInv h m (fun dt => kindIdx dt = 10))
    (hg : MapInv h gates (fun dt => kindIdx dt = 17))
    (hh : HeapOk Ks h)
    (hok : gatedByPass gates h m defs = Except.ok (h2, m2)) :
    (∃ t, h2 = h ++ t) ∧ (∀ k, k ∈ omKeys m2 ↔ k ∈ omKeys m) ∧
      MapInv h2 m2 (fun dt => kindIdx dt = 10) ∧ HeapOk Ks h2 ∧
      ∀ p ∈ defs, ∀ r ∈ p.2.gatedBy.getD [], r ∈ omKeys gates := by
  induction defs generalizing h m with
  | nil =>
    cases hok
    exact ⟨⟨[], by simp⟩, fun k => Iff.rfl, hm, hh, by simp⟩
  | cons p rest ih =>
    cases p with
    | mk id msDef =>
      simp only [gatedByPass] at hok
      by_cases hskip : (msDef.gatedBy.getD []).isEmpty
      · rw [if_pos hskip] at hok
        obtain ⟨he, hkeq, hminv, hheap, hchecks⟩ :=
          ih h m (fun q hq => hks q (List.mem_cons_of_mem _ hq)) hmks hm hg hh hok
        refine ⟨he, hkeq, hminv, hheap, ?_⟩
        intro q hq r hr
        rcases List.mem_cons.mp hq with rfl | hq
        · rw [List.isEmpty_iff.mp hskip] at hr
          cases hr
        · exact hchecks q hq r hr
      · rw [if_neg hskip] at hok
        cases hres : resolveRefs gates (refErr "Milestone" id "action gate"
            " in gatedBy") (msDef.gatedBy.getD []) with
        | error e =>
          rw [hres] at hok
          cases hok
        | ok gb =>
          have hidk : id ∈ omKeys m := hks (id, msDef) (List.mem_cons_self _ _)
          obtain ⟨a, hga⟩ :=
            Option.isSome_iff_exists.mp ((mem_omKeys_iff_isSome m id).mp hidk)
          have hmem := omGet_eq_some_mem m id a hga
          obtain ⟨hal, haid, hak⟩ := hm (id, a) hmem
          obtain ⟨rev, costs, dm0, dc0, pr0, tls0, gb0, hdata⟩ :=
            kindIdx_milestone _ hak
          simp only [hres, hga, Option.getD_some, hdata] at hok
          have hkeq0 : omKeys (omSet m id h.length) = omKeys m := by
            rw [omKeys_set]
            exact if_pos hidk
          have hks2 : ∀ q ∈ rest, q.1 ∈ omKeys (omSet m id h.length) := by
            rw [hkeq0]
            exact fun q hq => hks q (List.mem_cons_of_mem _ hq)
          have hmks2 : ∀ k ∈ omKeys (omSet m id h.length), k ∈ Ks := by
            rw [hkeq0]
            exact hmks
          have hrefsnew : ∀ r ∈ refsOf (NodeData.milestone rev costs dm0 dc0
              pr0 tls0 gb), r < h.length ∧ (derefD h r).id ∈ Ks := by
            intro r hr
            simp only [refsOf, List.mem_append] at hr
            rcases hr with ((hr | hr) | hr) | hr
            · refine hh (derefD h a) (derefD_mem h a hal) r ?_
              rw [hdata]
              simp only [refsOf, List.mem_append]
              exact Or.inl (Or.inl (Or.inl hr))
            · refine hh (derefD h a) (derefD_mem h a hal) r ?_
              rw [hdata]
              simp only [refsOf, List.mem_append]
              exact Or.inl (Or.inl (Or.inr hr))
            · refine hh (derefD h a) (derefD_mem h a hal) r ?_
              rw [hdata]
              simp only [refsOf, List.mem_append]
              exact Or.inl (Or.inr hr)
            · exact resolveRefs_ok_valid h Ks _ gates _ (msDef.gatedBy.getD [])
                gb hg hgks hres r hr
          have hm2 : MapInv (h ++ [⟨(derefD h a).id, (derefD h a).title,
              NodeData.milestone rev costs dm0 dc0 pr0 tls0 gb⟩])
              (omSet m id h.length) (fun dt => kindIdx dt = 10) := by
            intro q hq
            rcases mem_omSet _ _ _ _ hq with rfl | hq
            · refine ⟨by simp, ?_, ?_⟩
              · rw [derefD_append_self]
                exact haid
              · rw [derefD_append_self]
                rfl
            · exact MapInv_mono h _ m _ hm q hq
          have hg2 : MapInv (h ++ [⟨(derefD h a).id, (derefD h a).title,
              NodeData.milestone rev costs dm0 dc0 pr0 tls0 gb⟩])
              gates (fun dt => kindIdx dt = 17) :=
            MapInv_mono h _ gates _ hg
          have hh2 : HeapOk Ks (h ++ [⟨(derefD h a).id, (derefD h a).title,
              NodeData.milestone rev costs dm0 dc0 pr0 tls0 gb⟩]) :=
            HeapOk_append Ks h _ hh hrefsnew
          obtain ⟨⟨t, ht⟩, hkeq, hminv, hheap, hchecks⟩ :=
            ih _ _ hks2 hmks2 hm2 hg2 hh2 hok
          refine ⟨⟨⟨(derefD h a).id, (derefD h a).title,
            NodeData.milestone rev costs dm0 dc0 pr0 tls0 gb⟩ :: t,
            by rw [ht]; simp⟩, ?_, hminv, hheap, ?_⟩
          · intro k
            rw [hkeq k, hkeq0]
          · intro q hq r hr
            rcases List.mem_cons.mp hq with rfl | hq
            · exact (resolveRefs_isOk gates _ (msDef.gatedBy.getD [])).mp
                ⟨gb, hres⟩ r hr
            · exact hchecks q hq r hr

theorem gatedByPass_error (gates : OMap String Addr) (h : Heap)
    (m : OMap String Addr) (defs : List (String × MilestoneDef)) (e : BuildError)
    (he : gatedByPass gates h m defs = Except.error e) :
    ∃ p ∈ defs, ∃ r ∈ p.2.gatedBy.getD [],
      e = ⟨"Milestone", p.1, "action gate", r, " in gatedBy"⟩ ∧
        r ∉ omKeys gates := by
  induction defs generalizing h m with
  | nil => cases he
  | cons p rest ih =>
    cases p with
    | mk id msDef =>
      simp only [gatedByPass] at he
      by_cases hskip : (msDef.gatedBy.getD []).isEmpty
      · rw [if_pos hskip] at he
        obtain ⟨q, hq, hsh⟩ := ih h m he
        exact ⟨q, List.mem_cons_of_mem _ hq, hsh⟩
      · rw [if_neg hskip] at he
        cases hres : resolveRefs gates (refErr "Milestone" id "action gate"
            " in gatedBy") (msDef.gatedBy.getD []) with
        | error e0 =>
          rw [hres] at he
          injection he with he0
          obtain ⟨r, hr, hsh, hnk⟩ := resolveRefs_error gates _ _ e0 hres
          refine ⟨(id, msDef), List.mem_cons_self _ _, r, hr, ?_, hnk⟩
          rw [← he0, hsh]
          rfl
        | ok gb =>
          simp only [hres] at he
          obtain ⟨q, hq, hsh⟩ := ih _ _ he
          exact ⟨q, List.mem_cons_of_mem _ hq, hsh⟩

theorem repoPass2_master (Ks : List String) (h : Heap)
    (m : OMap String Addr)
    (entries : List (String × (List String × Option String)))
    (h2 : Heap) (m2 : OMap String Addr)
    (hks : ∀ p ∈ entries, p.1 ∈ omKeys m)
    (hmks : ∀ k ∈ omKeys m, k ∈ Ks)
    (hm : MapInv h m (fun dt => kindIdx dt = 11))
    (hh : HeapOk Ks h)
    (hok : repoPass2 h m entries = Except.ok (h2, m2)) :
    (∃ t, h2 = h ++ t) ∧ (∀ k, k ∈ omKeys m2 ↔ k ∈ omKeys m) ∧
      MapInv h2 m2 (fun dt => kindIdx dt = 11) ∧ HeapOk Ks h2 ∧
      ∀ p ∈ entries, (∀ r ∈ p.2.1, r ∈ omKeys m) ∧
        (jsTruthyStr p.2.2 = true → p.2.2.getD "" ∈ omKeys m) := by
  induction entries generalizing h m with
  | nil =>
    cases hok
    exact ⟨⟨[], by simp⟩, fun k => Iff.rfl, hm, hh, by simp⟩
  | cons p rest ih =>
    cases p with
    | mk id deps =>
      rw [repoPass2] at hok
      by_cases hskip : (deps.1.isEmpty && !(jsTruthyStr deps.2)) = true
      · rw [if_pos hskip] at hok
        obtain ⟨hde, htr⟩ := Bool.and_eq_true_iff.mp hskip
        obtain ⟨he, hkeq, hminv, hheap, hchecks⟩ :=
          ih h m (fun q hq => hks q (List.mem_cons_of_mem _ hq)) hmks hm hh hok
        refine ⟨he, hkeq, hminv, hheap, ?_⟩
        intro q hq
        rcases List.mem_cons.mp hq with rfl | hq
        · constructor
          · rw [List.isEmpty_iff.mp hde]
            simp
          · intro htru
            rw [htru] at htr
            cases htr
        · exact hchecks q hq
      · rw [if_neg hskip] at hok
        cases hres : resolveRefs m (refErr "Repository" id "repository" "")
            deps.1 with
        | error e =>
          rw [hres] at hok
          cases hok
        | ok dependsOnRepos =>
          simp only [hres] at hok
          have hinner : ∃ upA : Option Addr,
              (match deps.2 with
               | some s =>
                 if s = "" then Except.ok (none : Option Addr)
                 else
                   match omGet m s with
                   | some a => Except.ok (some a)
                   | none => Except.error
                       (⟨"Repository", id, "upstream repository", s, ""⟩ : BuildError)
               | none => Except.ok none) = Except.ok upA ∧
              (∀ a, upA = some a → a < h.length ∧ (derefD h a).id ∈ Ks) ∧
              (jsTruthyStr deps.2 = true → deps.2.getD "" ∈ omKeys m) := by
            cases hup : deps.2 with
            | none =>
              refine ⟨none, rfl, ?_, ?_⟩
              · intro a ha
                cases ha
              · intro htru
                simp [jsTruthyStr] at htru
            | some s =>
              by_cases hs : s = ""
              · subst hs
                refine ⟨none, by simp, ?_, ?_⟩
                · intro a ha
                  cases ha
                · intro htru
                  simp [jsTruthyStr] at htru
              · cases hgu : omGet m s with
                | none =>
                  rw [hup] at hok
                  simp only [if_neg hs, hgu] at hok
                  cases hok
                | some ua =>
                  refine ⟨some ua, by simp [hs, hgu], ?_, ?_⟩
                  · intro a ha
                    injection ha with ha
                    subst ha
                    exact omGet_some_valid h Ks _ m s _ hm hmks hgu
                  · intro _
                    simp only [Option.getD_some]
                    exact (mem_omKeys_iff_isSome m s).mpr
                      (by rw [hgu]; rfl)
          obtain ⟨upA, hu, hupv, hcheck⟩ := hinner
          have hidk : id ∈ omKeys m := hks (id, deps) (List.mem_cons_self _ _)
          obtain ⟨a, hga⟩ :=
            Option.isSome_iff_exists.mp ((mem_omKeys_iff_isSome m id).mp hidk)
          have hmem := omGet_eq_some_mem m id a hga
          obtain ⟨hal, haid, hak⟩ := hm (id, a) hmem
          obtain ⟨url0, sl0, rt0, lang0, dep0, up0, pr0, ca0, hdata⟩ :=
            kindIdx_repository _ hak
          simp only [hu, hga, Option.getD_some, hdata] at hok
          have hkeq0 : omKeys (omSet m id h.length) = omKeys m := by
            rw [omKeys_set]
            exact if_pos hidk
          have hks2 : ∀ q ∈ rest, q.1 ∈ omKeys (omSet m id h.length) := by
            rw [hkeq0]
            exact fun q hq => hks q (List.mem_cons_of_mem _ hq)
          have hmks2 : ∀ k ∈ omKeys (omSet m id h.length), k ∈ Ks := by
            rw [hkeq0]
            exact hmks
          have hrefsnew : ∀ r ∈ refsOf (NodeData.repository url0 sl0 rt0 lang0
              dependsOnRepos upA pr0 ca0), r < h.length ∧ (derefD h r).id ∈ Ks := by
            intro r hr
            simp only [refsOf, List.mem_append] at hr
            rcases hr with ((hr | hr) | hr) | hr
            · exact resolveRefs_ok_valid h Ks _ m _ deps.1 dependsOnRepos
                hm hmks hres r hr
            · exact hupv r (Option.mem_def.mp (Option.mem_toList.mp hr))
            · refine hh (derefD h a) (derefD_mem h a hal) r ?_
              rw [hdata]
              simp only [refsOf, List.mem_append]
              exact Or.inl (Or.inr hr)
            · refine hh (derefD h a) (derefD_mem h a hal) r ?_
              rw [hdata]
              simp only [refsOf, List.mem_append]
              exact Or.inr hr
          have hm2 : MapInv (h ++ [⟨(derefD h a).id, (derefD h a).title,
              NodeData.repository url0 sl0 rt0 lang0 dependsOnRepos upA pr0 ca0⟩])
              (omSet m id h.length) (fun dt => kindIdx dt = 11) := by
            intro q hq
            rcases mem_omSet _ _ _ _ hq with rfl | hq
            · refine ⟨by simp, ?_, ?_⟩
              · rw [derefD_append_self]
                exact haid
              · rw [derefD_append_self]
                rfl
            · exact MapInv_mono h _ m _ hm q hq
          have hh2 : HeapOk Ks (h ++ [⟨(derefD h a).id, (derefD h a).title,
              NodeData.repository url0 sl0 rt0 lang0 dependsOnRepos upA pr0 ca0⟩]) :=
            HeapOk_append Ks h _ hh hrefsnew
          obtain ⟨⟨t, ht⟩, hkeq, hminv, hheap, hchecks⟩ :=
            ih _ _ hks2 hmks2 hm2 hh2 hok
          refine ⟨⟨⟨(derefD h a).id, (derefD h a).title,
            NodeData.repository url0 sl0 rt0 lang0 dependsOnRepos upA pr0 ca0⟩ :: t,
            by rw [ht]; simp⟩, ?_, hminv, hheap, ?_⟩
          · intro k
            rw [hkeq k, hkeq0]
          · intro q hq
            rcases List.mem_cons.mp hq with rfl | hq
            · exact ⟨(resolveRefs_isOk m _ deps.1).mp ⟨dependsOnRepos, hres⟩,
                hcheck⟩
            · obtain ⟨c1, c2⟩ := hchecks q hq
              rw [hkeq0] at c1
              refine ⟨c1, ?_⟩
              intro htru
              have := c2 htru
              rwa [hkeq0] at this

theorem repoPass2_error (h : Heap) (m : OMap String Addr)
    (entries : List (String × (List String × Option String))) (e : BuildError)
    (hks : ∀ p ∈ entries, p.1 ∈ omKeys m)
    (he : repoPass2 h m entries = Except.error e) :
    ∃ p ∈ entries,
      (∃ r ∈ p.2.1, e = ⟨"Repository", p.1, "repository", r, ""⟩ ∧
        r ∉ omKeys m) ∨
      (jsTruthyStr p.2.2 = true ∧
        e = ⟨"Repository", p.1, "upstream repository", p.2.2.getD "", ""⟩ ∧
        p.2.2.getD "" ∉ omKeys m) := by
  induction entries generalizing h m with
  | nil => cases he
  | cons p rest ih =>
    cases p with
    | mk id deps =>
      rw [repoPass2] at he
      by_cases hskip : (deps.1.isEmpty && !(jsTruthyStr deps.2)) = true
      · rw [if_pos hskip] at he
        obtain ⟨q, hq, hsh⟩ :=
          ih h m (fun q hq => hks q (List.mem_cons_of_mem _ hq)) he
        exact ⟨q, List.mem_cons_of_mem _ hq, hsh⟩
      · rw [if_neg hskip] at he
        cases hres : resolveRefs m (refErr "Repository" id "repository" "")
            deps.1 with
        | error e0 =>
          rw [hres] at he
          injection he with he0
          obtain ⟨r, hr, hsh, hnk⟩ := resolveRefs_error m _ deps.1 e0 hres
          refine ⟨(id, deps), List.mem_cons_self _ _, Or.inl ⟨r, hr, ?_, hnk⟩⟩
          rw [← he0, hsh]
          rfl
        | ok dependsOnRepos =>
          simp only [hres] at he
          cases hup : deps.2 with
          | none =>
            simp only [hup] at he
            have hidk : id ∈ omKeys m := hks (id, deps) (List.mem_cons_self _ _)
            have hkeq0 : omKeys (omSet m id h.length) = omKeys m := by
              rw [omKeys_set]
              exact if_pos hidk
            obtain ⟨q, hq, hsh⟩ := ih _ _
              (by rw [hkeq0]
                  exact fun q hq => hks q (List.mem_cons_of_mem _ hq)) he
            rw [hkeq0] at hsh
            exact ⟨q, List.mem_cons_of_mem _ hq, hsh⟩
          | some s =>
            by_cases hs : s = ""
            · subst hs
              simp only [hup, if_pos rfl] at he
              have hidk : id ∈ omKeys m := hks (id, deps) (List.mem_cons_self _ _)
              have hkeq0 : omKeys (omSet m id h.length) = omKeys m := by
                rw [omKeys_set]
                exact if_pos hidk
              obtain ⟨q, hq, hsh⟩ := ih _ _
                (by rw [hkeq0]
                    exact fun q hq => hks q (List.mem_cons_of_mem _ hq)) he
              rw [hkeq0] at hsh
              exact ⟨q, List.mem_cons_of_mem _ hq, hsh⟩
            · cases hgu : omGet m s with
              | none =>
                simp only [hup, if_neg hs, hgu] at he
                injection he with he0
                refine ⟨(id, deps), List.mem_cons_self _ _, Or.inr ⟨?_, ?_, ?_⟩⟩
                · rw [hup]
                  simp [jsTruthyStr, hs]
                · rw [← he0, hup]
                  rfl
                · rw [hup]
                  simp only [Option.getD_some]
                  intro hks2
                  have hiss := (mem_omKeys_iff_isSome m s).mp hks2
                  rw [hgu] at hiss
                  cases hiss
              | some ua =>
                simp only [hup, if_neg hs, hgu] at he
                have hidk : id ∈ omKeys m := hks (id, deps) (List.mem_cons_self _ _)
                have hkeq0 : omKeys (omSet m id h.length) = omKeys m := by
                  rw [omKeys_set]
                  exact if_pos hidk
                obtain ⟨q, hq, hsh⟩ := ih _ _
                  (by rw [hkeq0]
                      exact fun q hq => hks q (List.mem_cons_of_mem _ hq)) he
                rw [hkeq0] at hsh
                exact ⟨q, List.mem_cons_of_mem _ hq, hsh⟩

theorem decisionPass2_master (Ks : List String) (h : Heap)
    (m : OMap String Addr) (entries : List (String × Option String))
    (h2 : Heap) (m2 : OMap String Addr)
    (hks : ∀ p ∈ entries, p.1 ∈ omKeys m)
    (hmks : ∀ k ∈ omKeys m, k ∈ Ks)
    (hm : MapInv h m (fun dt => kindIdx dt = 20))
    (hh : HeapOk Ks h)
    (hok : decisionPass2 h m entries = Except.ok (h2, m2)) :
    (∃ t, h2 = h ++ t) ∧ (∀ k, k ∈ omKeys m2 ↔ k ∈ omKeys m) ∧
      MapInv h2 m2 (fun dt => kindIdx dt = 20) ∧ HeapOk Ks h2 ∧
      ∀ p ∈ entries, jsTruthyStr p.2 = true → p.2.getD "" ∈ omKeys m := by
  induction entries generalizing h m with
  | nil =>
    cases hok
    exact ⟨⟨[], by simp⟩, fun k => Iff.rfl, hm, hh, by simp⟩
  | cons p rest ih =>
    cases p with
    | mk id sup =>
      cases sup with
      | none =>
        rw [decisionPass2] at hok
        obtain ⟨he, hkeq, hminv, hheap, hchecks⟩ :=
          ih h m (fun q hq => hks q (List.mem_cons_of_mem _ hq)) hmks hm hh hok
        refine ⟨he, hkeq, hminv, hheap, ?_⟩
        intro q hq htru
        rcases List.mem_cons.mp hq with rfl | hq
        · simp [jsTruthyStr] at htru
        · exact hchecks q hq htru
      | some s =>
        rw [decisionPass2] at hok
        by_cases hs : s = ""
        · rw [if_pos hs] at hok
          obtain ⟨he, hkeq, hminv, hheap, hchecks⟩ :=
            ih h m (fun q hq => hks q (List.mem_cons_of_mem _ hq)) hmks hm hh hok
          refine ⟨he, hkeq, hminv, hheap, ?_⟩
          intro q hq htru
          rcases List.mem_cons.mp hq with rfl | hq
          · subst hs
            simp [jsTruthyStr] at htru
          · exact hchecks q hq htru
        · rw [if_neg hs] at hok
          cases hgu : omGet m s with
          | none =>
            rw [hgu] at hok
            cases hok
          | some ua =>
            have hidk : id ∈ omKeys m := hks (id, some s) (List.mem_cons_self _ _)
            obtain ⟨a, hga⟩ :=
              Option.isSome_iff_exists.mp ((mem_omKeys_iff_isSome m id).mp hidk)
            have hmem := omGet_eq_some_mem m id a hga
            obtain ⟨hal, haid, hak⟩ := hm (id, a) hmem
            obtain ⟨ctx, cat, st, alts, ch, rat, tr, rev, rd, das, aps, ams,
              sup0, hdata⟩ := kindIdx_decision _ hak
            simp only [hgu, hga, Option.getD_some, hdata] at hok
            have hkeq0 : omKeys (omSet m id h.length) = omKeys m := by
              rw [omKeys_set]
              exact if_pos hidk
            have hks2 : ∀ q ∈ rest, q.1 ∈ omKeys (omSet m id h.length) := by
              rw [hkeq0]
              exact fun q hq => hks q (List.mem_cons_of_mem _ hq)
            have hmks2 : ∀ k ∈ omKeys (omSet m id h.length), k ∈ Ks := by
              rw [hkeq0]
              exact hmks
            have hrefsnew : ∀ r ∈ refsOf (NodeData.decision ctx cat st alts ch
                rat tr rev rd das aps ams (some ua)),
                r < h.length ∧ (derefD h r).id ∈ Ks := by
              intro r hr
              simp only [refsOf, List.mem_append] at hr
              rcases hr with ((hr | hr) | hr) | hr
              · refine hh (derefD h a) (derefD_mem h a hal) r ?_
                rw [hdata]
                simp only [refsOf, List.mem_append]
                exact Or.inl (Or.inl (Or.inl hr))
              · refine hh (derefD h a) (derefD_mem h a hal) r ?_
                rw [hdata]
                simp only [refsOf, List.mem_append]
                exact Or.inl (Or.inl (Or.inr hr))
              · refine hh (derefD h a) (derefD_mem h a hal) r ?_
                rw [hdata]
                simp only [refsOf, List.mem_append]
                exact Or.inl (Or.inr hr)
              · have hr2 := Option.mem_def.mp (Option.mem_toList.mp hr)
                injection hr2 with hr2
                subst hr2
                exact omGet_some_valid h Ks _ m s _ hm hmks hgu
            have hm2 : MapInv (h ++ [⟨(derefD h a).id, (derefD h a).title,
                NodeData.decision ctx cat st alts ch rat tr rev rd das aps ams
                  (some ua)⟩])
                (omSet m id h.length) (fun dt => kindIdx dt = 20) := by
              intro q hq
              rcases mem_omSet _ _ _ _ hq with rfl | hq
              · refine ⟨by simp, ?_, ?_⟩
                · rw [derefD_append_self]
                  exact haid
                · rw [derefD_append_self]
                  rfl
              · exact MapInv_mono h _ m _ hm q hq
            have hh2 : HeapOk Ks (h ++ [⟨(derefD h a).id, (derefD h a).title,
                NodeData.decision ctx cat st alts ch rat tr rev rd das aps ams
                  (some ua)⟩]) :=
              HeapOk_append Ks h _ hh hrefsnew
            obtain ⟨⟨t, ht⟩, hkeq, hminv, hheap, hchecks⟩ :=
              ih _ _ hks2 hmks2 hm2 hh2 hok
            refine ⟨⟨⟨(derefD h a).id, (derefD h a).title,
              NodeData.decision ctx cat st alts ch rat tr rev rd das aps ams
                (some ua)⟩ :: t,
              by rw [ht]; simp⟩, ?_, hminv, hheap, ?_⟩
            · intro k
              rw [hkeq k, hkeq0]
            · intro q hq htru
              rcases List.mem_cons.mp hq with rfl | hq
              · simp only [Option.getD_some]
                exact (mem_omKeys_iff_isSome m s).mpr (by rw [hgu]; rfl)
              · have := hchecks q hq htru
                rwa [hkeq0] at this

theorem decisionPass2_error (h : Heap) (m : OMap String Addr)
    (entries : List (String × Option String)) (e : BuildError)
    (hks : ∀ p ∈ entries, p.1 ∈ omKeys m)
    (he : decisionPass2 h m entries = Except.error e) :
    ∃ p ∈ entries, jsTruthyStr p.2 = true ∧
      e = ⟨"Decision", p.1, "decision", p.2.getD "", " in supersededBy"⟩ ∧
      p.2.getD "" ∉ omKeys m := by
  induction entries generalizing h m with
  | nil => cases he
  | cons p rest ih =>
    cases p with
    | mk id sup =>
      cases sup with
      | none =>
        rw [decisionPass2] at he
        obtain ⟨q, hq, hsh⟩ :=
          ih h m (fun q hq => hks q (List.mem_cons_of_mem _ hq)) he
        exact ⟨q, List.mem_cons_of_mem _ hq, hsh⟩
      | some s =>
        rw [decisionPass2] at he
        by_cases hs : s = ""
        · rw [if_pos hs] at he
          obtain ⟨q, hq, hsh⟩ :=
            ih h m (fun q hq => hks q (List.mem_cons_of_mem _ hq)) he
          exact ⟨q, List.mem_cons_of_mem _ hq, hsh⟩
        · rw [if_neg hs] at he
          cases hgu : omGet m s with
          | none =>
            rw [hgu] at he
            injection he with he0
            refine ⟨(id, some s), List.mem_cons_self _ _, ?_, ?_, ?_⟩
            · simp [jsTruthyStr, hs]
            · rw [← he0]
              rfl
            · simp only [Option.getD_some]
              intro hks2
              have hiss := (mem_omKeys_iff_isSome m s).mp hks2
              rw [hgu] at hiss
              cases hiss
          | some ua =>
            have hidk : id ∈ omKeys m := hks (id, some s) (List.mem_cons_self _ _)
            have hkeq0 : omKeys (omSet m id h.length) = omKeys m := by
              rw [omKeys_set]
              exact if_pos hidk
            simp only [hgu] at he
            obtain ⟨q, hq, hsh⟩ := ih _ _
              (by rw [hkeq0]
                  exact fun q hq => hks q (List.mem_cons_of_mem _ hq)) he
            rw [hkeq0] at hsh
            exact ⟨q, List.mem_cons_of_mem _ hq, hsh⟩

theorem spStep_facts (suppliers : OMap String Addr) (h : Heap) (Ks : List String)
    (K : NodeData → Prop) (hs : MapInv h suppliers K)
    (hsk : ∀ k ∈ omKeys suppliers, k ∈ Ks)
    (id : String) (d : SupplierPrimitiveDef) (n : Node)
    (hok : spStep suppliers id d = Except.ok n) :
    n.id = id ∧ kindIdx n.data = 2 ∧
      ∀ r ∈ refsOf n.data, r < h.length ∧ (derefD h r).id ∈ Ks := by
  rw [spStep] at hok
  cases hg : omGet suppliers d.supplier with
  | none =>
    rw [hg] at hok
    cases hok
  | some a =>
    rw [hg] at hok
    injection hok with hok
    refine ⟨by rw [← hok], by rw [← hok]; rfl, ?_⟩
    intro r hr
    rw [← hok] at hr
    simp only [refsOf, List.mem_singleton] at hr
    subst hr
    exact omGet_some_valid h Ks K suppliers d.supplier r hs hsk hg

theorem spStep_checks (suppliers : OMap String Addr) (id : String)
    (d : SupplierPrimitiveDef) (n : Node)
    (hok : spStep suppliers id d = Except.ok n) :
    d.supplier ∈ omKeys suppliers := by
  rw [spStep] at hok
  cases hg : omGet suppliers d.supplier with
  | none =>
    rw [hg] at hok
    cases hok
  | some a =>
    exact (mem_omKeys_iff_isSome _ _).mpr (by rw [hg]; rfl)

theorem spStep_error (suppliers : OMap String Addr) (id : String)
    (d : SupplierPrimitiveDef) (e : BuildError)
    (he : spStep suppliers id d = Except.error e) :
    e = ⟨"SupplierPrimitive", id, "supplier", d.supplier, ""⟩ ∧
      d.supplier ∉ omKeys suppliers := by
  rw [spStep] at he
  cases hg : omGet suppliers d.supplier with
  | none =>
    rw [hg] at he
    injection he with he0
    refine ⟨he0.symm, ?_⟩
    intro hk
    have hiss := (mem_omKeys_iff_isSome _ _).mp hk
    rw [hg] at hiss
    cases hiss
  | some a =>
    rw [hg] at he
    cases he

theorem toolingStep_facts (primitives sps : OMap String Addr) (h : Heap)
    (Ks : List String) (K1 K2 : NodeData → Prop)
    (hp : MapInv h primitives K1) (hsp : MapInv h sps K2)
    (hpk : ∀ k ∈ omKeys primitives, k ∈ Ks)
    (hspk : ∀ k ∈ omKeys sps, k ∈ Ks)
    (id : String) (d : ToolingDef) (n : Node)
    (hok : toolingStep primitives sps id d = Except.ok n) :
    n.id = id ∧ kindIdx n.data = 3 ∧
      ∀ r ∈ refsOf n.data, r < h.length ∧ (derefD h r).id ∈ Ks := by
  simp only [toolingStep, exceptBind_ok, Except.ok.injEq] at hok
  obtain ⟨dep, hdep, sp, hsp2, hn⟩ := hok
  refine ⟨by rw [← hn], by rw [← hn]; rfl, ?_⟩
  intro r hr
  rw [← hn] at hr
  simp only [refsOf, List.mem_append] at hr
  rcases hr with hr | hr
  · exact resolveRefs_ok_valid h Ks K1 primitives _ _ dep hp hpk hdep r hr
  · exact resolveRefs_ok_valid h Ks K2 sps _ _ sp hsp hspk hsp2 r hr

theorem toolingStep_checks (primitives sps : OMap String Addr) (id : String)
    (d : ToolingDef) (n : Node)
    (hok : toolingStep primitives sps id d = Except.ok n) :
    (∀ r ∈ d.dependsOn.getD [], r ∈ omKeys primitives) ∧
      ∀ r ∈ d.supplierPrimitives.getD [], r ∈ omKeys sps := by
  simp only [toolingStep, exceptBind_ok, Except.ok.injEq] at hok
  obtain ⟨dep, hdep, sp, hsp2, hn⟩ := hok
  exact ⟨(resolveRefs_isOk _ _ _).mp ⟨dep, hdep⟩,
    (resolveRefs_isOk _ _ _).mp ⟨sp, hsp2⟩⟩

theorem toolingStep_error (primitives sps : OMap String Addr) (id : String)
    (d : ToolingDef) (e : BuildError)
    (he : toolingStep primitives sps id d = Except.error e) :
    (∃ r ∈ d.dependsOn.getD [], e = ⟨"Tooling", id, "primitive", r, ""⟩ ∧
      r ∉ omKeys primitives) ∨
    (∃ r ∈ d.supplierPrimitives.getD [],
      e = ⟨"Tooling", id, "supplier primitive", r, ""⟩ ∧ r ∉ omKeys sps) := by
  simp only [toolingStep, exceptBind_error, exceptBind_ok] at he
  rcases he with he | ⟨dep, hdep, he⟩
  · obtain ⟨r, hr, hsh, hnk⟩ := resolveRefs_error _ _ _ _ he
    exact Or.inl ⟨r, hr, by rw [hsh]; rfl, hnk⟩
  · rcases he with he | ⟨sp, hsp2, he⟩
    · obtain ⟨r, hr, hsh, hnk⟩ := resolveRefs_error _ _ _ _ he
      exact Or.inr ⟨r, hr, by rw [hsh]; rfl, hnk⟩
    · cases he

theorem riskStep_facts (primitives : OMap String Addr) (h : Heap)
    (Ks : List String) (K1 : NodeData → Prop)
    (hp : MapInv h primitives K1)
    (hpk : ∀ k ∈ omKeys primitives, k ∈ Ks)
    (id : String) (d : RiskDef) (n : Node)
    (hok : riskStep primitives id d = Except.ok n) :
    n.id = id ∧ kindIdx n.data = 6 ∧
      ∀ r ∈ refsOf n.data, r < h.length ∧ (derefD h r).id ∈ Ks := by
  simp only [riskStep, exceptBind_ok, Except.ok.injEq] at hok
  obtain ⟨mit, hmit, hn⟩ := hok
  refine ⟨by rw [← hn], by rw [← hn]; rfl, ?_⟩
  intro r hr
  rw [← hn] at hr
  simp only [refsOf] at hr
  exact resolveRefs_ok_valid h Ks K1 primitives _ _ mit hp hpk hmit r hr

theorem riskStep_checks (primitives : OMap String Addr) (id : String)
    (d : RiskDef) (n : Node)
    (hok : riskStep primitives id d = Except.ok n) :
    ∀ r ∈ d.mitigatedBy, r ∈ omKeys primitives := by
  simp only [riskStep, exceptBind_ok, Except.ok.injEq] at hok
  obtain ⟨mit, hmit, hn⟩ := hok
  exact (resolveRefs_isOk _ _ _).mp ⟨mit, hmit⟩

theorem riskStep_error (primitives : OMap String Addr) (id : String)
    (d : RiskDef) (e : BuildError)
    (he : riskStep primitives id d = Except.error e) :
    ∃ r ∈ d.mitigatedBy, e = ⟨"Risk", id, "primitive", r, ""⟩ ∧
      r ∉ omKeys primitives := by
  simp only [riskStep, exceptBind_error, exceptBind_ok] at he
  rcases he with he | ⟨mit, hmit, he⟩
  · obtain ⟨r, hr, hsh, hnk⟩ := resolveRefs_error _ _ _ _ he
    exact ⟨r, hr, by rw [hsh]; rfl, hnk⟩
  · cases he

theorem capabilityStep_facts (primitives risks suppliers sps toolingM :
    OMap String Addr) (h : Heap) (Ks : List String)
    (K1 K2 K3 K4 K5 : NodeData → Prop)
    (hp : MapInv h primitives K1) (hr2 : MapInv h risks K2)
    (hsu : MapInv h suppliers K3) (hsp : MapInv h sps K4)
    (htl : MapInv h toolingM K5)
    (hpk : ∀ k ∈ omKeys primitives, k ∈ Ks)
    (hrk : ∀ k ∈ omKeys risks, k ∈ Ks)
    (hsuk : ∀ k ∈ omKeys suppliers, k ∈ Ks)
    (hspk : ∀ k ∈ omKeys sps, k ∈ Ks)
    (htlk : ∀ k ∈ omKeys toolingM, k ∈ Ks)
    (id : String) (d : CapabilityDef) (n : Node)
    (hok : capabilityStep primitives risks suppliers sps toolingM id d =
      Except.ok n) :
    n.id = id ∧ kindIdx n.data = 7 ∧
      ∀ r ∈ refsOf n.data, r < h.length ∧ (derefD h r).id ∈ Ks := by
  simp only [capabilityStep, exceptBind_ok, Except.ok.injEq] at hok
  obtain ⟨dep, hdep, sp, hsp2, tl, htl2, rk, hrk2, supp, hsupp, hn⟩ := hok
  refine ⟨by rw [← hn], by rw [← hn]; rfl, ?_⟩
  intro r hr
  rw [← hn] at hr
  simp only [refsOf, List.mem_append] at hr
  rcases hr with (((hr | hr) | hr) | hr) | hr
  · exact resolveRefs_ok_valid h Ks K1 primitives _ _ dep hp hpk hdep r hr
  · exact resolveRefs_ok_valid h Ks K2 risks _ _ rk hr2 hrk hrk2 r hr
  · exact resolveRefs_ok_valid h Ks K3 suppliers _ _ supp hsu hsuk hsupp r hr
  · exact resolveRefs_ok_valid h Ks K4 sps _ _ sp hsp hspk hsp2 r hr
  · exact resolveRefs_ok_valid h Ks K5 toolingM _ _ tl htl htlk htl2 r hr

theorem capabilityStep_checks (primitives risks suppliers sps toolingM :
    OMap String Addr) (id : String) (d : CapabilityDef) (n : Node)
    (hok : capabilityStep primitives risks suppliers sps toolingM id d =
      Except.ok n) :
    (∀ r ∈ d.dependsOn.getD [], r ∈ omKeys primitives) ∧
    (∀ r ∈ d.supplierPrimitives.getD [], r ∈ omKeys sps) ∧
    (∀ r ∈ d.tooling.getD [], r ∈ omKeys toolingM) ∧
    (∀ r ∈ d.risks.getD [], r ∈ omKeys risks) ∧
    (∀ r ∈ d.suppliers.getD [], r ∈ omKeys suppliers) := by
  simp only [capabilityStep, exceptBind_ok, Except.ok.injEq] at hok
  obtain ⟨dep, hdep, sp, hsp2, tl, htl2, rk, hrk2, supp, hsupp, hn⟩ := hok
  exact ⟨(resolveRefs_isOk _ _ _).mp ⟨dep, hdep⟩,
    (resolveRefs_isOk _ _ _).mp ⟨sp, hsp2⟩,
    (resolveRefs_isOk _ _ _).mp ⟨tl, htl2⟩,
    (resolveRefs_isOk _ _ _).mp ⟨rk, hrk2⟩,
    (resolveRefs_isOk _ _ _).mp ⟨supp, hsupp⟩⟩

theorem capabilityStep_error (primitives risks suppliers sps toolingM :
    OMap String Addr) (id : String) (d : CapabilityDef) (e : BuildError)
    (he : capabilityStep primitives risks suppliers sps toolingM id d =
      Except.error e) :
    (∃ r ∈ d.dependsOn.getD [], e = ⟨"Capability", id, "primitive", r, ""⟩ ∧
      r ∉ omKeys primitives) ∨
    (∃ r ∈ d.supplierPrimitives.getD [],
      e = ⟨"Capability", id, "supplier primitive", r, ""⟩ ∧ r ∉ omKeys sps) ∨
    (∃ r ∈ d.tooling.getD [], e = ⟨"Capability", id, "tooling", r, ""⟩ ∧
      r ∉ omKeys toolingM) ∨
    (∃ r ∈ d.risks.getD [], e = ⟨"Capability", id, "risk", r, ""⟩ ∧
      r ∉ omKeys risks) ∨
    (∃ r ∈ d.suppliers.getD [], e = ⟨"Capability", id, "supplier", r, ""⟩ ∧
      r ∉ omKeys suppliers) := by
  simp only [capabilityStep, exceptBind_error, exceptBind_ok] at he
  rcases he with he | ⟨dep, hdep, he⟩
  · obtain ⟨r, hr, hsh, hnk⟩ := resolveRefs_error _ _ _ _ he
    exact Or.inl ⟨r, hr, by rw [hsh]; rfl, hnk⟩
  rcases he with he | ⟨sp, hsp2, he⟩
  · obtain ⟨r, hr, hsh, hnk⟩ := resolveRefs_error _ _ _ _ he
    exact Or.inr (Or.inl ⟨r, hr, by rw [hsh]; rfl, hnk⟩)
  rcases he with he | ⟨tl, htl2, he⟩
  · obtain ⟨r, hr, hsh, hnk⟩ := resolveRefs_error _ _ _ _ he
    exact Or.inr (Or.inr (Or.inl ⟨r, hr, by rw [hsh]; rfl, hnk⟩))
  rcases he with he | ⟨rk, hrk2, he⟩
  · obtain ⟨r, hr, hsh, hnk⟩ := resolveRefs_error _ _ _ _ he
    exact Or.inr (Or.inr (Or.inr (Or.inl ⟨r, hr, by rw [hsh]; rfl, hnk⟩)))
  rcases he with he | ⟨supp, hsupp, he⟩
  · obtain ⟨r, hr, hsh, hnk⟩ := resolveRefs_error _ _ _ _ he
    exact Or.inr (Or.inr (Or.inr (Or.inr ⟨r, hr, by rw [hsh]; rfl, hnk⟩)))
  cases he

theorem productStep_facts (capabilities customers competitors toolingM :
    OMap String Addr) (h : Heap) (Ks : List String)
    (K1 K2 K3 K4 : NodeData → Prop)
    (hc : MapInv h capabilities K1) (hcu : MapInv h customers K2)
    (hco : MapInv h competitors K3) (htl : MapInv h toolingM K4)
    (hck : ∀ k ∈ omKeys capabilities, k ∈ Ks)
    (hcuk : ∀ k ∈ omKeys customers, k ∈ Ks)
    (hcok : ∀ k ∈ omKeys competitors, k ∈ Ks)
    (htlk : ∀ k ∈ omKeys toolingM, k ∈ Ks)
    (id : String) (d : ProductDef) (n : Node)
    (hok : productStep capabilities customers competitors toolingM id d =
      Except.ok n) :
    n.id = id ∧ kindIdx n.data = 8 ∧
      ∀ r ∈ refsOf n.data, r < h.length ∧ (derefD h r).id ∈ Ks := by
  simp only [productStep, exceptBind_ok, Except.ok.injEq] at hok
  obtain ⟨en, hen, cust, hcust, comp, hcomp, tl, htl2, hn⟩ := hok
  refine ⟨by rw [← hn], by rw [← hn]; rfl, ?_⟩
  intro r hr
  rw [← hn] at hr
  simp only [refsOf, List.mem_append] at hr
  rcases hr with ((hr | hr) | hr) | hr
  · exact resolveRefs_ok_valid h Ks K1 capabilities _ _ en hc hck hen r hr
  · exact resolveRefs_ok_valid h Ks K2 customers _ _ cust hcu hcuk hcust r hr
  · exact resolveRefs_ok_valid h Ks K3 competitors _ _ comp hco hcok hcomp r hr
  · exact resolveRefs_ok_valid h Ks K4 toolingM _ _ tl htl htlk htl2 r hr

theorem productStep_checks (capabilities customers competitors toolingM :
    OMap String Addr) (id : String) (d : ProductDef) (n : Node)
    (hok : productStep capabilities customers competitors toolingM id d =
      Except.ok n) :
    (∀ r ∈ d.enabledBy, r ∈ omKeys capabilities) ∧
    (∀ r ∈ d.customers.getD [], r ∈ omKeys customers) ∧
    (∀ r ∈ d.competitors.getD [], r ∈ omKeys competitors) ∧
    (∀ r ∈ d.tooling.getD [], r ∈ omKeys toolingM) := by
  simp only [productStep, exceptBind_ok, Except.ok.injEq] at hok
  obtain ⟨en, hen, cust, hcust, comp, hcomp, tl, htl2, hn⟩ := hok
  exact ⟨(resolveRefs_isOk _ _ _).mp ⟨en, hen⟩,
    (resolveRefs_isOk _ _ _).mp ⟨cust, hcust⟩,
    (resolveRefs_isOk _ _ _).mp ⟨comp, hcomp⟩,
    (resolveRefs_isOk _ _ _).mp ⟨tl, htl2⟩⟩

theorem productStep_error (capabilities customers competitors toolingM :
    OMap String Addr) (id : String) (d : ProductDef) (e : BuildError)
    (he : productStep capabilities customers competitors toolingM id d =
      Except.error e) :
    (∃ r ∈ d.enabledBy, e = ⟨"Product", id, "capability", r, ""⟩ ∧
      r ∉ omKeys capabilities) ∨
    (∃ r ∈ d.customers.getD [], e = ⟨"Product", id, "customer", r, ""⟩ ∧
      r ∉ omKeys customers) ∨
    (∃ r ∈ d.competitors.getD [], e = ⟨"Product", id, "competitor", r, ""⟩ ∧
      r ∉ omKeys competitors) ∨
    (∃ r ∈ d.tooling.getD [], e = ⟨"Product", id, "tooling", r, ""⟩ ∧
      r ∉ omKeys toolingM) := by
  simp only [productStep, exceptBind_error, exceptBind_ok] at he
  rcases he with he | ⟨en, hen, he⟩
  · obtain ⟨r, hr, hsh, hnk⟩ := resolveRefs_error _ _ _ _ he
    exact Or.inl ⟨r, hr, by rw [hsh]; rfl, hnk⟩
  rcases he with he | ⟨cust, hcust, he⟩
  · obtain ⟨r, hr, hsh, hnk⟩ := resolveRefs_error _ _ _ _ he
    exact Or.inr (Or.inl ⟨r, hr, by rw [hsh]; rfl, hnk⟩)
  rcases he with he | ⟨comp, hcomp, he⟩
  · obtain ⟨r, hr, hsh, hnk⟩ := resolveRefs_error _ _ _ _ he
    exact Or.inr (Or.inr (Or.inl ⟨r, hr, by rw [hsh]; rfl, hnk⟩))
  rcases he with he | ⟨tl, htl2, he⟩
  · obtain ⟨r, hr, hsh, hnk⟩ := resolveRefs_error _ _ _ _ he
    exact Or.inr (Or.inr (Or.inr ⟨r, hr, by rw [hsh]; rfl, hnk⟩))
  cases he

theorem projectStep_facts (capabilities toolingM : OMap String Addr) (h : Heap)
    (Ks : List String) (K1 K2 : NodeData → Prop)
    (hc : MapInv h capabilities K1) (htl : MapInv h toolingM K2)
    (hck : ∀ k ∈ omKeys capabilities, k ∈ Ks)
    (htlk : ∀ k ∈ omKeys toolingM, k ∈ Ks)
    (id : String) (d : ProjectDef) (n : Node)
    (hok : projectStep capabilities toolingM id d = Except.ok n) :
    n.id = id ∧ kindIdx n.data = 9 ∧
      ∀ r ∈ refsOf n.data, r < h.length ∧ (derefD h r).id ∈ Ks := by
  simp only [projectStep, exceptBind_ok, Except.ok.injEq] at hok
  obtain ⟨en, hen, tl, htl2, hn⟩ := hok
  refine ⟨by rw [← hn], by rw [← hn]; rfl, ?_⟩
  intro r hr
  rw [← hn] at hr
  simp only [refsOf, List.mem_append] at hr
  rcases hr with hr | hr
  · exact resolveRefs_ok_valid h Ks K1 capabilities _ _ en hc hck hen r hr
  · exact resolveRefs_ok_valid h Ks K2 toolingM _ _ tl htl htlk htl2 r hr

theorem projectStep_checks (capabilities toolingM : OMap String Addr)
    (id : String) (d : ProjectDef) (n : Node)
    (hok : projectStep capabilities toolingM id d = Except.ok n) :
    (∀ r ∈ d.enabledBy, r ∈ omKeys capabilities) ∧
    (∀ r ∈ d.tooling.getD [], r ∈ omKeys toolingM) := by
  simp only [projectStep, exceptBind_ok, Except.ok.injEq] at hok
  obtain ⟨en, hen, tl, htl2, hn⟩ := hok
  exact ⟨(resolveRefs_isOk _ _ _).mp ⟨en, hen⟩,
    (resolveRefs_isOk _ _ _).mp ⟨tl, htl2⟩⟩

theorem projectStep_error (capabilities toolingM : OMap String Addr)
    (id : String) (d : ProjectDef) (e : BuildError)
    (he : projectStep capabilities toolingM id d = Except.error e) :
    (∃ r ∈ d.enabledBy, e = ⟨"Project", id, "capability", r, ""⟩ ∧
      r ∉ omKeys capabilities) ∨
    (∃ r ∈ d.tooling.getD [], e = ⟨"Project", id, "tooling", r, ""⟩ ∧
      r ∉ omKeys toolingM) := by
  simp only [projectStep, exceptBind_error, exceptBind_ok] at he
  rcases he with he | ⟨en, hen, he⟩
  · obtain ⟨r, hr, hsh, hnk⟩ := resolveRefs_error _ _ _ _ he
    exact Or.inl ⟨r, hr, by rw [hsh]; rfl, hnk⟩
  rcases he with he | ⟨tl, htl2, he⟩
  · obtain ⟨r, hr, hsh, hnk⟩ := resolveRefs_error _ _ _ _ he
    exact Or.inr ⟨r, hr, by rw [hsh]; rfl, hnk⟩
  cases he

theorem milestoneStep_facts (capabilities products : OMap String Addr) (h : Heap)
    (Ks : List String) (K1 K2 : NodeData → Prop)
    (hc : MapInv h capabilities K1) (hpr : MapInv h products K2)
    (hck : ∀ k ∈ omKeys capabilities, k ∈ Ks)
    (hprk : ∀ k ∈ omKeys products, k ∈ Ks)
    (id : String) (d : MilestoneDef) (n : Node)
    (hok : milestoneStep capabilities products id d = Except.ok n) :
    n.id = id ∧ kindIdx n.data = 10 ∧
      ∀ r ∈ refsOf n.data, r < h.length ∧ (derefD h r).id ∈ Ks := by
  simp only [milestoneStep, exceptBind_ok, Except.ok.injEq] at hok
  obtain ⟨dcaps, hdcaps, prods, hprods, hn⟩ := hok
  refine ⟨by rw [← hn], by rw [← hn]; rfl, ?_⟩
  intro r hr
  rw [← hn] at hr
  simp only [refsOf, List.nil_append, List.append_nil, List.mem_append] at hr
  rcases hr with hr | hr
  · exact resolveRefs_ok_valid h Ks K1 capabilities _ _ dcaps hc hck hdcaps r hr
  · exact resolveRefs_ok_valid h Ks K2 products _ _ prods hpr hprk hprods r hr

theorem milestoneStep_checks (capabilities products : OMap String Addr)
    (id : String) (d : MilestoneDef) (n : Node)
    (hok : milestoneStep capabilities products id d = Except.ok n) :
    (∀ r ∈ d.dependsOnCapabilities.getD [], r ∈ omKeys capabilities) ∧
    (∀ r ∈ d.products.getD [], r ∈ omKeys products) := by
  simp only [milestoneStep, exceptBind_ok, Except.ok.injEq] at hok
  obtain ⟨dcaps, hdcaps, prods, hprods, hn⟩ := hok
  exact ⟨(resolveRefs_isOk _ _ _).mp ⟨dcaps, hdcaps⟩,
    (resolveRefs_isOk _ _ _).mp ⟨prods, hprods⟩⟩

theorem milestoneStep_error (capabilities products : OMap String Addr)
    (id : String) (d : MilestoneDef) (e : BuildError)
    (he : milestoneStep capabilities products id d = Except.error e) :
    (∃ r ∈ d.dependsOnCapabilities.getD [],
      e = ⟨"Milestone", id, "capability", r, ""⟩ ∧ r ∉ omKeys capabilities) ∨
    (∃ r ∈ d.products.getD [], e = ⟨"Milestone", id, "product", r, ""⟩ ∧
      r ∉ omKeys products) := by
  simp only [milestoneStep, exceptBind_error, exceptBind_ok] at he
  rcases he with he | ⟨dcaps, hdcaps, he⟩
  · obtain ⟨r, hr, hsh, hnk⟩ := resolveRefs_error _ _ _ _ he
    exact Or.inl ⟨r, hr, by rw [hsh]; rfl, hnk⟩
  rcases he with he | ⟨prods, hprods, he⟩
  · obtain ⟨r, hr, hsh, hnk⟩ := resolveRefs_error _ _ _ _ he
    exact Or.inr ⟨r, hr, by rw [hsh]; rfl, hnk⟩
  cases he

theorem thesisStep_facts (capabilities : OMap String Addr) (h : Heap)
    (Ks : List String) (K1 : NodeData → Prop)
    (hc : MapInv h capabilities K1)
    (hck : ∀ k ∈ omKeys capabilities, k ∈ Ks)
    (id : String) (d : ThesisDef) (n : Node)
    (hok : thesisStep capabilities id d = Except.ok n) :
    n.id = id ∧ kindIdx n.data = 12 ∧
      ∀ r ∈ refsOf n.data, r < h.length ∧ (derefD h r).id ∈ Ks := by
  simp only [thesisStep, exceptBind_ok, Except.ok.injEq] at hok
  obtain ⟨jb, hjb, hn⟩ := hok
  refine ⟨by rw [← hn], by rw [← hn]; rfl, ?_⟩
  intro r hr
  rw [← hn] at hr
  simp only [refsOf] at hr
  exact resolveRefs_ok_valid h Ks K1 capabilities _ _ jb hc hck hjb r hr

theorem thesisStep_checks (capabilities : OMap String Addr) (id : String)
    (d : ThesisDef) (n : Node)
    (hok : thesisStep capabilities id d = Except.ok n) :
    ∀ r ∈ d.justifiedBy, r ∈ omKeys capabilities := by
  simp only [thesisStep, exceptBind_ok, Except.ok.injEq] at hok
  obtain ⟨jb, hjb, hn⟩ := hok
  exact (resolveRefs_isOk _ _ _).mp ⟨jb, hjb⟩

theorem thesisStep_error (capabilities : OMap String Addr) (id : String)
    (d : ThesisDef) (e : BuildError)
    (he : thesisStep capabilities id d = Except.error e) :
    ∃ r ∈ d.justifiedBy, e = ⟨"Thesis", id, "capability", r, ""⟩ ∧
      r ∉ omKeys capabilities := by
  simp only [thesisStep, exceptBind_error, exceptBind_ok] at he
  rcases he with he | ⟨jb, hjb, he⟩
  · obtain ⟨r, hr, hsh, hnk⟩ := resolveRefs_error _ _ _ _ he
    exact ⟨r, hr, by rw [hsh]; rfl, hnk⟩
  · cases he

theorem repoStep_facts (products capabilities : OMap String Addr) (h : Heap)
    (Ks : List String) (K1 K2 : NodeData → Prop)
    (hpr : MapInv h products K1) (hc : MapInv h capabilities K2)
    (hprk : ∀ k ∈ omKeys products, k ∈ Ks)
    (hck : ∀ k ∈ omKeys capabilities, k ∈ Ks)
    (id : String) (d : RepositoryDef) (n : Node)
    (hok : repoStep products capabilities id d = Except.ok n) :
    n.id = id ∧ kindIdx n.data = 11 ∧
      ∀ r ∈ refsOf n.data, r < h.length ∧ (derefD h r).id ∈ Ks := by
  simp only [repoStep, exceptBind_ok, Except.ok.injEq] at hok
  obtain ⟨prods, hprods, caps, hcaps, hn⟩ := hok
  refine ⟨by rw [← hn], by rw [← hn]; rfl, ?_⟩
  intro r hr
  rw [← hn] at hr
  simp only [refsOf, Option.toList, List.nil_append, List.append_nil,
    List.mem_append] at hr
  rcases hr with hr | hr
  · exact resolveRefs_ok_valid h Ks K1 products _ _ prods hpr hprk hprods r hr
  · exact resolveRefs_ok_valid h Ks K2 capabilities _ _ caps hc hck hcaps r hr

theorem repoStep_checks (products capabilities : OMap String Addr) (id : String)
    (d : RepositoryDef) (n : Node)
    (hok : repoStep products capabilities id d = Except.ok n) :
    (∀ r ∈ d.products.getD [], r ∈ omKeys products) ∧
    (∀ r ∈ d.capabilities.getD [], r ∈ omKeys capabilities) := by
  simp only [repoStep, exceptBind_ok, Except.ok.injEq] at hok
  obtain ⟨prods, hprods, caps, hcaps, hn⟩ := hok
  exact ⟨(resolveRefs_isOk _ _ _).mp ⟨prods, hprods⟩,
    (resolveRefs_isOk _ _ _).mp ⟨caps, hcaps⟩⟩

theorem repoStep_error (products capabilities : OMap String Addr) (id : String)
    (d : RepositoryDef) (e : BuildError)
    (he : repoStep products capabilities id d = Except.error e) :
    (∃ r ∈ d.products.getD [], e = ⟨"Repository", id, "product", r, ""⟩ ∧
      r ∉ omKeys products) ∨
    (∃ r ∈ d.capabilities.getD [], e = ⟨"Repository", id, "capability", r, ""⟩ ∧
      r ∉ omKeys capabilities) := by
  simp only [repoStep, exceptBind_error, exceptBind_ok] at he
  rcases he with he | ⟨prods, hprods, he⟩
  · obtain ⟨r, hr, hsh, hnk⟩ := resolveRefs_error _ _ _ _ he
    exact Or.inl ⟨r, hr, by rw [hsh]; rfl, hnk⟩
  rcases he with he | ⟨caps, hcaps, he⟩
  · obtain ⟨r, hr, hsh, hnk⟩ := resolveRefs_error _ _ _ _ he
    exact Or.inr ⟨r, hr, by rw [hsh]; rfl, hnk⟩
  cases he

theorem competencyStep_facts (repositories : OMap String Addr) (h : Heap)
    (Ks : List String) (K1 : NodeData → Prop)
    (hrp : MapInv h repositories K1)
    (hrpk : ∀ k ∈ omKeys repositories, k ∈ Ks)
    (id : String) (d : CompetencyDef) (n : Node)
    (hok : competencyStep repositories id d = Except.ok n) :
    n.id = id ∧ kindIdx n.data = 15 ∧
      ∀ r ∈ refsOf n.data, r < h.length ∧ (derefD h r).id ∈ Ks := by
  simp only [competencyStep, exceptBind_ok, Except.ok.injEq] at hok
  obtain ⟨ev, hev, hn⟩ := hok
  refine ⟨by rw [← hn], by rw [← hn]; rfl, ?_⟩
  intro r hr
  rw [← hn] at hr
  simp only [refsOf] at hr
  exact resolveRefs_ok_valid h Ks K1 repositories _ _ ev hrp hrpk hev r hr

theorem competencyStep_checks (repositories : OMap String Addr) (id : String)
    (d : CompetencyDef) (n : Node)
    (hok : competencyStep repositories id d = Except.ok n) :
    ∀ r ∈ d.evidencedBy, r ∈ omKeys repositories := by
  simp only [competencyStep, exceptBind_ok, Except.ok.injEq] at hok
  obtain ⟨ev, hev, hn⟩ := hok
  exact (resolveRefs_isOk _ _ _).mp ⟨ev, hev⟩

theorem competencyStep_error (repositories : OMap String Addr) (id : String)
    (d : CompetencyDef) (e : BuildError)
    (he : competencyStep repositories id d = Except.error e) :
    ∃ r ∈ d.evidencedBy, e = ⟨"Competency", id, "repository", r, ""⟩ ∧
      r ∉ omKeys repositories := by
  simp only [competencyStep, exceptBind_error, exceptBind_ok] at he
  rcases he with he | ⟨ev, hev, he⟩
  · obtain ⟨r, hr, hsh, hnk⟩ := resolveRefs_error _ _ _ _ he
    exact ⟨r, hr, by rw [hsh]; rfl, hnk⟩
  · cases he

theorem diagnosisStep_facts (risks constraints : OMap String Addr) (h : Heap)
    (Ks : List String) (K1 K2 : NodeData → Prop)
    (hr2 : MapInv h risks K1) (hcn : MapInv h constraints K2)
    (hrk : ∀ k ∈ omKeys risks, k ∈ Ks)
    (hcnk : ∀ k ∈ omKeys constraints, k ∈ Ks)
    (id : String) (d : DiagnosisDef) (n : Node)
    (hok : diagnosisStep risks constraints id d = Except.ok n) :
    n.id = id ∧ kindIdx n.data = 16 ∧
      ∀ r ∈ refsOf n.data, r < h.length ∧ (derefD h r).id ∈ Ks := by
  simp only [diagnosisStep, exceptBind_ok, Except.ok.injEq] at hok
  obtain ⟨ev, hev, cb, hcb, hn⟩ := hok
  refine ⟨by rw [← hn], by rw [← hn]; rfl, ?_⟩
  intro r hr
  rw [← hn] at hr
  simp only [refsOf, List.mem_append] at hr
  rcases hr with hr | hr
  · exact resolveRefs_ok_valid h Ks K1 risks _ _ ev hr2 hrk hev r hr
  · exact resolveRefs_ok_valid h Ks K2 constraints _ _ cb hcn hcnk hcb r hr

theorem diagnosisStep_checks (risks constraints : OMap String Addr) (id : String)
    (d : DiagnosisDef) (n : Node)
    (hok : diagnosisStep risks constraints id d = Except.ok n) :
    (∀ r ∈ d.evidencedBy, r ∈ omKeys risks) ∧
    (∀ r ∈ d.constrainedBy, r ∈ omKeys constraints) := by
  simp only [diagnosisStep, exceptBind_ok, Except.ok.injEq] at hok
  obtain ⟨ev, hev, cb, hcb, hn⟩ := hok
  exact ⟨(resolveRefs_isOk _ _ _).mp ⟨ev, hev⟩,
    (resolveRefs_isOk _ _ _).mp ⟨cb, hcb⟩⟩

theorem diagnosisStep_error (risks constraints : OMap String Addr) (id : String)
    (d : DiagnosisDef) (e : BuildError)
    (he : diagnosisStep risks constraints id d = Except.error e) :
    (∃ r ∈ d.evidencedBy, e = ⟨"Diagnosis", id, "risk", r, ""⟩ ∧
      r ∉ omKeys risks) ∨
    (∃ r ∈ d.constrainedBy, e = ⟨"Diagnosis", id, "constraint", r, ""⟩ ∧
      r ∉ omKeys constraints) := by
  simp only [diagnosisStep, exceptBind_error, exceptBind_ok] at he
  rcases he with he | ⟨ev, hev, he⟩
  · obtain ⟨r, hr, hsh, hnk⟩ := resolveRefs_error _ _ _ _ he
    exact Or.inl ⟨r, hr, by rw [hsh]; rfl, hnk⟩
  rcases he with he | ⟨cb, hcb, he⟩
  · obtain ⟨r, hr, hsh, hnk⟩ := resolveRefs_error _ _ _ _ he
    exact Or.inr ⟨r, hr, by rw [hsh]; rfl, hnk⟩
  cases he

theorem gateStep_facts (proxyMetrics : OMap String Addr) (h : Heap)
    (Ks : List String) (K1 : NodeData → Prop)
    (hpm : MapInv h proxyMetrics K1)
    (hpmk : ∀ k ∈ omKeys proxyMetrics, k ∈ Ks)
    (id : String) (d : ActionGateDef) (n : Node)
    (hok : gateStep proxyMetrics id d = Except.ok n) :
    n.id = id ∧ kindIdx n.data = 17 ∧
      ∀ r ∈ refsOf n.data, r < h.length ∧ (derefD h r).id ∈ Ks := by
  simp only [gateStep, exceptBind_ok, Except.ok.injEq] at hok
  obtain ⟨pm, hpm2, hn⟩ := hok
  refine ⟨by rw [← hn], by rw [← hn]; rfl, ?_⟩
  intro r hr
  rw [← hn] at hr
  simp only [refsOf, List.append_nil, List.mem_append] at hr
  exact resolveRefs_ok_valid h Ks K1 proxyMetrics _ _ pm hpm hpmk hpm2 r hr

theorem gateStep_checks (proxyMetrics : OMap String Addr) (id : String)
    (d : ActionGateDef) (n : Node)
    (hok : gateStep proxyMetrics id d = Except.ok n) :
    ∀ r ∈ d.proxyMetrics, r ∈ omKeys proxyMetrics := by
  simp only [gateStep, exceptBind_ok, Except.ok.injEq] at hok
  obtain ⟨pm, hpm2, hn⟩ := hok
  exact (resolveRefs_isOk _ _ _).mp ⟨pm, hpm2⟩

theorem gateStep_error (proxyMetrics : OMap String Addr) (id : String)
    (d : ActionGateDef) (e : BuildError)
    (he : gateStep proxyMetrics id d = Except.error e) :
    ∃ r ∈ d.proxyMetrics, e = ⟨"ActionGate", id, "proxy metric", r, ""⟩ ∧
      r ∉ omKeys proxyMetrics := by
  simp only [gateStep, exceptBind_error, exceptBind_ok] at he
  rcases he with he | ⟨pm, hpm2, he⟩
  · obtain ⟨r, hr, hsh, hnk⟩ := resolveRefs_error _ _ _ _ he
    exact ⟨r, hr, by rw [hsh]; rfl, hnk⟩
  · cases he

theorem gpStep_facts (diagnoses competencies constraints : OMap String Addr)
    (h : Heap) (Ks : List String) (K1 K2 K3 : NodeData → Prop)
    (hd : MapInv h diagnoses K1) (hcp : MapInv h competencies K2)
    (hcn : MapInv h constraints K3)
    (hdk : ∀ k ∈ omKeys diagnoses, k ∈ Ks)
    (hcpk : ∀ k ∈ omKeys competencies, k ∈ Ks)
    (hcnk : ∀ k ∈ omKeys constraints, k ∈ Ks)
    (id : String) (d : GuidingPolicyDef) (n : Node)
    (hok : gpStep diagnoses competencies constraints id d = Except.ok n) :
    n.id = id ∧ kindIdx n.data = 18 ∧
      ∀ r ∈ refsOf n.data, r < h.length ∧ (derefD h r).id ∈ Ks := by
  rw [gpStep] at hok
  cases hg : omGet diagnoses d.addressesDiagnosis with
  | none =>
    rw [hg] at hok
    cases hok
  | some diag =>
    rw [hg] at hok
    simp only [exceptBind_ok, Except.ok.injEq] at hok
    obtain ⟨lev, hlev, wac, hwac, hn⟩ := hok
    refine ⟨by rw [← hn], by rw [← hn]; rfl, ?_⟩
    intro r hr
    rw [← hn] at hr
    simp only [refsOf, List.mem_cons, List.mem_append] at hr
    rcases hr with rfl | hr | hr
    · exact omGet_some_valid h Ks K1 diagnoses d.addressesDiagnosis r hd hdk hg
    · exact resolveRefs_ok_valid h Ks K2 competencies _ _ lev hcp hcpk hlev r hr
    · exact resolveRefs_ok_valid h Ks K3 constraints _ _ wac hcn hcnk hwac r hr

theorem gpStep_checks (diagnoses competencies constraints : OMap String Addr)
    (id : String) (d : GuidingPolicyDef) (n : Node)
    (hok : gpStep diagnoses competencies constraints id d = Except.ok n) :
    d.addressesDiagnosis ∈ omKeys diagnoses ∧
    (∀ r ∈ d.leveragesCompetencies, r ∈ omKeys competencies) ∧
    (∀ r ∈ d.worksAroundConstraints, r ∈ omKeys constraints) := by
  rw [gpStep] at hok
  cases hg : omGet diagnoses d.addressesDiagnosis with
  | none =>
    rw [hg] at hok
    cases hok
  | some diag =>
    rw [hg] at hok
    simp only [exceptBind_ok, Except.ok.injEq] at hok
    obtain ⟨lev, hlev, wac, hwac, hn⟩ := hok
    exact ⟨(mem_omKeys_iff_isSome _ _).mpr (by rw [hg]; rfl),
      (resolveRefs_isOk _ _ _).mp ⟨lev, hlev⟩,
      (resolveRefs_isOk _ _ _).mp ⟨wac, hwac⟩⟩

theorem gpStep_error (diagnoses competencies constraints : OMap String Addr)
    (id : String) (d : GuidingPolicyDef) (e : BuildError)
    (he : gpStep diagnoses competencies constraints id d = Except.error e) :
    (e = ⟨"GuidingPolicy", id, "diagnosis", d.addressesDiagnosis, ""⟩ ∧
      d.addressesDiagnosis ∉ omKeys diagnoses) ∨
    (∃ r ∈ d.leveragesCompetencies,
      e = ⟨"GuidingPolicy", id, "competency", r, ""⟩ ∧ r ∉ omKeys competencies) ∨
    (∃ r ∈ d.worksAroundConstraints,
      e = ⟨"GuidingPolicy", id, "constraint", r, ""⟩ ∧ r ∉ omKeys constraints) := by
  rw [gpStep] at he
  cases hg : omGet diagnoses d.addressesDiagnosis with
  | none =>
    rw [hg] at he
    injection he with he0
    refine Or.inl ⟨he0.symm, ?_⟩
    intro hk
    have hiss := (mem_omKeys_iff_isSome _ _).mp hk
    rw [hg] at hiss
    cases hiss
  | some diag =>
    rw [hg] at he
    simp only [exceptBind_error, exceptBind_ok] at he
    rcases he with he | ⟨lev, hlev, he⟩
    · obtain ⟨r, hr, hsh, hnk⟩ := resolveRefs_error _ _ _ _ he
      exact Or.inr (Or.inl ⟨r, hr, by rw [hsh]; rfl, hnk⟩)
    rcases he with he | ⟨wac, hwac, he⟩
    · obtain ⟨r, hr, hsh, hnk⟩ := resolveRefs_error _ _ _ _ he
      exact Or.inr (Or.inr ⟨r, hr, by rw [hsh]; rfl, hnk⟩)
    cases he

theorem assumptionStep_facts (products milestones risks : OMap String Addr)
    (h : Heap) (Ks : List String) (K1 K2 K3 : NodeData → Prop)
    (hpr : MapInv h products K1) (hms : MapInv h milestones K2)
    (hr2 : MapInv h risks K3)
    (hprk : ∀ k ∈ omKeys products, k ∈ Ks)
    (hmsk : ∀ k ∈ omKeys milestones, k ∈ Ks)
    (hrk : ∀ k ∈ omKeys risks, k ∈ Ks)
    (id : String) (d : AssumptionDef) (n : Node)
    (hok : assumptionStep products milestones risks id d = Except.ok n) :
    n.id = id ∧ kindIdx n.data = 19 ∧
      ∀ r ∈ refsOf n.data, r < h.length ∧ (derefD h r).id ∈ Ks := by
  simp only [assumptionStep, exceptBind_ok, Except.ok.injEq] at hok
  obtain ⟨dp, hdp, dm, hdm, rr, hrr, hn⟩ := hok
  refine ⟨by rw [← hn], by rw [← hn]; rfl, ?_⟩
  intro r hr
  rw [← hn] at hr
  simp only [refsOf, List.mem_append] at hr
  rcases hr with (hr | hr) | hr
  · exact resolveRefs_ok_valid h Ks K1 products _ _ dp hpr hprk hdp r hr
  · exact resolveRefs_ok_valid h Ks K2 milestones _ _ dm hms hmsk hdm r hr
  · exact resolveRefs_ok_valid h Ks K3 risks _ _ rr hr2 hrk hrr r hr

theorem assumptionStep_checks (products milestones risks : OMap String Addr)
    (id : String) (d : AssumptionDef) (n : Node)
    (hok : assumptionStep products milestones risks id d = Except.ok n) :
    (∀ r ∈ d.dependentProducts.getD [], r ∈ omKeys products) ∧
    (∀ r ∈ d.dependentMilestones.getD [], r ∈ omKeys milestones) ∧
    (∀ r ∈ d.relatedRisks.getD [], r ∈ omKeys risks) := by
  simp only [assumptionStep, exceptBind_ok, Except.ok.injEq] at hok
  obtain ⟨dp, hdp, dm, hdm, rr, hrr, hn⟩ := hok
  exact ⟨(resolveRefs_isOk _ _ _).mp ⟨dp, hdp⟩,
    (resolveRefs_isOk _ _ _).mp ⟨dm, hdm⟩,
    (resolveRefs_isOk _ _ _).mp ⟨rr, hrr⟩⟩

theorem assumptionStep_error (products milestones risks : OMap String Addr)
    (id : String) (d : AssumptionDef) (e : BuildError)
    (he : assumptionStep products milestones risks id d = Except.error e) :
    (∃ r ∈ d.dependentProducts.getD [],
      e = ⟨"Assumption", id, "product", r, ""⟩ ∧ r ∉ omKeys products) ∨
    (∃ r ∈ d.dependentMilestones.getD [],
      e = ⟨"Assumption", id, "milestone", r, ""⟩ ∧ r ∉ omKeys milestones) ∨
    (∃ r ∈ d.relatedRisks.getD [],
      e = ⟨"Assumption", id, "risk", r, ""⟩ ∧ r ∉ omKeys risks) := by
  simp only [assumptionStep, exceptBind_error, exceptBind_ok] at he
  rcases he with he | ⟨dp, hdp, he⟩
  · obtain ⟨r, hr, hsh, hnk⟩ := resolveRefs_error _ _ _ _ he
    exact Or.inl ⟨r, hr, by rw [hsh]; rfl, hnk⟩
  rcases he with he | ⟨dm, hdm, he⟩
  · obtain ⟨r, hr, hsh, hnk⟩ := resolveRefs_error _ _ _ _ he
    exact Or.inr (Or.inl ⟨r, hr, by rw [hsh]; rfl, hnk⟩)
  rcases he with he | ⟨rr, hrr, he⟩
  · obtain ⟨r, hr, hsh, hnk⟩ := resolveRefs_error _ _ _ _ he
    exact Or.inr (Or.inr ⟨r, hr, by rw [hsh]; rfl, hnk⟩)
  cases he

theorem decisionStep_facts (assumptions products milestones : OMap String Addr)
    (h : Heap) (Ks : List String) (K1 K2 K3 : NodeData → Prop)
    (has : MapInv h assumptions K1) (hpr : MapInv h products K2)
    (hms : MapInv h milestones K3)
    (hask : ∀ k ∈ omKeys assumptions, k ∈ Ks)
    (hprk : ∀ k ∈ omKeys products, k ∈ Ks)
    (hmsk : ∀ k ∈ omKeys milestones, k ∈ Ks)
    (id : String) (d : DecisionDef) (n : Node)
    (hok : decisionStep assumptions products milestones id d = Except.ok n) :
    n.id = id ∧ kindIdx n.data = 20 ∧
      ∀ r ∈ refsOf n.data, r < h.length ∧ (derefD h r).id ∈ Ks := by
  simp only [decisionStep, exceptBind_ok, Except.ok.injEq] at hok
  obtain ⟨das, hdas, aps, haps, ams, hams, hn⟩ := hok
  refine ⟨by rw [← hn], by rw [← hn]; rfl, ?_⟩
  intro r hr
  rw [← hn] at hr
  simp only [refsOf, Option.toList, List.append_nil, List.mem_append] at hr
  rcases hr with (hr | hr) | hr
  · exact resolveRefs_ok_valid h Ks K1 assumptions _ _ das has hask hdas r hr
  · exact resolveRefs_ok_valid h Ks K2 products _ _ aps hpr hprk haps r hr
  · exact resolveRefs_ok_valid h Ks K3 milestones _ _ ams hms hmsk hams r hr

theorem decisionStep_checks (assumptions products milestones : OMap String Addr)
    (id : String) (d : DecisionDef) (n : Node)
    (hok : decisionStep assumptions products milestones id d = Except.ok n) :
    (∀ r ∈ d.dependsOnAssumptions.getD [], r ∈ omKeys assumptions) ∧
    (∀ r ∈ d.affectedProducts.getD [], r ∈ omKeys products) ∧
    (∀ r ∈ d.affectedMilestones.getD [], r ∈ omKeys milestones) := by
  simp only [decisionStep, exceptBind_ok, Except.ok.injEq] at hok
  obtain ⟨das, hdas, aps, haps, ams, hams, hn⟩ := hok
  exact ⟨(resolveRefs_isOk _ _ _).mp ⟨das, hdas⟩,
    (resolveRefs_isOk _ _ _).mp ⟨aps, haps⟩,
    (resolveRefs_isOk _ _ _).mp ⟨ams, hams⟩⟩

theorem decisionStep_error (assumptions products milestones : OMap String Addr)
    (id : String) (d : DecisionDef) (e : BuildError)
    (he : decisionStep assumptions products milestones id d = Except.error e) :
    (∃ r ∈ d.dependsOnAssumptions.getD [],
      e = ⟨"Decision", id, "assumption", r, ""⟩ ∧ r ∉ omKeys assumptions) ∨
    (∃ r ∈ d.affectedProducts.getD [],
      e = ⟨"Decision", id, "product", r, ""⟩ ∧ r ∉ omKeys products) ∨
    (∃ r ∈ d.affectedMilestones.getD [],
      e = ⟨"Decision", id, "milestone", r, ""⟩ ∧ r ∉ omKeys milestones) := by
  simp only [decisionStep, exceptBind_error, exceptBind_ok] at he
  rcases he with he | ⟨das, hdas, he⟩
  · obtain ⟨r, hr, hsh, hnk⟩ := resolveRefs_error _ _ _ _ he
    exact Or.inl ⟨r, hr, by rw [hsh]; rfl, hnk⟩
  rcases he with he | ⟨aps, haps, he⟩
  · obtain ⟨r, hr, hsh, hnk⟩ := resolveRefs_error _ _ _ _ he
    exact Or.inr (Or.inl ⟨r, hr, by rw [hsh]; rfl, hnk⟩)
  rcases he with he | ⟨ams, hams, he⟩
  · obtain ⟨r, hr, hsh, hnk⟩ := resolveRefs_error _ _ _ _ he
    exact Or.inr (Or.inr ⟨r, hr, by rw [hsh]; rfl, hnk⟩)
  cases he

theorem primitiveStep_facts (h : Heap) (Ks : List String) (id tl : String)
    (n : Node) (hok : primitiveStep id tl = Except.ok n) :
    n.id = id ∧ kindIdx n.data = 0 ∧
      ∀ r ∈ refsOf n.data, r < h.length ∧ (derefD h r).id ∈ Ks := by
  injection hok with hok
  refine ⟨by rw [← hok], by rw [← hok]; rfl, ?_⟩
  intro r hr
  rw [← hok] at hr
  simp [refsOf] at hr

theorem supplierStep_facts (h : Heap) (Ks : List String) (id tl : String)
    (n : Node) (hok : supplierStep id tl = Except.ok n) :
    n.id = id ∧ kindIdx n.data = 1 ∧
      ∀ r ∈ refsOf n.data, r < h.length ∧ (derefD h r).id ∈ Ks := by
  injection hok with hok
  refine ⟨by rw [← hok], by rw [← hok]; rfl, ?_⟩
  intro r hr
  rw [← hok] at hr
  simp [refsOf] at hr

theorem customerStep_facts (h : Heap) (Ks : List String) (id tl : String)
    (n : Node) (hok : customerStep id tl = Except.ok n) :
    n.id = id ∧ kindIdx n.data = 4 ∧
      ∀ r ∈ refsOf n.data, r < h.length ∧ (derefD h r).id ∈ Ks := by
  injection hok with hok
  refine ⟨by rw [← hok], by rw [← hok]; rfl, ?_⟩
  intro r hr
  rw [← hok] at hr
  simp [refsOf] at hr

theorem competitorStep_facts (h : Heap) (Ks : List String) (id : String)
    (d : CompetitorEntry) (n : Node)
    (hok : competitorStep id d = Except.ok n) :
    n.id = id ∧ kindIdx n.data = 5 ∧
      ∀ r ∈ refsOf n.data, r < h.length ∧ (derefD h r).id ∈ Ks := by
  cases d with
  | leaf t =>
    rw [competitorStep] at hok
    injection hok with hok
    refine ⟨by rw [← hok], by rw [← hok]; rfl, ?_⟩
    intro r hr
    rw [← hok] at hr
    simp [refsOf] at hr
  | full t tl =>
    rw [competitorStep] at hok
    injection hok with hok
    refine ⟨by rw [← hok], by rw [← hok]; rfl, ?_⟩
    intro r hr
    rw [← hok] at hr
    simp [refsOf] at hr

theorem constraintStep_facts (h : Heap) (Ks : List String) (id : String)
    (d : ConstraintDef) (n : Node)
    (hok : constraintStep id d = Except.ok n) :
    n.id = id ∧ kindIdx n.data = 13 ∧
      ∀ r ∈ refsOf n.data, r < h.length ∧ (derefD h r).id ∈ Ks := by
  injection hok with hok
  refine ⟨by rw [← hok], by rw [← hok]; rfl, ?_⟩
  intro r hr
  rw [← hok] at hr
  simp [refsOf] at hr

theorem pmStep_facts (h : Heap) (Ks : List String) (id : String)
    (d : ProxyMetricDef) (n : Node)
    (hok : pmStep id d = Except.ok n) :
    n.id = id ∧ kindIdx n.data = 14 ∧
      ∀ r ∈ refsOf n.data, r < h.length ∧ (derefD h r).id ∈ Ks := by
  injection hok with hok
  refine ⟨by rw [← hok], by rw [← hok]; rfl, ?_⟩
  intro r hr
  rw [← hok] at hr
  simp [refsOf] at hr

theorem heapExt_trans {h1 h2 h3 : Heap} (e1 : ∃ t, h2 = h1 ++ t)
    (e2 : ∃ t, h3 = h2 ++ t) : ∃ t, h3 = h1 ++ t := by
  obtain ⟨a, ha⟩ := e1
  obtain ⟨b, hb⟩ := e2
  exact ⟨a ++ b, by rw [hb, ha, List.append_assoc]⟩

theorem MapInv_ext (h h2 : Heap) (m : OMap String Addr) (K : NodeData → Prop)
    (hm : MapInv h m K) (he : ∃ t, h2 = h ++ t) : MapInv h2 m K := by
  obtain ⟨t, rfl⟩ := he
  exact MapInv_mono h t m K hm

theorem phaseFold_master (step : String → δ → Except BuildError Node)
    (defs : List (String × δ)) (Ks : List String) (K : NodeData → Prop)
    (h : Heap) (h2 : Heap) (m2 : OMap String Addr)
    (hstep : ∀ id dd n, (id, dd) ∈ defs → step id dd = Except.ok n →
      n.id = id ∧ K n.data ∧
        ∀ r ∈ refsOf n.data, r < h.length ∧ (derefD h r).id ∈ Ks)
    (hh : HeapOk Ks h)
    (hok : phaseFold step defs (h, []) = Except.ok (h2, m2)) :
    (∃ t, h2 = h ++ t) ∧ MapInv h2 m2 K ∧ HeapOk Ks h2 ∧
      (∀ k, k ∈ omKeys m2 ↔ k ∈ defs.map (fun p => p.1)) ∧
      (∀ p ∈ defs, ∃ n, step p.1 p.2 = Except.ok n) := by
  obtain ⟨hm2, hh2⟩ := phaseFold_inv step defs Ks K h [] h2 m2 hstep
    (fun p hp => absurd hp (List.not_mem_nil p)) hh hok
  refine ⟨phaseFold_heap_ext step defs h [] h2 m2 hok, hm2, hh2, ?_, ?_⟩
  · intro k
    exact (phaseFold_keys step defs h [] h2 m2 hok k).trans (by simp [omKeys])
  · exact (phaseFold_isOk_iff step defs (h, [])).mp ⟨(h2, m2), hok⟩

theorem mapBlock_facts (H : Heap) (m : OMap String Addr) (K : NodeData → Prop)
    (Ks : List String) (hm : MapInv H m K) (hks : ∀ k ∈ omKeys m, k ∈ Ks) :
    ∀ a ∈ omValues m, a < H.length ∧ (derefD H a).id ∈ Ks := by
  intro a ha
  obtain ⟨k, hk⟩ := (mem_omValues m a).mp ha
  obtain ⟨h1, h2, _⟩ := hm (k, a) hk
  refine ⟨h1, ?_⟩
  rw [h2]
  exact hks k (mem_omKeys_of_mem m (k, a) hk)

theorem omKeys_toValue (H : Heap) (m : OMap String Addr) (K : NodeData → Prop)
    (hm : MapInv H m K) :
    ∀ k ∈ omKeys m, ∃ a ∈ omValues m, (derefD H a).id = k := by
  intro k hk
  obtain ⟨p, hp, hfst⟩ := List.mem_map.mp hk
  refine ⟨p.2, (mem_omValues m p.2).mpr ⟨p.1, by rw [Prod.mk.eta]; exact hp⟩, ?_⟩
  rw [(hm p hp).2.1, hfst]

theorem mapped_kind_const (H : Heap) (m : OMap String Addr) (c : Nat)
    (hm : MapInv H m (fun dt => kindIdx dt = c)) :
    ∀ x ∈ (omValues m).map (fun a => kindIdx (derefD H a).data), x = c := by
  intro x hx
  obtain ⟨a, ha, rfl⟩ := List.mem_map.mp hx
  obtain ⟨k, hk⟩ := (mem_omValues m a).mp ha
  exact (hm (k, a) hk).2.2

theorem pairwise_le_const (c : Nat) (l : List Nat) (h1 : ∀ x ∈ l, x = c) :
    List.Pairwise (fun a b => a ≤ b) l ∧ ∀ y ∈ l, c ≤ y := by
  constructor
  · induction l with
    | nil => exact List.Pairwise.nil
    | cons a t ih =>
      refine List.Pairwise.cons ?_ (ih (fun x hx => h1 x (List.mem_cons_of_mem _ hx)))
      intro b hb
      rw [h1 a (List.mem_cons_self _ _), h1 b (List.mem_cons_of_mem _ hb)]
  · intro y hy
    rw [h1 y hy]

theorem pairwise_le_const_append (c : Nat) (l1 l2 : List Nat)
    (h1 : ∀ x ∈ l1, x = c)
    (h2 : List.Pairwise (fun a b => a ≤ b) l2) (hlb : ∀ y ∈ l2, c ≤ y) :
    List.Pairwise (fun a b => a ≤ b) (l1 ++ l2) ∧ ∀ y ∈ l1 ++ l2, c ≤ y := by
  obtain ⟨p1, b1⟩ := pairwise_le_const c l1 h1
  constructor
  · rw [List.pairwise_append]
    refine ⟨p1, h2, ?_⟩
    intro a ha b hb
    rw [h1 a ha]
    exact hlb b hb
  · intro y hy
    rcases List.mem_append.mp hy with hy | hy
    · rw [h1 y hy]
    · exact hlb y hy

theorem sectionIds_primitives (d : GraphDef) (k : String)
    (hk : k ∈ omKeys d.primitives) : k ∈ SectionIds d := by
  simp only [SectionIds, List.mem_append]
  tauto

theorem sectionIds_suppliers (d : GraphDef) (k : String)
    (hk : k ∈ omKeys d.suppliers) : k ∈ SectionIds d := by
  simp only [SectionIds, List.mem_append]
  tauto

theorem sectionIds_supplierPrimitives (d : GraphDef) (k : String)
    (hk : k ∈ omKeys d.supplierPrimitives) : k ∈ SectionIds d := by
  simp only [SectionIds, List.mem_append]
  tauto

theorem sectionIds_tooling (d : GraphDef) (k : String)
    (hk : k ∈ omKeys d.tooling) : k ∈ SectionIds d := by
  simp only [SectionIds, List.mem_append]
  tauto

theorem sectionIds_customers (d : GraphDef) (k : String)
    (hk : k ∈ omKeys d.customers) : k ∈ SectionIds d := by
  simp only [SectionIds, List.mem_append]
  tauto

theorem sectionIds_competitors (d : GraphDef) (k : String)
    (hk : k ∈ omKeys d.competitors) : k ∈ SectionIds d := by
  simp only [SectionIds, List.mem_append]
  tauto

theorem sectionIds_risks (d : GraphDef) (k : String)
    (hk : k ∈ omKeys d.risks) : k ∈ SectionIds d := by
  simp only [SectionIds, List.mem_append]
  tauto

theorem sectionIds_capabilities (d : GraphDef) (k : String)
    (hk : k ∈ omKeys d.capabilities) : k ∈ SectionIds d := by
  simp only [SectionIds, List.mem_append]
  tauto

theorem sectionIds_products (d : GraphDef) (k : String)
    (hk : k ∈ omKeys d.products) : k ∈ SectionIds d := by
  simp only [SectionIds, List.mem_append]
  tauto

theorem sectionIds_projects (d : GraphDef) (k : String)
    (hk : k ∈ omKeys d.projects) : k ∈ SectionIds d := by
  simp only [SectionIds, List.mem_append]
  tauto

theorem sectionIds_milestones (d : GraphDef) (k : String)
    (hk : k ∈ omKeys d.milestones) : k ∈ SectionIds d := by
  simp only [SectionIds, List.mem_append]
  tauto

theorem sectionIds_repositories (d : GraphDef) (k : String)
    (hk : k ∈ omKeys d.repositories) : k ∈ SectionIds d := by
  simp only [SectionIds, List.mem_append]
  tauto

theorem sectionIds_thesis (d : GraphDef) (k : String)
    (hk : k ∈ omKeys d.thesis) : k ∈ SectionIds d := by
  simp only [SectionIds, List.mem_append]
  tauto

theorem sectionIds_constraints (d : GraphDef) (k : String)
    (hk : k ∈ omKeys d.constraints) : k ∈ SectionIds d := by
  simp only [SectionIds, List.mem_append]
  tauto

theorem sectionIds_proxyMetrics (d : GraphDef) (k : String)
    (hk : k ∈ omKeys d.proxyMetrics) : k ∈ SectionIds d := by
  simp only [SectionIds, List.mem_append]
  tauto

theorem sectionIds_competencies (d : GraphDef) (k : String)
    (hk : k ∈ omKeys d.competencies) : k ∈ SectionIds d := by
  simp only [SectionIds, List.mem_append]
  tauto

theorem sectionIds_diagnoses (d : GraphDef) (k : String)
    (hk : k ∈ omKeys d.diagnoses) : k ∈ SectionIds d := by
  simp only [SectionIds, List.mem_append]
  tauto

theorem sectionIds_guidingPolicies (d : GraphDef) (k : String)
    (hk : k ∈ omKeys d.guidingPolicies) : k ∈ SectionIds d := by
  simp only [SectionIds, List.mem_append]
  tauto

theorem sectionIds_actionGates (d : GraphDef) (k : String)
    (hk : k ∈ omKeys d.actionGates) : k ∈ SectionIds d := by
  simp only [SectionIds, List.mem_append]
  tauto

theorem sectionIds_assumptions (d : GraphDef) (k : String)
    (hk : k ∈ omKeys d.assumptions) : k ∈ SectionIds d := by
  simp only [SectionIds, List.mem_append]
  tauto

theorem sectionIds_decisions (d : GraphDef) (k : String)
    (hk : k ∈ omKeys d.decisions) : k ∈ SectionIds d := by
  simp only [SectionIds, List.mem_append]
  tauto

set_option maxHeartbeats 3000000 in
/-- Master inversion of a successful `defineGraph` run: liveness and
id-closure of the returned plan, block-sorted kinds, and every reference
condition the run checked. -/
theorem defineGraph_ok_master (d : GraphDef) (H : Heap) (plan : List Addr)
    (hok : defineGraph d = Except.ok (H, plan)) :
    (∀ a ∈ plan, a < H.length ∧ (derefD H a).id ∈ SectionIds d) ∧
    (∀ a ∈ plan, ∀ r ∈ refsOf (derefD H a).data,
      r < H.length ∧ (derefD H r).id ∈ SectionIds d) ∧
    (∀ k ∈ SectionIds d, ∃ b ∈ plan, (derefD H b).id = k) ∧
    List.Pairwise (fun x y => x ≤ y)
      (plan.map (fun a => kindIdx (derefD H a).data)) ∧
    WFpass1 d ∧ EntryChecks d := by
  simp only [defineGraph, exceptBind_ok, Except.ok.injEq, Prod.mk.injEq] at hok
  obtain ⟨⟨h1, primitives⟩, hp1, ⟨h2, suppliers⟩, hp2, ⟨h3, customers⟩, hp3, ⟨h4, competitors⟩, hp4, ⟨h5, supplierPrims⟩, hp5, ⟨h6, toolingM⟩, hp6, ⟨h7, risks⟩, hp7, ⟨h8, capabilities⟩, hp8, ⟨h9, products⟩, hp9, ⟨h10, projects⟩, hp10, ⟨h11, milestones1⟩, hp11, ⟨h12, milestones2⟩, hp12, ⟨h13, theses⟩, hp13, ⟨h14, repos1⟩, hp14, ⟨h15, repos2⟩, hp15, ⟨h16, constraintsM⟩, hp16, ⟨h17, proxyMetricsM⟩, hp17, ⟨h18, competenciesM⟩, hp18, ⟨h19, diagnosesM⟩, hp19, ⟨h20, gates1⟩, hp20, ⟨h21, gates2⟩, hp21, ⟨h22, gps⟩, hp22, ⟨h23, milestones3⟩, hp23, ⟨h24, assumptionsM⟩, hp24, ⟨h25, decisions1⟩, hp25, ⟨h26, decisions2⟩, hp26, hH, hplan⟩ := hok
  subst hH
  obtain ⟨ht1, M1, HO1, K1, C1⟩ := phaseFold_master primitiveStep d.primitives
    (SectionIds d) (fun dt => kindIdx dt = 0) [] h1 primitives
    (fun id dd n hmem hs => primitiveStep_facts [] (SectionIds d) id dd n hs)
    (fun n hn => absurd hn (List.not_mem_nil n)) hp1
  obtain ⟨ht2, M2, HO2, K2, C2⟩ := phaseFold_master supplierStep d.suppliers
    (SectionIds d) (fun dt => kindIdx dt = 1) h1 h2 suppliers
    (fun id dd n hmem hs => supplierStep_facts h1 (SectionIds d) id dd n hs)
    HO1 hp2
  obtain ⟨ht3, M3, HO3, K3, C3⟩ := phaseFold_master customerStep d.customers
    (SectionIds d) (fun dt => kindIdx dt = 4) h2 h3 customers
    (fun id dd n hmem hs => customerStep_facts h2 (SectionIds d) id dd n hs)
    HO2 hp3
  obtain ⟨ht4, M4, HO4, K4, C4⟩ := phaseFold_master competitorStep d.competitors
    (SectionIds d) (fun dt => kindIdx dt = 5) h3 h4 competitors
    (fun id dd n hmem hs => competitorStep_facts h3 (SectionIds d) id dd n hs)
    HO3 hp4
  have k1S : ∀ k ∈ omKeys primitives, k ∈ SectionIds d :=
    fun k hk => sectionIds_primitives d k ((K1 k).mp hk)
  have k2S : ∀ k ∈ omKeys suppliers, k ∈ SectionIds d :=
    fun k hk => sectionIds_suppliers d k ((K2 k).mp hk)
  have k3S : ∀ k ∈ omKeys customers, k ∈ SectionIds d :=
    fun k hk => sectionIds_customers d k ((K3 k).mp hk)
  have k4S : ∀ k ∈ omKeys competitors, k ∈ SectionIds d :=
    fun k hk => sectionIds_competitors d k ((K4 k).mp hk)
  obtain ⟨ht5, M5, HO5, K5, C5⟩ := phaseFold_master (spStep suppliers)
    d.supplierPrimitives (SectionIds d) (fun dt => kindIdx dt = 2) h4 h5 supplierPrims
    (fun id dd n hmem hs => spStep_facts suppliers h4 (SectionIds d) _
      (MapInv_ext h2 h4 suppliers _ M2 (heapExt_trans (ht3) ht4)) k2S id dd n hs)
    HO4 hp5
  have k5S : ∀ k ∈ omKeys supplierPrims, k ∈ SectionIds d :=
    fun k hk => sectionIds_supplierPrimitives d k ((K5 k).mp hk)
  obtain ⟨ht6, M6, HO6, K6, C6⟩ := phaseFold_master
    (toolingStep primitives supplierPrims) d.tooling (SectionIds d) (fun dt => kindIdx dt = 3) h5 h6 toolingM
    (fun id dd n hmem hs => toolingStep_facts primitives supplierPrims h5
      (SectionIds d) _ _
      (MapInv_ext h1 h5 primitives _ M1 (heapExt_trans (heapExt_trans (heapExt_trans (ht2) ht3) ht4) ht5)) M5 k1S k5S id dd n hs)
    HO5 hp6
  have k6S : ∀ k ∈ omKeys toolingM, k ∈ SectionIds d :=
    fun k hk => sectionIds_tooling d k ((K6 k).mp hk)
  obtain ⟨ht7, M7, HO7, K7, C7⟩ := phaseFold_master (riskStep primitives)
    d.risks (SectionIds d) (fun dt => kindIdx dt = 6) h6 h7 risks
    (fun id dd n hmem hs => riskStep_facts primitives h6 (SectionIds d) _
      (MapInv_ext h1 h6 primitives _ M1 (heapExt_trans (heapExt_trans (heapExt_trans (heapExt_trans (ht2) ht3) ht4) ht5) ht6)) k1S id dd n hs)
    HO6 hp7
  have k7S : ∀ k ∈ omKeys risks, k ∈ SectionIds d :=
    fun k hk => sectionIds_risks d k ((K7 k).mp hk)
  obtain ⟨ht8, M8, HO8, K8, C8⟩ := phaseFold_master
    (capabilityStep primitives risks suppliers supplierPrims toolingM)
    d.capabilities (SectionIds d) (fun dt => kindIdx dt = 7) h7 h8 capabilities
    (fun id dd n hmem hs => capabilityStep_facts primitives risks suppliers
      supplierPrims toolingM h7 (SectionIds d) _ _ _ _ _
      (MapInv_ext h1 h7 primitives _ M1 (heapExt_trans (heapExt_trans (heapExt_trans (heapExt_trans (heapExt_trans (ht2) ht3) ht4) ht5) ht6) ht7)) M7
      (MapInv_ext h2 h7 suppliers _ M2 (heapExt_trans (heapExt_trans (heapExt_trans (heapExt_trans (ht3) ht4) ht5) ht6) ht7))
      (MapInv_ext h5 h7 supplierPrims _ M5 (heapExt_trans (ht6) ht7))
      (MapInv_ext h6 h7 toolingM _ M6 (ht7))
      k1S k7S k2S k5S k6S id dd n hs)
    HO7 hp8
  have k8S : ∀ k ∈ omKeys capabilities, k ∈ SectionIds d :=
    fun k hk => sectionIds_capabilities d k ((K8 k).mp hk)
  obtain ⟨ht9, M9, HO9, K9, C9⟩ := phaseFold_master
    (productStep capabilities customers competitors toolingM)
    d.products (SectionIds d) (fun dt => kindIdx dt = 8) h8 h9 products
    (fun id dd n hmem hs => productStep_facts capabilities customers
      competitors toolingM h8 (SectionIds d) _ _ _ _ M8
      (MapInv_ext h3 h8 customers _ M3 (heapExt_trans (heapExt_trans (heapExt_trans (heapExt_trans (ht4) ht5) ht6) ht7) ht8))
      (MapInv_ext h4 h8 competitors _ M4 (heapExt_trans (heapExt_trans (heapExt_trans (ht5) ht6) ht7) ht8))
      (MapInv_ext h6 h8 toolingM _ M6 (heapExt_trans (ht7) ht8))
      k8S k3S k4S k6S id dd n hs)
    HO8 hp9
  have k9S : ∀ k ∈ omKeys products, k ∈ SectionIds d :=
    fun k hk => sectionIds_products d k ((K9 k).mp hk)
  obtain ⟨ht10, M10, HO10, K10, C10⟩ := phaseFold_master
    (projectStep capabilities toolingM) d.projects (SectionIds d) (fun dt => kindIdx dt = 9) h9 h10 projects
    (fun id dd n hmem hs => projectStep_facts capabilities toolingM h9
      (SectionIds d) _ _ (MapInv_ext h8 h9 capabilities _ M8 ht9)
      (MapInv_ext h6 h9 toolingM _ M6 (heapExt_trans (heapExt_trans (ht7) ht8) ht9)) k8S k6S id dd n hs)
    HO9 hp10
  have k10S : ∀ k ∈ omKeys projects, k ∈ SectionIds d :=
    fun k hk => sectionIds_projects d k ((K10 k).mp hk)
  obtain ⟨ht11, M11, HO11, K11, C11⟩ := phaseFold_master
    (milestoneStep capabilities products) d.milestones (SectionIds d) (fun dt => kindIdx dt = 10)
    h10 h11 milestones1
    (fun id dd n hmem hs => milestoneStep_facts capabilities products h10
      (SectionIds d) _ _ (MapInv_ext h8 h10 capabilities _ M8 (heapExt_trans (ht9) ht10))
      (MapInv_ext h9 h10 products _ M9 ht10) k8S k9S id dd n hs)
    HO10 hp11
  have k11S : ∀ k ∈ omKeys milestones1, k ∈ SectionIds d :=
    fun k hk => sectionIds_milestones d k ((K11 k).mp hk)
  have hks12 : ∀ p ∈ buildDepsMap
      (fun dd : MilestoneDef => dd.dependsOnMilestones.getD []) d.milestones [],
      p.1 ∈ omKeys milestones1 := by
    intro p hp
    rcases mem_buildDepsMap _ _ _ _ hp with hin | ⟨dd, hdd, _⟩
    · cases hin
    · exact (K11 p.1).mpr (List.mem_map_of_mem _ hdd)
  obtain ⟨ht12, K12iff, M12, HO12, EC1raw⟩ := milestonePass2_master
    (SectionIds d) h11 milestones1 _ h12 milestones2 hks12 k11S M11 HO11 hp12
  have k12S : ∀ k ∈ omKeys milestones2, k ∈ SectionIds d :=
    fun k hk => k11S k ((K12iff k).mp hk)
  obtain ⟨ht13, M13, HO13, K13, C13⟩ := phaseFold_master
    (thesisStep capabilities) d.thesis (SectionIds d) (fun dt => kindIdx dt = 12) h12 h13 theses
    (fun id dd n hmem hs => thesisStep_facts capabilities h12 (SectionIds d) _
      (MapInv_ext h8 h12 capabilities _ M8 (heapExt_trans (heapExt_trans (heapExt_trans (ht9) ht10) ht11) ht12)) k8S id dd n hs)
    HO12 hp13
  have k13S : ∀ k ∈ omKeys theses, k ∈ SectionIds d :=
    fun k hk => sectionIds_thesis d k ((K13 k).mp hk)
  obtain ⟨ht14, M14, HO14, K14, C14⟩ := phaseFold_master
    (repoStep products capabilities) d.repositories (SectionIds d) (fun dt => kindIdx dt = 11) h13 h14 repos1
    (fun id dd n hmem hs => repoStep_facts products capabilities h13
      (SectionIds d) _ _ (MapInv_ext h9 h13 products _ M9 (heapExt_trans (heapExt_trans (heapExt_trans (ht10) ht11) ht12) ht13))
      (MapInv_ext h8 h13 capabilities _ M8 (heapExt_trans (heapExt_trans (heapExt_trans (heapExt_trans (ht9) ht10) ht11) ht12) ht13)) k9S k8S id dd n hs)
    HO13 hp14
  have k14S : ∀ k ∈ omKeys repos1, k ∈ SectionIds d :=
    fun k hk => sectionIds_repositories d k ((K14 k).mp hk)
  have hks15 : ∀ p ∈ buildDepsMap
      (fun dd : RepositoryDef => (dd.dependsOn.getD [], dd.upstream))
      d.repositories [], p.1 ∈ omKeys repos1 := by
    intro p hp
    rcases mem_buildDepsMap _ _ _ _ hp with hin | ⟨dd, hdd, _⟩
    · cases hin
    · exact (K14 p.1).mpr (List.mem_map_of_mem _ hdd)
  obtain ⟨ht15, K15iff, M15, HO15, EC2raw⟩ := repoPass2_master
    (SectionIds d) h14 repos1 _ h15 repos2 hks15 k14S M14 HO14 hp15
  have k15S : ∀ k ∈ omKeys repos2, k ∈ SectionIds d :=
    fun k hk => k14S k ((K15iff k).mp hk)
  obtain ⟨ht16, M16, HO16, K16, C16⟩ := phaseFold_master constraintStep
    d.constraints (SectionIds d) (fun dt => kindIdx dt = 13) h15 h16 constraintsM
    (fun id dd n hmem hs => constraintStep_facts h15 (SectionIds d) id dd n hs)
    HO15 hp16
  have k16S : ∀ k ∈ omKeys constraintsM, k ∈ SectionIds d :=
    fun k hk => sectionIds_constraints d k ((K16 k).mp hk)
  obtain ⟨ht17, M17, HO17, K17, C17⟩ := phaseFold_master pmStep
    d.proxyMetrics (SectionIds d) (fun dt => kindIdx dt = 14) h16 h17 proxyMetricsM
    (fun id dd n hmem hs => pmStep_facts h16 (SectionIds d) id dd n hs)
    HO16 hp17
  have k17S : ∀ k ∈ omKeys proxyMetricsM, k ∈ SectionIds d :=
    fun k hk => sectionIds_proxyMetrics d k ((K17 k).mp hk)
  obtain ⟨ht18, M18, HO18, K18, C18⟩ := phaseFold_master
    (competencyStep repos2) d.competencies (SectionIds d) (fun dt => kindIdx dt = 15) h17 h18 competenciesM
    (fun id dd n hmem hs => competencyStep_facts repos2 h17 (SectionIds d) _
      (MapInv_ext h15 h17 repos2 _ M15 (heapExt_trans (ht16) ht17)) k15S id dd n hs)
    HO17 hp18
  have k18S : ∀ k ∈ omKeys competenciesM, k ∈ SectionIds d :=
    fun k hk => sectionIds_competencies d k ((K18 k).mp hk)
  obtain ⟨ht19, M19, HO19, K19, C19⟩ := phaseFold_master
    (diagnosisStep risks constraintsM) d.diagnoses (SectionIds d) (fun dt => kindIdx dt = 16) h18 h19 diagnosesM
    (fun id dd n hmem hs => diagnosisStep_facts risks constraintsM h18
      (SectionIds d) _ _ (MapInv_ext h7 h18 risks _ M7 (heapExt_trans (heapExt_trans (heapExt_trans (heapExt_trans (heapExt_trans (heapExt_trans (heapExt_trans (heapExt_trans (heapExt_trans (heapExt_trans (ht8) ht9) ht10) ht11) ht12) ht13) ht14) ht15) ht16) ht17) ht18))
      (MapInv_ext h16 h18 constraintsM _ M16 (heapExt_trans (ht17) ht18)) k7S k16S id dd n hs)
    HO18 hp19
  have k19S : ∀ k ∈ omKeys diagnosesM, k ∈ SectionIds d :=
    fun k hk => sectionIds_diagnoses d k ((K19 k).mp hk)
  obtain ⟨ht20, M20, HO20, K20, C20⟩ := phaseFold_master
    (gateStep proxyMetricsM) d.actionGates (SectionIds d) (fun dt => kindIdx dt = 17) h19 h20 gates1
    (fun id dd n hmem hs => gateStep_facts proxyMetricsM h19 (SectionIds d) _
      (MapInv_ext h17 h19 proxyMetricsM _ M17 (heapExt_trans (ht18) ht19)) k17S id dd n hs)
    HO19 hp20
  have k20S : ∀ k ∈ omKeys gates1, k ∈ SectionIds d :=
    fun k hk => sectionIds_actionGates d k ((K20 k).mp hk)
  have hks21 : ∀ p ∈ buildDepsMap
      (fun dd : ActionGateDef => (dd.blockedBy.getD [], dd.unlocks.getD []))
      d.actionGates [], p.1 ∈ omKeys gates1 := by
    intro p hp
    rcases mem_buildDepsMap _ _ _ _ hp with hin | ⟨dd, hdd, _⟩
    · cases hin
    · exact (K20 p.1).mpr (List.mem_map_of_mem _ hdd)
  obtain ⟨ht21, K21iff, M21, HO21, EC3raw⟩ := gatePass2_master
    (SectionIds d) h20 gates1 _ h21 gates2 hks21 k20S M20 HO20 hp21
  have k21S : ∀ k ∈ omKeys gates2, k ∈ SectionIds d :=
    fun k hk => k20S k ((K21iff k).mp hk)
  obtain ⟨ht22, M22, HO22, K22, C22⟩ := phaseFold_master
    (gpStep diagnosesM competenciesM constraintsM) d.guidingPolicies
    (SectionIds d) (fun dt => kindIdx dt = 18) h21 h22 gps
    (fun id dd n hmem hs => gpStep_facts diagnosesM competenciesM constraintsM
      h21 (SectionIds d) _ _ _ (MapInv_ext h19 h21 diagnosesM _ M19 (heapExt_trans (ht20) ht21))
      (MapInv_ext h18 h21 competenciesM _ M18 (heapExt_trans (heapExt_trans (ht19) ht20) ht21))
      (MapInv_ext h16 h21 constraintsM _ M16 (heapExt_trans (heapExt_trans (heapExt_trans (heapExt_trans (ht17) ht18) ht19) ht20) ht21))
      k19S k18S k16S id dd n hs)
    HO21 hp22
  have k22S : ∀ k ∈ omKeys gps, k ∈ SectionIds d :=
    fun k hk => sectionIds_guidingPolicies d k ((K22 k).mp hk)
  have hks23 : ∀ p ∈ d.milestones, p.1 ∈ omKeys milestones2 :=
    fun p hp => (K12iff p.1).mpr ((K11 p.1).mpr (List.mem_map_of_mem _ hp))
  obtain ⟨ht23, K23iff, M23, HO23, GBchecks⟩ := gatedByPass_master
    (SectionIds d) gates2 h22 milestones2 d.milestones h23 milestones3 hks23
    k12S k21S (MapInv_ext h12 h22 milestones2 _ M12 (heapExt_trans (heapExt_trans (heapExt_trans (heapExt_trans (heapExt_trans (heapExt_trans (heapExt_trans (heapExt_trans (heapExt_trans (ht13) ht14) ht15) ht16) ht17) ht18) ht19) ht20) ht21) ht22))
    (MapInv_ext h21 h22 gates2 _ M21 ht22) HO22 hp23
  have k23S : ∀ k ∈ omKeys milestones3, k ∈ SectionIds d :=
    fun k hk => k12S k ((K23iff k).mp hk)
  obtain ⟨ht24, M24, HO24, K24, C24⟩ := phaseFold_master
    (assumptionStep products milestones3 risks) d.assumptions (SectionIds d) (fun dt => kindIdx dt = 19)
    h23 h24 assumptionsM
    (fun id dd n hmem hs => assumptionStep_facts products milestones3 risks h23
      (SectionIds d) _ _ _ (MapInv_ext h9 h23 products _ M9 (heapExt_trans (heapExt_trans (heapExt_trans (heapExt_trans (heapExt_trans (heapExt_trans (heapExt_trans (heapExt_trans (heapExt_trans (heapExt_trans (heapExt_trans (heapExt_trans (heapExt_trans (ht10) ht11) ht12) ht13) ht14) ht15) ht16) ht17) ht18) ht19) ht20) ht21) ht22) ht23))
      M23 (MapInv_ext h7 h23 risks _ M7 (heapExt_trans (heapExt_trans (heapExt_trans (heapExt_trans (heapExt_trans (heapExt_trans (heapExt_trans (heapExt_trans (heapExt_trans (heapExt_trans (heapExt_trans (heapExt_trans (heapExt_trans (heapExt_trans (heapExt_trans (ht8) ht9) ht10) ht11) ht12) ht13) ht14) ht15) ht16) ht17) ht18) ht19) ht20) ht21) ht22) ht23)) k9S k23S k7S id dd n hs)
    HO23 hp24
  have k24S : ∀ k ∈ omKeys assumptionsM, k ∈ SectionIds d :=
    fun k hk => sectionIds_assumptions d k ((K24 k).mp hk)
  obtain ⟨ht25, M25, HO25, K25, C25⟩ := phaseFold_master
    (decisionStep assumptionsM products milestones3) d.decisions (SectionIds d) (fun dt => kindIdx dt = 20)
    h24 h25 decisions1
    (fun id dd n hmem hs => decisionStep_facts assumptionsM products milestones3
      h24 (SectionIds d) _ _ _ M24 (MapInv_ext h9 h24 products _ M9 (heapExt_trans (heapExt_trans (heapExt_trans (heapExt_trans (heapExt_trans (heapExt_trans (heapExt_trans (heapExt_trans (heapExt_trans (heapExt_trans (heapExt_trans (heapExt_trans (heapExt_trans (heapExt_trans (ht10) ht11) ht12) ht13) ht14) ht15) ht16) ht17) ht18) ht19) ht20) ht21) ht22) ht23) ht24))
      (MapInv_ext h23 h24 milestones3 _ M23 ht24) k24S k9S k23S id dd n hs)
    HO24 hp25
  have k25S : ∀ k ∈ omKeys decisions1, k ∈ SectionIds d :=
    fun k hk => sectionIds_decisions d k ((K25 k).mp hk)
  have hks26 : ∀ p ∈ buildDepsMap (fun dd : DecisionDef => dd.supersededBy)
      d.decisions [], p.1 ∈ omKeys decisions1 := by
    intro p hp
    rcases mem_buildDepsMap _ _ _ _ hp with hin | ⟨dd, hdd, _⟩
    · cases hin
    · exact (K25 p.1).mpr (List.mem_map_of_mem _ hdd)
  obtain ⟨ht26, K26iff, M26, HO26, EC4raw⟩ := decisionPass2_master
    (SectionIds d) h25 decisions1 _ h26 decisions2 hks26 k25S M25 HO25 hp26
  have k26S : ∀ k ∈ omKeys decisions2, k ∈ SectionIds d :=
    fun k hk => k25S k ((K26iff k).mp hk)
  have MF_primitives : MapInv h26 primitives (fun dt => kindIdx dt = 0) :=
    MapInv_ext h1 h26 primitives _ M1 (heapExt_trans (heapExt_trans (heapExt_trans (heapExt_trans (heapExt_trans (heapExt_trans (heapExt_trans (heapExt_trans (heapExt_trans (heapExt_trans (heapExt_trans (heapExt_trans (heapExt_trans (heapExt_trans (heapExt_trans (heapExt_trans (heapExt_trans (heapExt_trans (heapExt_trans (heapExt_trans (heapExt_trans (heapExt_trans (heapExt_trans (heapExt_trans (ht2) ht3) ht4) ht5) ht6) ht7) ht8) ht9) ht10) ht11) ht12) ht13) ht14) ht15) ht16) ht17) ht18) ht19) ht20) ht21) ht22) ht23) ht24) ht25) ht26)
  have MF_suppliers : MapInv h26 suppliers (fun dt => kindIdx dt = 1) :=
    MapInv_ext h2 h26 suppliers _ M2 (heapExt_trans (heapExt_trans (heapExt_trans (heapExt_trans (heapExt_trans (heapExt_trans (heapExt_trans (heapExt_trans (heapExt_trans (heapExt_trans (heapExt_trans (heapExt_trans (heapExt_trans (heapExt_trans (heapExt_trans (heapExt_trans (heapExt_trans (heapExt_trans (heapExt_trans (heapExt_trans (heapExt_trans (heapExt_trans (heapExt_trans (ht3) ht4) ht5) ht6) ht7) ht8) ht9) ht10) ht11) ht12) ht13) ht14) ht15) ht16) ht17) ht18) ht19) ht20) ht21) ht22) ht23) ht24) ht25) ht26)
  have MF_supplierPrims : MapInv h26 supplierPrims (fun dt => kindIdx dt = 2) :=
    MapInv_ext h5 h26 supplierPrims _ M5 (heapExt_trans (heapExt_trans (heapExt_trans (heapExt_trans (heapExt_trans (heapExt_trans (heapExt_trans (heapExt_trans (heapExt_trans (heapExt_trans (heapExt_trans (heapExt_trans (heapExt_trans (heapExt_trans (heapExt_trans (heapExt_trans (heapExt_trans (heapExt_trans (heapExt_trans (heapExt_trans (ht6) ht7) ht8) ht9) ht10) ht11) ht12) ht13) ht14) ht15) ht16) ht17) ht18) ht19) ht20) ht21) ht22) ht23) ht24) ht25) ht26)
  have MF_toolingM : MapInv h26 toolingM (fun dt => kindIdx dt = 3) :=
    MapInv_ext h6 h26 toolingM _ M6 (heapExt_trans (heapExt_trans (heapExt_trans (heapExt_trans (heapExt_trans (heapExt_trans (heapExt_trans (heapExt_trans (heapExt_trans (heapExt_trans (heapExt_trans (heapExt_trans (heapExt_trans (heapExt_trans (heapExt_trans (heapExt_trans (heapExt_trans (heapExt_trans (heapExt_trans (ht7) ht8) ht9) ht10) ht11) ht12) ht13) ht14) ht15) ht16) ht17) ht18) ht19) ht20) ht21) ht22) ht23) ht24) ht25) ht26)
  have MF_customers : MapInv h26 customers (fun dt => kindIdx dt = 4) :=
    MapInv_ext h3 h26 customers _ M3 (heapExt_trans (heapExt_trans (heapExt_trans (heapExt_trans (heapExt_trans (heapExt_trans (heapExt_trans (heapExt_trans (heapExt_trans (heapExt_trans (heapExt_trans (heapExt_trans (heapExt_trans (heapExt_trans (heapExt_trans (heapExt_trans (heapExt_trans (heapExt_trans (heapExt_trans (heapExt_trans (heapExt_trans (heapExt_trans (ht4) ht5) ht6) ht7) ht8) ht9) ht10) ht11) ht12) ht13) ht14) ht15) ht16) ht17) ht18) ht19) ht20) ht21) ht22) ht23) ht24) ht25) ht26)
  have MF_competitors : MapInv h26 competitors (fun dt => kindIdx dt = 5) :=
    MapInv_ext h4 h26 competitors _ M4 (heapExt_trans (heapExt_trans (heapExt_trans (heapExt_trans (heapExt_trans (heapExt_trans (heapExt_trans (heapExt_trans (heapExt_trans (heapExt_trans (heapExt_trans (heapExt_trans (heapExt_trans (heapExt_trans (heapExt_trans (heapExt_trans (heapExt_trans (heapExt_trans (heapExt_trans (heapExt_trans (heapExt_trans (ht5) ht6) ht7) ht8) ht9) ht10) ht11) ht12) ht13) ht14) ht15) ht16) ht17) ht18) ht19) ht20) ht21) ht22) ht23) ht24) ht25) ht26)
  have MF_risks : MapInv h26 risks (fun dt => kindIdx dt = 6) :=
    MapInv_ext h7 h26 risks _ M7 (heapExt_trans (heapExt_trans (heapExt_trans (heapExt_trans (heapExt_trans (heapExt_trans (heapExt_trans (heapExt_trans (heapExt_trans (heapExt_trans (heapExt_trans (heapExt_trans (heapExt_trans (heapExt_trans (heapExt_trans (heapExt_trans (heapExt_trans (heapExt_trans (ht8) ht9) ht10) ht11) ht12) ht13) ht14) ht15) ht16) ht17) ht18) ht19) ht20) ht21) ht22) ht23) ht24) ht25) ht26)
  have MF_capabilities : MapInv h26 capabilities (fun dt => kindIdx dt = 7) :=
    MapInv_ext h8 h26 capabilities _ M8 (heapExt_trans (heapExt_trans (heapExt_trans (heapExt_trans (heapExt_trans (heapExt_trans (heapExt_trans (heapExt_trans (heapExt_trans (heapExt_trans (heapExt_trans (heapExt_trans (heapExt_trans (heapExt_trans (heapExt_trans (heapExt_trans (heapExt_trans (ht9) ht10) ht11) ht12) ht13) ht14) ht15) ht16) ht17) ht18) ht19) ht20) ht21) ht22) ht23) ht24) ht25) ht26)
  have MF_products : MapInv h26 products (fun dt => kindIdx dt = 8) :=
    MapInv_ext h9 h26 products _ M9 (heapExt_trans (heapExt_trans (heapExt_trans (heapExt_trans (heapExt_trans (heapExt_trans (heapExt_trans (heapExt_trans (heapExt_trans (heapExt_trans (heapExt_trans (heapExt_trans (heapExt_trans (heapExt_trans (heapExt_trans (heapExt_trans (ht10) ht11) ht12) ht13) ht14) ht15) ht16) ht17) ht18) ht19) ht20) ht21) ht22) ht23) ht24) ht25) ht26)
  have MF_projects : MapInv h26 projects (fun dt => kindIdx dt = 9) :=
    MapInv_ext h10 h26 projects _ M10 (heapExt_trans (heapExt_trans (heapExt_trans (heapExt_trans (heapExt_trans (heapExt_trans (heapExt_trans (heapExt_trans (heapExt_trans (heapExt_trans (heapExt_trans (heapExt_trans (heapExt_trans (heapExt_trans (heapExt_trans (ht11) ht12) ht13) ht14) ht15) ht16) ht17) ht18) ht19) ht20) ht21) ht22) ht23) ht24) ht25) ht26)
  have MF_milestones3 : MapInv h26 milestones3 (fun dt => kindIdx dt = 10) :=
    MapInv_ext h23 h26 milestones3 _ M23 (heapExt_trans (heapExt_trans (ht24) ht25) ht26)
  have MF_repos2 : MapInv h26 repos2 (fun dt => kindIdx dt = 11) :=
    MapInv_ext h15 h26 repos2 _ M15 (heapExt_trans (heapExt_trans (heapExt_trans (heapExt_trans (heapExt_trans (heapExt_trans (heapExt_trans (heapExt_trans (heapExt_trans (heapExt_trans (ht16) ht17) ht18) ht19) ht20) ht21) ht22) ht23) ht24) ht25) ht26)
  have MF_theses : MapInv h26 theses (fun dt => kindIdx dt = 12) :=
    MapInv_ext h13 h26 theses _ M13 (heapExt_trans (heapExt_trans (heapExt_trans (heapExt_trans (heapExt_trans (heapExt_trans (heapExt_trans (heapExt_trans (heapExt_trans (heapExt_trans (heapExt_trans (heapExt_trans (ht14) ht15) ht16) ht17) ht18) ht19) ht20) ht21) ht22) ht23) ht24) ht25) ht26)
  have MF_constraintsM : MapInv h26 constraintsM (fun dt => kindIdx dt = 13) :=
    MapInv_ext h16 h26 constraintsM _ M16 (heapExt_trans (heapExt_trans (heapExt_trans (heapExt_trans (heapExt_trans (heapExt_trans (heapExt_trans (heapExt_trans (heapExt_trans (ht17) ht18) ht19) ht20) ht21) ht22) ht23) ht24) ht25) ht26)
  have MF_proxyMetricsM : MapInv h26 proxyMetricsM (fun dt => kindIdx dt = 14) :=
    MapInv_ext h17 h26 proxyMetricsM _ M17 (heapExt_trans (heapExt_trans (heapExt_trans (heapExt_trans (heapExt_trans (heapExt_trans (heapExt_trans (heapExt_trans (ht18) ht19) ht20) ht21) ht22) ht23) ht24) ht25) ht26)
  have MF_competenciesM : MapInv h26 competenciesM (fun dt => kindIdx dt = 15) :=
    MapInv_ext h18 h26 competenciesM _ M18 (heapExt_trans (heapExt_trans (heapExt_trans (heapExt_trans (heapExt_trans (heapExt_trans (heapExt_trans (ht19) ht20) ht21) ht22) ht23) ht24) ht25) ht26)
  have MF_diagnosesM : MapInv h26 diagnosesM (fun dt => kindIdx dt = 16) :=
    MapInv_ext h19 h26 diagnosesM _ M19 (heapExt_trans (heapExt_trans (heapExt_trans (heapExt_trans (heapExt_trans (heapExt_trans (ht20) ht21) ht22) ht23) ht24) ht25) ht26)
  have MF_gates2 : MapInv h26 gates2 (fun dt => kindIdx dt = 17) :=
    MapInv_ext h21 h26 gates2 _ M21 (heapExt_trans (heapExt_trans (heapExt_trans (heapExt_trans (ht22) ht23) ht24) ht25) ht26)
  have MF_gps : MapInv h26 gps (fun dt => kindIdx dt = 18) :=
    MapInv_ext h22 h26 gps _ M22 (heapExt_trans (heapExt_trans (heapExt_trans (ht23) ht24) ht25) ht26)
  have MF_assumptionsM : MapInv h26 assumptionsM (fun dt => kindIdx dt = 19) :=
    MapInv_ext h24 h26 assumptionsM _ M24 (heapExt_trans (ht25) ht26)
  have MF_decisions2 : MapInv h26 decisions2 (fun dt => kindIdx dt = 20) := M26
  have B_primitives : ∀ a ∈ omValues primitives, a < h26.length ∧ (derefD h26 a).id ∈ SectionIds d :=
    mapBlock_facts h26 primitives _ (SectionIds d) MF_primitives k1S
  have B_suppliers : ∀ a ∈ omValues suppliers, a < h26.length ∧ (derefD h26 a).id ∈ SectionIds d :=
    mapBlock_facts h26 suppliers _ (SectionIds d) MF_suppliers k2S
  have B_supplierPrims : ∀ a ∈ omValues supplierPrims, a < h26.length ∧ (derefD h26 a).id ∈ SectionIds d :=
    mapBlock_facts h26 supplierPrims _ (SectionIds d) MF_supplierPrims k5S
  have B_toolingM : ∀ a ∈ omValues toolingM, a < h26.length ∧ (derefD h26 a).id ∈ SectionIds d :=
    mapBlock_facts h26 toolingM _ (SectionIds d) MF_toolingM k6S
  have B_customers : ∀ a ∈ omValues customers, a < h26.length ∧ (derefD h26 a).id ∈ SectionIds d :=
    mapBlock_facts h26 customers _ (SectionIds d) MF_customers k3S
  have B_competitors : ∀ a ∈ omValues competitors, a < h26.length ∧ (derefD h26 a).id ∈ SectionIds d :=
    mapBlock_facts h26 competitors _ (SectionIds d) MF_competitors k4S
  have B_risks : ∀ a ∈ omValues risks, a < h26.length ∧ (derefD h26 a).id ∈ SectionIds d :=
    mapBlock_facts h26 risks _ (SectionIds d) MF_risks k7S
  have B_capabilities : ∀ a ∈ omValues capabilities, a < h26.length ∧ (derefD h26 a).id ∈ SectionIds d :=
    mapBlock_facts h26 capabilities _ (SectionIds d) MF_capabilities k8S
  have B_products : ∀ a ∈ omValues products, a < h26.length ∧ (derefD h26 a).id ∈ SectionIds d :=
    mapBlock_facts h26 products _ (SectionIds d) MF_products k9S
  have B_projects : ∀ a ∈ omValues projects, a < h26.length ∧ (derefD h26 a).id ∈ SectionIds d :=
    mapBlock_facts h26 projects _ (SectionIds d) MF_projects k10S
  have B_milestones3 : ∀ a ∈ omValues milestones3, a < h26.length ∧ (derefD h26 a).id ∈ SectionIds d :=
    mapBlock_facts h26 milestones3 _ (SectionIds d) MF_milestones3 k23S
  have B_repos2 : ∀ a ∈ omValues repos2, a < h26.length ∧ (derefD h26 a).id ∈ SectionIds d :=
    mapBlock_facts h26 repos2 _ (SectionIds d) MF_repos2 k15S
  have B_theses : ∀ a ∈ omValues theses, a < h26.length ∧ (derefD h26 a).id ∈ SectionIds d :=
    mapBlock_facts h26 theses _ (SectionIds d) MF_theses k13S
  have B_constraintsM : ∀ a ∈ omValues constraintsM, a < h26.length ∧ (derefD h26 a).id ∈ SectionIds d :=
    mapBlock_facts h26 constraintsM _ (SectionIds d) MF_constraintsM k16S
  have B_proxyMetricsM : ∀ a ∈ omValues proxyMetricsM, a < h26.length ∧ (derefD h26 a).id ∈ SectionIds d :=
    mapBlock_facts h26 proxyMetricsM _ (SectionIds d) MF_proxyMetricsM k17S
  have B_competenciesM : ∀ a ∈ omValues competenciesM, a < h26.length ∧ (derefD h26 a).id ∈ SectionIds d :=
    mapBlock_facts h26 competenciesM _ (SectionIds d) MF_competenciesM k18S
  have B_diagnosesM : ∀ a ∈ omValues diagnosesM, a < h26.length ∧ (derefD h26 a).id ∈ SectionIds d :=
    mapBlock_facts h26 diagnosesM _ (SectionIds d) MF_diagnosesM k19S
  have B_gates2 : ∀ a ∈ omValues gates2, a < h26.length ∧ (derefD h26 a).id ∈ SectionIds d :=
    mapBlock_facts h26 gates2 _ (SectionIds d) MF_gates2 k21S
  have B_gps : ∀ a ∈ omValues gps, a < h26.length ∧ (derefD h26 a).id ∈ SectionIds d :=
    mapBlock_facts h26 gps _ (SectionIds d) MF_gps k22S
  have B_assumptionsM : ∀ a ∈ omValues assumptionsM, a < h26.length ∧ (derefD h26 a).id ∈ SectionIds d :=
    mapBlock_facts h26 assumptionsM _ (SectionIds d) MF_assumptionsM k24S
  have B_decisions2 : ∀ a ∈ omValues decisions2, a < h26.length ∧ (derefD h26 a).id ∈ SectionIds d :=
    mapBlock_facts h26 decisions2 _ (SectionIds d) MF_decisions2 k26S
  have F1 : ∀ a ∈ plan, a < h26.length ∧ (derefD h26 a).id ∈ SectionIds d := by
    rw [← hplan]
    intro a ha
    simp only [List.mem_append] at ha
    rcases ha with ((((((((((((((((((((ha | ha) | ha) | ha) | ha) | ha) | ha) | ha) | ha) | ha) | ha) | ha) | ha) | ha) | ha) | ha) | ha) | ha) | ha) | ha) | ha)
    · exact B_primitives a ha
    · exact B_suppliers a ha
    · exact B_supplierPrims a ha
    · exact B_toolingM a ha
    · exact B_customers a ha
    · exact B_competitors a ha
    · exact B_risks a ha
    · exact B_capabilities a ha
    · exact B_products a ha
    · exact B_projects a ha
    · exact B_milestones3 a ha
    · exact B_repos2 a ha
    · exact B_theses a ha
    · exact B_constraintsM a ha
    · exact B_proxyMetricsM a ha
    · exact B_competenciesM a ha
    · exact B_diagnosesM a ha
    · exact B_gates2 a ha
    · exact B_gps a ha
    · exact B_assumptionsM a ha
    · exact B_decisions2 a ha
  have F2 : ∀ a ∈ plan, ∀ r ∈ refsOf (derefD h26 a).data,
      r < h26.length ∧ (derefD h26 r).id ∈ SectionIds d :=
    fun a ha r hr => HO26 (derefD h26 a) (derefD_mem h26 a (F1 a ha).1) r hr
  have F3 : ∀ k ∈ SectionIds d, ∃ b ∈ plan, (derefD h26 b).id = k := by
    rw [← hplan]
    intro k hk
    simp only [SectionIds, List.mem_append] at hk
    rcases hk with ((((((((((((((((((((hk | hk) | hk) | hk) | hk) | hk) | hk) | hk) | hk) | hk) | hk) | hk) | hk) | hk) | hk) | hk) | hk) | hk) | hk) | hk) | hk)
    · obtain ⟨a, ha2, hid⟩ := omKeys_toValue h26 primitives _ MF_primitives k ((K1 k).mpr hk)
      exact ⟨a, List.mem_append_left _ (List.mem_append_left _ (List.mem_append_left _ (List.mem_append_left _ (List.mem_append_left _ (List.mem_append_left _ (List.mem_append_left _ (List.mem_append_left _ (List.mem_append_left _ (List.mem_append_left _ (List.mem_append_left _ (List.mem_append_left _ (List.mem_append_left _ (List.mem_append_left _ (List.mem_append_left _ (List.mem_append_left _ (List.mem_append_left _ (List.mem_append_left _ (List.mem_append_left _ (List.mem_append_left _ (ha2)))))))))))))))))))), hid⟩
    · obtain ⟨a, ha2, hid⟩ := omKeys_toValue h26 suppliers _ MF_suppliers k ((K2 k).mpr hk)
      exact ⟨a, List.mem_append_left _ (List.mem_append_left _ (List.mem_append_left _ (List.mem_append_left _ (List.mem_append_left _ (List.mem_append_left _ (List.mem_append_left _ (List.mem_append_left _ (List.mem_append_left _ (List.mem_append_left _ (List.mem_append_left _ (List.mem_append_left _ (List.mem_append_left _ (List.mem_append_left _ (List.mem_append_left _ (List.mem_append_left _ (List.mem_append_left _ (List.mem_append_left _ (List.mem_append_left _ (List.mem_append_right _ ha2))))))))))))))))))), hid⟩
    · obtain ⟨a, ha2, hid⟩ := omKeys_toValue h26 supplierPrims _ MF_supplierPrims k ((K5 k).mpr hk)
      exact ⟨a, List.mem_append_left _ (List.mem_append_left _ (List.mem_append_left _ (List.mem_append_left _ (List.mem_append_left _ (List.mem_append_left _ (List.mem_append_left _ (List.mem_append_left _ (List.mem_append_left _ (List.mem_append_left _ (List.mem_append_left _ (List.mem_append_left _ (List.mem_append_left _ (List.mem_append_left _ (List.mem_append_left _ (List.mem_append_left _ (List.mem_append_left _ (List.mem_append_left _ (List.mem_append_right _ ha2)))))))))))))))))), hid⟩
    · obtain ⟨a, ha2, hid⟩ := omKeys_toValue h26 toolingM _ MF_toolingM k ((K6 k).mpr hk)
      exact ⟨a, List.mem_append_left _ (List.mem_append_left _ (List.mem_append_left _ (List.mem_append_left _ (List.mem_append_left _ (List.mem_append_left _ (List.mem_append_left _ (List.mem_append_left _ (List.mem_append_left _ (List.mem_append_left _ (List.mem_append_left _ (List.mem_append_left _ (List.mem_append_left _ (List.mem_append_left _ (List.mem_append_left _ (List.mem_append_left _ (List.mem_append_left _ (List.mem_append_right _ ha2))))))))))))))))), hid⟩
    · obtain ⟨a, ha2, hid⟩ := omKeys_toValue h26 customers _ MF_customers k ((K3 k).mpr hk)
      exact ⟨a, List.mem_append_left _ (List.mem_append_left _ (List.mem_append_left _ (List.mem_append_left _ (List.mem_append_left _ (List.mem_append_left _ (List.mem_append_left _ (List.mem_append_left _ (List.mem_append_left _ (List.mem_append_left _ (List.mem_append_left _ (List.mem_append_left _ (List.mem_append_left _ (List.mem_append_left _ (List.mem_append_left _ (List.mem_append_left _ (List.mem_append_right _ ha2)))))))))))))))), hid⟩
    · obtain ⟨a, ha2, hid⟩ := omKeys_toValue h26 competitors _ MF_competitors k ((K4 k).mpr hk)
      exact ⟨a, List.mem_append_left _ (List.mem_append_left _ (List.mem_append_left _ (List.mem_append_left _ (List.mem_append_left _ (List.mem_append_left _ (List.mem_append_left _ (List.mem_append_left _ (List.mem_append_left _ (List.mem_append_left _ (List.mem_append_left _ (List.mem_append_left _ (List.mem_append_left _ (List.mem_append_left _ (List.mem_append_left _ (List.mem_append_right _ ha2))))))))))))))), hid⟩
    · obtain ⟨a, ha2, hid⟩ := omKeys_toValue h26 risks _ MF_risks k ((K7 k).mpr hk)
      exact ⟨a, List.mem_append_left _ (List.mem_append_left _ (List.mem_append_left _ (List.mem_append_left _ (List.mem_append_left _ (List.mem_append_left _ (List.mem_append_left _ (List.mem_append_left _ (List.mem_append_left _ (List.mem_append_left _ (List.mem_append_left _ (List.mem_append_left _ (List.mem_append_left _ (List.mem_append_left _ (List.mem_append_right _ ha2)))))))))))))), hid⟩
    · obtain ⟨a, ha2, hid⟩ := omKeys_toValue h26 capabilities _ MF_capabilities k ((K8 k).mpr hk)
      exact ⟨a, List.mem_append_left _ (List.mem_append_left _ (List.mem_append_left _ (List.mem_append_left _ (List.mem_append_left _ (List.mem_append_left _ (List.mem_append_left _ (List.mem_append_left _ (List.mem_append_left _ (List.mem_append_left _ (List.mem_append_left _ (List.mem_append_left _ (List.mem_append_left _ (List.mem_append_right _ ha2))))))))))))), hid⟩
    · obtain ⟨a, ha2, hid⟩ := omKeys_toValue h26 products _ MF_products k ((K9 k).mpr hk)
      exact ⟨a, List.mem_append_left _ (List.mem_append_left _ (List.mem_append_left _ (List.mem_append_left _ (List.mem_append_left _ (List.mem_append_left _ (List.mem_append_left _ (List.mem_append_left _ (List.mem_append_left _ (List.mem_append_left _ (List.mem_append_left _ (List.mem_append_left _ (List.mem_append_right _ ha2)))))))))))), hid⟩
    · obtain ⟨a, ha2, hid⟩ := omKeys_toValue h26 projects _ MF_projects k ((K10 k).mpr hk)
      exact ⟨a, List.mem_append_left _ (List.mem_append_left _ (List.mem_append_left _ (List.mem_append_left _ (List.mem_append_left _ (List.mem_append_left _ (List.mem_append_left _ (List.mem_append_left _ (List.mem_append_left _ (List.mem_append_left _ (List.mem_append_left _ (List.mem_append_right _ ha2))))))))))), hid⟩
    · obtain ⟨a, ha2, hid⟩ := omKeys_toValue h26 milestones3 _ MF_milestones3 k ((K23iff k).mpr ((K12iff k).mpr ((K11 k).mpr hk)))
      exact ⟨a, List.mem_append_left _ (List.mem_append_left _ (List.mem_append_left _ (List.mem_append_left _ (List.mem_append_left _ (List.mem_append_left _ (List.mem_append_left _ (List.mem_append_left _ (List.mem_append_left _ (List.mem_append_left _ (List.mem_append_right _ ha2)))))))))), hid⟩
    · obtain ⟨a, ha2, hid⟩ := omKeys_toValue h26 repos2 _ MF_repos2 k ((K15iff k).mpr ((K14 k).mpr hk))
      exact ⟨a, List.mem_append_left _ (List.mem_append_left _ (List.mem_append_left _ (List.mem_append_left _ (List.mem_append_left _ (List.mem_append_left _ (List.mem_append_left _ (List.mem_append_left _ (List.mem_append_left _ (List.mem_append_right _ ha2))))))))), hid⟩
    · obtain ⟨a, ha2, hid⟩ := omKeys_toValue h26 theses _ MF_theses k ((K13 k).mpr hk)
      exact ⟨a, List.mem_append_left _ (List.mem_append_left _ (List.mem_append_left _ (List.mem_append_left _ (List.mem_append_left _ (List.mem_append_left _ (List.mem_append_left _ (List.mem_append_left _ (List.mem_append_right _ ha2)))))))), hid⟩
    · obtain ⟨a, ha2, hid⟩ := omKeys_toValue h26 constraintsM _ MF_constraintsM k ((K16 k).mpr hk)
      exact ⟨a, List.mem_append_left _ (List.mem_append_left _ (List.mem_append_left _ (List.mem_append_left _ (List.mem_append_left _ (List.mem_append_left _ (List.mem_append_left _ (List.mem_append_right _ ha2))))))), hid⟩
    · obtain ⟨a, ha2, hid⟩ := omKeys_toValue h26 proxyMetricsM _ MF_proxyMetricsM k ((K17 k).mpr hk)
      exact ⟨a, List.mem_append_left _ (List.mem_append_left _ (List.mem_append_left _ (List.mem_append_left _ (List.mem_append_left _ (List.mem_append_left _ (List.mem_append_right _ ha2)))))), hid⟩
    · obtain ⟨a, ha2, hid⟩ := omKeys_toValue h26 competenciesM _ MF_competenciesM k ((K18 k).mpr hk)
      exact ⟨a, List.mem_append_left _ (List.mem_append_left _ (List.mem_append_left _ (List.mem_append_left _ (List.mem_append_left _ (List.mem_append_right _ ha2))))), hid⟩
    · obtain ⟨a, ha2, hid⟩ := omKeys_toValue h26 diagnosesM _ MF_diagnosesM k ((K19 k).mpr hk)
      exact ⟨a, List.mem_append_left _ (List.mem_append_left _ (List.mem_append_left _ (List.mem_append_left _ (List.mem_append_right _ ha2)))), hid⟩
    · obtain ⟨a, ha2, hid⟩ := omKeys_toValue h26 gps _ MF_gps k ((K22 k).mpr hk)
      exact ⟨a, List.mem_append_left _ (List.mem_append_left _ (List.mem_append_right _ ha2)), hid⟩
    · obtain ⟨a, ha2, hid⟩ := omKeys_toValue h26 gates2 _ MF_gates2 k ((K21iff k).mpr ((K20 k).mpr hk))
      exact ⟨a, List.mem_append_left _ (List.mem_append_left _ (List.mem_append_left _ (List.mem_append_right _ ha2))), hid⟩
    · obtain ⟨a, ha2, hid⟩ := omKeys_toValue h26 assumptionsM _ MF_assumptionsM k ((K24 k).mpr hk)
      exact ⟨a, List.mem_append_left _ (List.mem_append_right _ ha2), hid⟩
    · obtain ⟨a, ha2, hid⟩ := omKeys_toValue h26 decisions2 _ MF_decisions2 k ((K26iff k).mpr ((K25 k).mpr hk))
      exact ⟨a, List.mem_append_right _ ha2, hid⟩
  have W21 := pairwise_le_const 20
    ((omValues decisions2).map (fun a => kindIdx (derefD h26 a).data))
    (mapped_kind_const h26 decisions2 20 MF_decisions2)
  have W20 := pairwise_le_const_append 19
    ((omValues assumptionsM).map (fun a => kindIdx (derefD h26 a).data)) _
    (mapped_kind_const h26 assumptionsM 19 MF_assumptionsM) W21.1
    (fun y hy => le_trans (by decide) (W21.2 y hy))
  have W19 := pairwise_le_const_append 18
    ((omValues gps).map (fun a => kindIdx (derefD h26 a).data)) _
    (mapped_kind_const h26 gps 18 MF_gps) W20.1
    (fun y hy => le_trans (by decide) (W20.2 y hy))
  have W18 := pairwise_le_const_append 17
    ((omValues gates2).map (fun a => kindIdx (derefD h26 a).data)) _
    (mapped_kind_const h26 gates2 17 MF_gates2) W19.1
    (fun y hy => le_trans (by decide) (W19.2 y hy))
  have W17 := pairwise_le_const_append 16
    ((omValues diagnosesM).map (fun a => kindIdx (derefD h26 a).data)) _
    (mapped_kind_const h26 diagnosesM 16 MF_diagnosesM) W18.1
    (fun y hy => le_trans (by decide) (W18.2 y hy))
  have W16 := pairwise_le_const_append 15
    ((omValues competenciesM).map (fun a => kindIdx (derefD h26 a).data)) _
    (mapped_kind_const h26 competenciesM 15 MF_competenciesM) W17.1
    (fun y hy => le_trans (by decide) (W17.2 y hy))
  have W15 := pairwise_le_const_append 14
    ((omValues proxyMetricsM).map (fun a => kindIdx (derefD h26 a).data)) _
    (mapped_kind_const h26 proxyMetricsM 14 MF_proxyMetricsM) W16.1
    (fun y hy => le_trans (by decide) (W16.2 y hy))
  have W14 := pairwise_le_const_append 13
    ((omValues constraintsM).map (fun a => kindIdx (derefD h26 a).data)) _
    (mapped_kind_const h26 constraintsM 13 MF_constraintsM) W15.1
    (fun y hy => le_trans (by decide) (W15.2 y hy))
  have W13 := pairwise_le_const_append 12
    ((omValues theses).map (fun a => kindIdx (derefD h26 a).data)) _
    (mapped_kind_const h26 theses 12 MF_theses) W14.1
    (fun y hy => le_trans (by decide) (W14.2 y hy))
  have W12 := pairwise_le_const_append 11
    ((omValues repos2).map (fun a => kindIdx (derefD h26 a).data)) _
    (mapped_kind_const h26 repos2 11 MF_repos2) W13.1
    (fun y hy => le_trans (by decide) (W13.2 y hy))
  have W11 := pairwise_le_const_append 10
    ((omValues milestones3).map (fun a => kindIdx (derefD h26 a).data)) _
    (mapped_kind_const h26 milestones3 10 MF_milestones3) W12.1
    (fun y hy => le_trans (by decide) (W12.2 y hy))
  have W10 := pairwise_le_const_append 9
    ((omValues projects).map (fun a => kindIdx (derefD h26 a).data)) _
    (mapped_kind_const h26 projects 9 MF_projects) W11.1
    (fun y hy => le_trans (by decide) (W11.2 y hy))
  have W9 := pairwise_le_const_append 8
    ((omValues products).map (fun a => kindIdx (derefD h26 a).data)) _
    (mapped_kind_const h26 products 8 MF_products) W10.1
    (fun y hy => le_trans (by decide) (W10.2 y hy))
  have W8 := pairwise_le_const_append 7
    ((omValues capabilities).map (fun a => kindIdx (derefD h26 a).data)) _
    (mapped_kind_const h26 capabilities 7 MF_capabilities) W9.1
    (fun y hy => le_trans (by decide) (W9.2 y hy))
  have W7 := pairwise_le_const_append 6
    ((omValues risks).map (fun a => kindIdx (derefD h26 a).data)) _
    (mapped_kind_const h26 risks 6 MF_risks) W8.1
    (fun y hy => le_trans (by decide) (W8.2 y hy))
  have W6 := pairwise_le_const_append 5
    ((omValues competitors).map (fun a => kindIdx (derefD h26 a).data)) _
    (mapped_kind_const h26 competitors 5 MF_competitors) W7.1
    (fun y hy => le_trans (by decide) (W7.2 y hy))
  have W5 := pairwise_le_const_append 4
    ((omValues customers).map (fun a => kindIdx (derefD h26 a).data)) _
    (mapped_kind_const h26 customers 4 MF_customers) W6.1
    (fun y hy => le_trans (by decide) (W6.2 y hy))
  have W4 := pairwise_le_const_append 3
    ((omValues toolingM).map (fun a => kindIdx (derefD h26 a).data)) _
    (mapped_kind_const h26 toolingM 3 MF_toolingM) W5.1
    (fun y hy => le_trans (by decide) (W5.2 y hy))
  have W3 := pairwise_le_const_append 2
    ((omValues supplierPrims).map (fun a => kindIdx (derefD h26 a).data)) _
    (mapped_kind_const h26 supplierPrims 2 MF_supplierPrims) W4.1
    (fun y hy => le_trans (by decide) (W4.2 y hy))
  have W2 := pairwise_le_const_append 1
    ((omValues suppliers).map (fun a => kindIdx (derefD h26 a).data)) _
    (mapped_kind_const h26 suppliers 1 MF_suppliers) W3.1
    (fun y hy => le_trans (by decide) (W3.2 y hy))
  have W1 := pairwise_le_const_append 0
    ((omValues primitives).map (fun a => kindIdx (derefD h26 a).data)) _
    (mapped_kind_const h26 primitives 0 MF_primitives) W2.1
    (fun y hy => le_trans (by decide) (W2.2 y hy))
  have F4 : List.Pairwise (fun x y => x ≤ y)
      (plan.map (fun a => kindIdx (derefD h26 a).data)) := by
    rw [← hplan]
    simp only [List.map_append, List.append_assoc]
    exact W1.1
  have WFp : WFpass1 d := by
    refine ⟨?_, ?_, ?_, ?_, ?_, ?_, ?_, ?_, ?_, ?_, ?_, ?_, ?_, ?_, ?_⟩
    · intro p hp
      obtain ⟨n, hn⟩ := C5 p hp
      exact (K2 _).mp (spStep_checks suppliers p.1 p.2 n hn)
    · intro p hp
      obtain ⟨n, hn⟩ := C6 p hp
      obtain ⟨c1, c2⟩ := toolingStep_checks primitives supplierPrims p.1 p.2 n hn
      exact ⟨fun r hr => (K1 r).mp (c1 r hr), fun r hr => (K5 r).mp (c2 r hr)⟩
    · intro p hp
      obtain ⟨n, hn⟩ := C7 p hp
      exact fun r hr => (K1 r).mp (riskStep_checks primitives p.1 p.2 n hn r hr)
    · intro p hp
      obtain ⟨n, hn⟩ := C8 p hp
      obtain ⟨c1, c2, c3, c4, c5⟩ := capabilityStep_checks primitives risks
        suppliers supplierPrims toolingM p.1 p.2 n hn
      exact ⟨fun r hr => (K1 r).mp (c1 r hr), fun r hr => (K5 r).mp (c2 r hr),
        fun r hr => (K6 r).mp (c3 r hr), fun r hr => (K7 r).mp (c4 r hr),
        fun r hr => (K2 r).mp (c5 r hr)⟩
    · intro p hp
      obtain ⟨n, hn⟩ := C9 p hp
      obtain ⟨c1, c2, c3, c4⟩ := productStep_checks capabilities customers
        competitors toolingM p.1 p.2 n hn
      exact ⟨fun r hr => (K8 r).mp (c1 r hr), fun r hr => (K3 r).mp (c2 r hr),
        fun r hr => (K4 r).mp (c3 r hr), fun r hr => (K6 r).mp (c4 r hr)⟩
    · intro p hp
      obtain ⟨n, hn⟩ := C10 p hp
      obtain ⟨c1, c2⟩ := projectStep_checks capabilities toolingM p.1 p.2 n hn
      exact ⟨fun r hr => (K8 r).mp (c1 r hr), fun r hr => (K6 r).mp (c2 r hr)⟩
    · intro p hp
      obtain ⟨n, hn⟩ := C11 p hp
      obtain ⟨c1, c2⟩ := milestoneStep_checks capabilities products p.1 p.2 n hn
      refine ⟨fun r hr => (K8 r).mp (c1 r hr),
        fun r hr => (K9 r).mp (c2 r hr), ?_⟩
      intro r hr
      exact (K20 r).mp ((K21iff r).mp (GBchecks p hp r hr))
    · intro p hp
      obtain ⟨n, hn⟩ := C13 p hp
      exact fun r hr => (K8 r).mp (thesisStep_checks capabilities p.1 p.2 n hn r hr)
    · intro p hp
      obtain ⟨n, hn⟩ := C14 p hp
      obtain ⟨c1, c2⟩ := repoStep_checks products capabilities p.1 p.2 n hn
      exact ⟨fun r hr => (K9 r).mp (c1 r hr), fun r hr => (K8 r).mp (c2 r hr)⟩
    · intro p hp
      obtain ⟨n, hn⟩ := C18 p hp
      exact fun r hr => (K14 r).mp ((K15iff r).mp
        (competencyStep_checks repos2 p.1 p.2 n hn r hr))
    · intro p hp
      obtain ⟨n, hn⟩ := C19 p hp
      obtain ⟨c1, c2⟩ := diagnosisStep_checks risks constraintsM p.1 p.2 n hn
      exact ⟨fun r hr => (K7 r).mp (c1 r hr), fun r hr => (K16 r).mp (c2 r hr)⟩
    · intro p hp
      obtain ⟨n, hn⟩ := C20 p hp
      exact fun r hr => (K17 r).mp
        (gateStep_checks proxyMetricsM p.1 p.2 n hn r hr)
    · intro p hp
      obtain ⟨n, hn⟩ := C22 p hp
      obtain ⟨c1, c2, c3⟩ := gpStep_checks diagnosesM competenciesM constraintsM
        p.1 p.2 n hn
      exact ⟨(K19 _).mp c1, fun r hr => (K18 r).mp (c2 r hr),
        fun r hr => (K16 r).mp (c3 r hr)⟩
    · intro p hp
      obtain ⟨n, hn⟩ := C24 p hp
      obtain ⟨c1, c2, c3⟩ := assumptionStep_checks products milestones3 risks
        p.1 p.2 n hn
      exact ⟨fun r hr => (K9 r).mp (c1 r hr),
        fun r hr => (K11 r).mp ((K12iff r).mp ((K23iff r).mp (c2 r hr))),
        fun r hr => (K7 r).mp (c3 r hr)⟩
    · intro p hp
      obtain ⟨n, hn⟩ := C25 p hp
      obtain ⟨c1, c2, c3⟩ := decisionStep_checks assumptionsM products milestones3
        p.1 p.2 n hn
      exact ⟨fun r hr => (K24 r).mp (c1 r hr),
        fun r hr => (K9 r).mp (c2 r hr),
        fun r hr => (K11 r).mp ((K12iff r).mp ((K23iff r).mp (c3 r hr)))⟩
  have EC : EntryChecks d := by
    refine ⟨?_, ?_, ?_, ?_⟩
    · intro p hp r hr
      exact (K11 r).mp (EC1raw p hp r hr)
    · intro p hp
      obtain ⟨c1, c2⟩ := EC2raw p hp
      exact ⟨fun r hr => (K14 r).mp (c1 r hr), fun htr => (K14 _).mp (c2 htr)⟩
    · intro p hp
      obtain ⟨c1, c2⟩ := EC3raw p hp
      exact ⟨fun r hr => (K20 r).mp (c1 r hr), fun r hr => (K20 r).mp (c2 r hr)⟩
    · intro p hp htr
      exact (K25 _).mp (EC4raw p hp htr)
  exact ⟨F1, F2, F3, F4, WFp, EC⟩

theorem milestonePass2_keys (h : Heap) (m : OMap String Addr)
    (entries : List (String × List String)) (h2 : Heap) (m2 : OMap String Addr)
    (hks : ∀ p ∈ entries, p.1 ∈ omKeys m)
    (hok : milestonePass2 h m entries = Except.ok (h2, m2)) :
    ∀ k, k ∈ omKeys m2 ↔ k ∈ omKeys m := by
  induction entries generalizing h m with
  | nil =>
    cases hok
    exact fun k => Iff.rfl
  | cons p rest ih =>
    cases p with
    | mk id depIds =>
      rw [milestonePass2] at hok
      by_cases hskip : depIds.isEmpty
      · rw [if_pos hskip] at hok
        exact ih h m (fun q hq => hks q (List.mem_cons_of_mem _ hq)) hok
      · rw [if_neg hskip] at hok
        cases hres : resolveRefs m (refErr "Milestone" id "milestone" "") depIds with
        | error e =>
          rw [hres] at hok
          cases hok
        | ok deps =>
          simp only [hres] at hok
          have hidk : id ∈ omKeys m := hks (id, depIds) (List.mem_cons_self _ _)
          have hkeq0 : omKeys (omSet m id h.length) = omKeys m := by
            rw [omKeys_set]
            exact if_pos hidk
          have hrest : ∀ q ∈ rest, q.1 ∈ omKeys (omSet m id h.length) := by
            rw [hkeq0]
            exact fun q hq => hks q (List.mem_cons_of_mem _ hq)
          intro k
          rw [ih _ _ hrest hok k, hkeq0]

theorem repoPass2_keys (h : Heap) (m : OMap String Addr)
    (entries : List (String × (List String × Option String)))
    (h2 : Heap) (m2 : OMap String Addr)
    (hks : ∀ p ∈ entries, p.1 ∈ omKeys m)
    (hok : repoPass2 h m entries = Except.ok (h2, m2)) :
    ∀ k, k ∈ omKeys m2 ↔ k ∈ omKeys m := by
  induction entries generalizing h m with
  | nil =>
    cases hok
    exact fun k => Iff.rfl
  | cons p rest ih =>
    cases p with
    | mk id deps =>
      rw [repoPass2] at hok
      by_cases hskip : (deps.1.isEmpty && !(jsTruthyStr deps.2)) = true
      · rw [if_pos hskip] at hok
        exact ih h m (fun q hq => hks q (List.mem_cons_of_mem _ hq)) hok
      · rw [if_neg hskip] at hok
        cases hres : resolveRefs m (refErr "Repository" id "repository" "")
            deps.1 with
        | error e =>
          rw [hres] at hok
          cases hok
        | ok dependsOnRepos =>
          simp only [hres] at hok
          have hidk : id ∈ omKeys m := hks (id, deps) (List.mem_cons_self _ _)
          have hkeq0 : omKeys (omSet m id h.length) = omKeys m := by
            rw [omKeys_set]
            exact if_pos hidk
          have hrest : ∀ q ∈ rest, q.1 ∈ omKeys (omSet m id h.length) := by
            rw [hkeq0]
            exact fun q hq => hks q (List.mem_cons_of_mem _ hq)
          cases hup : deps.2 with
          | none =>
            simp only [hup] at hok
            intro k
            rw [ih _ _ hrest hok k, hkeq0]
          | some s =>
            by_cases hs : s = ""
            · subst hs
              simp only [hup, if_pos rfl] at hok
              intro k
              rw [ih _ _ hrest hok k, hkeq0]
            · cases hgu : omGet m s with
              | none =>
                simp only [hup, if_neg hs, hgu] at hok
                cases hok
              | some ua =>
                simp only [hup, if_neg hs, hgu] at hok
                intro k
                rw [ih _ _ hrest hok k, hkeq0]

theorem gatePass2_keys (h : Heap) (m : OMap String Addr)
    (entries : List (String × (List String × List String)))
    (h2 : Heap) (m2 : OMap String Addr)
    (hks : ∀ p ∈ entries, p.1 ∈ omKeys m)
    (hok : gatePass2 h m entries = Except.ok (h2, m2)) :
    ∀ k, k ∈ omKeys m2 ↔ k ∈ omKeys m := by
  induction entries generalizing h m with
  | nil =>
    cases hok
    exact fun k => Iff.rfl
  | cons p rest ih =>
    cases p with
    | mk id deps =>
      rw [gatePass2] at hok
      by_cases hskip : (deps.1.isEmpty && deps.2.isEmpty) = true
      · rw [if_pos hskip] at hok
        exact ih h m (fun q hq => hks q (List.mem_cons_of_mem _ hq)) hok
      · rw [if_neg hskip] at hok
        cases hres1 : resolveRefs m (refErr "ActionGate" id "action gate"
            " in blockedBy") deps.1 with
        | error e =>
          rw [hres1] at hok
          cases hok
        | ok bb =>
          rw [hres1] at hok
          cases hres2 : resolveRefs m (refErr "ActionGate" id "action gate"
              " in unlocks") deps.2 with
          | error e =>
            rw [hres2] at hok
            cases hok
          | ok ul =>
            simp only [hres2] at hok
            have hidk : id ∈ omKeys m := hks (id, deps) (List.mem_cons_self _ _)
            have hkeq0 : omKeys (omSet m id h.length) = omKeys m := by
              rw [omKeys_set]
              exact if_pos hidk
            have hrest : ∀ q ∈ rest, q.1 ∈ omKeys (omSet m id h.length) := by
              rw [hkeq0]
              exact fun q hq => hks q (List.mem_cons_of_mem _ hq)
            intro k
            rw [ih _ _ hrest hok k, hkeq0]

theorem gatedByPass_keys (gates : OMap String Addr) (h : Heap)
    (m : OMap String Addr) (defs : List (String × MilestoneDef))
    (h2 : Heap) (m2 : OMap String Addr)
    (hks : ∀ p ∈ defs, p.1 ∈ omKeys m)
    (hok : gatedByPass gates h m defs = Except.ok (h2, m2)) :
    ∀ k, k ∈ omKeys m2 ↔ k ∈ omKeys m := by
  induction defs generalizing h m with
  | nil =>
    cases hok
    exact fun k => Iff.rfl
  | cons p rest ih =>
    cases p with
    | mk id msDef =>
      simp only [gatedByPass] at hok
      by_cases hskip : (msDef.gatedBy.getD []).isEmpty
      · rw [if_pos hskip] at hok
        exact ih h m (fun q hq => hks q (List.mem_cons_of_mem _ hq)) hok
      · rw [if_neg hskip] at hok
        cases hres : resolveRefs gates (refErr "Milestone" id "action gate"
            " in gatedBy") (msDef.gatedBy.getD []) with
        | error e =>
          rw [hres] at hok
          cases hok
        | ok gb =>
          simp only [hres] at hok
          have hidk : id ∈ omKeys m := hks (id, msDef) (List.mem_cons_self _ _)
          have hkeq0 : omKeys (omSet m id h.length) = omKeys m := by
            rw [omKeys_set]
            exact if_pos hidk
          have hrest : ∀ q ∈ rest, q.1 ∈ omKeys (omSet m id h.length) := by
            rw [hkeq0]
            exact fun q hq => hks q (List.mem_cons_of_mem _ hq)
          intro k
          rw [ih _ _ hrest hok k, hkeq0]

theorem decisionPass2_keys (h : Heap) (m : OMap String Addr)
    (entries : List (String × Option String)) (h2 : Heap)
    (m2 : OMap String Addr)
    (hks : ∀ p ∈ entries, p.1 ∈ omKeys m)
    (hok : decisionPass2 h m entries = Except.ok (h2, m2)) :
    ∀ k, k ∈ omKeys m2 ↔ k ∈ omKeys m := by
  induction entries generalizing h m with
  | nil =>
    cases hok
    exact fun k => Iff.rfl
  | cons p rest ih =>
    cases p with
    | mk id sup =>
      cases sup with
      | none =>
        rw [decisionPass2] at hok
        exact ih h m (fun q hq => hks q (List.mem_cons_of_mem _ hq)) hok
      | some s =>
        rw [decisionPass2] at hok
        by_cases hs : s = ""
        · rw [if_pos hs] at hok
          exact ih h m (fun q hq => hks q (List.mem_cons_of_mem _ hq)) hok
        · rw [if_neg hs] at hok
          cases hgu : omGet m s with
          | none =>
            rw [hgu] at hok
            cases hok
          | some ua =>
            simp only [hgu] at hok
            have hidk : id ∈ omKeys m := hks (id, some s) (List.mem_cons_self _ _)
            have hkeq0 : omKeys (omSet m id h.length) = omKeys m := by
              rw [omKeys_set]
              exact if_pos hidk
            have hrest : ∀ q ∈ rest, q.1 ∈ omKeys (omSet m id h.length) := by
              rw [hkeq0]
              exact fun q hq => hks q (List.mem_cons_of_mem _ hq)
            intro k
            rw [ih _ _ hrest hok k, hkeq0]

set_option maxHeartbeats 3000000 in
/-- Every error thrown by `defineGraph` is a genuine dangling reference
of the definition. -/
theorem defineGraph_error_master (d : GraphDef) (e : BuildError)
    (he : defineGraph d = Except.error e) : DanglingError d e := by
  simp only [defineGraph, exceptBind_error, exceptBind_ok] at he
  rcases he with herr | ⟨⟨h1, primitives⟩, hp1, he⟩
  · obtain ⟨p, hp, hpe⟩ := phaseFold_error _ _ _ _ herr
    rw [primitiveStep] at hpe
    cases hpe
  have K1 : ∀ k, k ∈ omKeys primitives ↔ k ∈ d.primitives.map (fun q => q.1) :=
    fun k => (phaseFold_keys _ _ _ _ _ _ hp1 k).trans (by simp [omKeys])
  rcases he with herr | ⟨⟨h2, suppliers⟩, hp2, he⟩
  · obtain ⟨p, hp, hpe⟩ := phaseFold_error _ _ _ _ herr
    rw [supplierStep] at hpe
    cases hpe
  have K2 : ∀ k, k ∈ omKeys suppliers ↔ k ∈ d.suppliers.map (fun q => q.1) :=
    fun k => (phaseFold_keys _ _ _ _ _ _ hp2 k).trans (by simp [omKeys])
  rcases he with herr | ⟨⟨h3, customers⟩, hp3, he⟩
  · obtain ⟨p, hp, hpe⟩ := phaseFold_error _ _ _ _ herr
    rw [customerStep] at hpe
    cases hpe
  have K3 : ∀ k, k ∈ omKeys customers ↔ k ∈ d.customers.map (fun q => q.1) :=
    fun k => (phaseFold_keys _ _ _ _ _ _ hp3 k).trans (by simp [omKeys])
  rcases he with herr | ⟨⟨h4, competitors⟩, hp4, he⟩
  · obtain ⟨p, hp, hpe⟩ := phaseFold_error _ _ _ _ herr
    obtain ⟨pid, pe⟩ := p
    cases pe with
    | leaf t =>
      rw [competitorStep] at hpe
      cases hpe
    | full t tl =>
      rw [competitorStep] at hpe
      cases hpe
  have K4 : ∀ k, k ∈ omKeys competitors ↔ k ∈ d.competitors.map (fun q => q.1) :=
    fun k => (phaseFold_keys _ _ _ _ _ _ hp4 k).trans (by simp [omKeys])
  rcases he with herr | ⟨⟨h5, supplierPrims⟩, hp5, he⟩
  · obtain ⟨p, hp, hpe⟩ := phaseFold_error _ _ _ _ herr
    obtain ⟨hsh, hnk⟩ := spStep_error suppliers p.1 p.2 e hpe
    exact Or.inl (⟨p, hp, hsh, fun hc => hnk ((K2 _).mpr hc)⟩)
  have K5 : ∀ k, k ∈ omKeys supplierPrims ↔ k ∈ d.supplierPrimitives.map (fun q => q.1) :=
    fun k => (phaseFold_keys _ _ _ _ _ _ hp5 k).trans (by simp [omKeys])
  rcases he with herr | ⟨⟨h6, toolingM⟩, hp6, he⟩
  · obtain ⟨p, hp, hpe⟩ := phaseFold_error _ _ _ _ herr
    rcases toolingStep_error primitives supplierPrims p.1 p.2 e hpe with
      ⟨r, hr, hsh, hnk⟩ | ⟨r, hr, hsh, hnk⟩
    · exact Or.inr (Or.inl (⟨p, hp, Or.inl ⟨r, hr, hsh, fun hc => hnk ((K1 _).mpr hc)⟩⟩))
    · exact Or.inr (Or.inl (⟨p, hp, Or.inr ⟨r, hr, hsh, fun hc => hnk ((K5 _).mpr hc)⟩⟩))
  have K6 : ∀ k, k ∈ omKeys toolingM ↔ k ∈ d.tooling.map (fun q => q.1) :=
    fun k => (phaseFold_keys _ _ _ _ _ _ hp6 k).trans (by simp [omKeys])
  rcases he with herr | ⟨⟨h7, risks⟩, hp7, he⟩
  · obtain ⟨p, hp, hpe⟩ := phaseFold_error _ _ _ _ herr
    obtain ⟨r, hr, hsh, hnk⟩ := riskStep_error primitives p.1 p.2 e hpe
    exact Or.inr (Or.inr (Or.inl (⟨p, hp, r, hr, hsh, fun hc => hnk ((K1 _).mpr hc)⟩)))
  have K7 : ∀ k, k ∈ omKeys risks ↔ k ∈ d.risks.map (fun q => q.1) :=
    fun k => (phaseFold_keys _ _ _ _ _ _ hp7 k).trans (by simp [omKeys])
  rcases he with herr | ⟨⟨h8, capabilities⟩, hp8, he⟩
  · obtain ⟨p, hp, hpe⟩ := phaseFold_error _ _ _ _ herr
    rcases capabilityStep_error primitives risks suppliers supplierPrims
      toolingM p.1 p.2 e hpe with
      ⟨r, hr, hsh, hnk⟩ | ⟨r, hr, hsh, hnk⟩ | ⟨r, hr, hsh, hnk⟩ |
      ⟨r, hr, hsh, hnk⟩ | ⟨r, hr, hsh, hnk⟩
    · exact Or.inr (Or.inr (Or.inr (Or.inl (⟨p, hp, Or.inl ⟨r, hr, hsh, fun hc => hnk ((K1 _).mpr hc)⟩⟩))))
    · exact Or.inr (Or.inr (Or.inr (Or.inl (⟨p, hp, Or.inr (Or.inl ⟨r, hr, hsh, fun hc => hnk ((K5 _).mpr hc)⟩)⟩))))
    · exact Or.inr (Or.inr (Or.inr (Or.inl (⟨p, hp, Or.inr (Or.inr (Or.inl ⟨r, hr, hsh, fun hc => hnk ((K6 _).mpr hc)⟩))⟩))))
    · exact Or.inr (Or.inr (Or.inr (Or.inl (⟨p, hp, Or.inr (Or.inr (Or.inr (Or.inl ⟨r, hr, hsh, fun hc => hnk ((K7 _).mpr hc)⟩)))⟩))))
    · exact Or.inr (Or.inr (Or.inr (Or.inl (⟨p, hp, Or.inr (Or.inr (Or.inr (Or.inr ⟨r, hr, hsh, fun hc => hnk ((K2 _).mpr hc)⟩)))⟩))))
  have K8 : ∀ k, k ∈ omKeys capabilities ↔ k ∈ d.capabilities.map (fun q => q.1) :=
    fun k => (phaseFold_keys _ _ _ _ _ _ hp8 k).trans (by simp [omKeys])
  rcases he with herr | ⟨⟨h9, products⟩, hp9, he⟩
  · obtain ⟨p, hp, hpe⟩ := phaseFold_error _ _ _ _ herr
    rcases productStep_error capabilities customers competitors toolingM
      p.1 p.2 e hpe with
      ⟨r, hr, hsh, hnk⟩ | ⟨r, hr, hsh, hnk⟩ | ⟨r, hr, hsh, hnk⟩ | ⟨r, hr, hsh, hnk⟩
    · exact Or.inr (Or.inr (Or.inr (Or.inr (Or.inl (⟨p, hp, Or.inl ⟨r, hr, hsh, fun hc => hnk ((K8 _).mpr hc)⟩⟩)))))
    · exact Or.inr (Or.inr (Or.inr (Or.inr (Or.inl (⟨p, hp, Or.inr (Or.inl ⟨r, hr, hsh, fun hc => hnk ((K3 _).mpr hc)⟩)⟩)))))
    · exact Or.inr (Or.inr (Or.inr (Or.inr (Or.inl (⟨p, hp, Or.inr (Or.inr (Or.inl ⟨r, hr, hsh, fun hc => hnk ((K4 _).mpr hc)⟩))⟩)))))
    · exact Or.inr (Or.inr (Or.inr (Or.inr (Or.inl (⟨p, hp, Or.inr (Or.inr (Or.inr ⟨r, hr, hsh, fun hc => hnk ((K6 _).mpr hc)⟩))⟩)))))
  have K9 : ∀ k, k ∈ omKeys products ↔ k ∈ d.products.map (fun q => q.1) :=
    fun k => (phaseFold_keys _ _ _ _ _ _ hp9 k).trans (by simp [omKeys])
  rcases he with herr | ⟨⟨h10, projects⟩, hp10, he⟩
  · obtain ⟨p, hp, hpe⟩ := phaseFold_error _ _ _ _ herr
    rcases projectStep_error capabilities toolingM p.1 p.2 e hpe with
      ⟨r, hr, hsh, hnk⟩ | ⟨r, hr, hsh, hnk⟩
    · exact Or.inr (Or.inr (Or.inr (Or.inr (Or.inr (Or.inl (⟨p, hp, Or.inl ⟨r, hr, hsh, fun hc => hnk ((K8 _).mpr hc)⟩⟩))))))
    · exact Or.inr (Or.inr (Or.inr (Or.inr (Or.inr (Or.inl (⟨p, hp, Or.inr ⟨r, hr, hsh, fun hc => hnk ((K6 _).mpr hc)⟩⟩))))))
  rcases he with herr | ⟨⟨h11, milestones1⟩, hp11, he⟩
  · obtain ⟨p, hp, hpe⟩ := phaseFold_error _ _ _ _ herr
    rcases milestoneStep_error capabilities products p.1 p.2 e hpe with
      ⟨r, hr, hsh, hnk⟩ | ⟨r, hr, hsh, hnk⟩
    · exact Or.inr (Or.inr (Or.inr (Or.inr (Or.inr (Or.inr (Or.inl (⟨p, hp, Or.inl ⟨r, hr, hsh, fun hc => hnk ((K8 _).mpr hc)⟩⟩)))))))
    · exact Or.inr (Or.inr (Or.inr (Or.inr (Or.inr (Or.inr (Or.inl (⟨p, hp, Or.inr ⟨r, hr, hsh, fun hc => hnk ((K9 _).mpr hc)⟩⟩)))))))
  have K11 : ∀ k, k ∈ omKeys milestones1 ↔ k ∈ d.milestones.map (fun q => q.1) :=
    fun k => (phaseFold_keys _ _ _ _ _ _ hp11 k).trans (by simp [omKeys])
  have hks12 : ∀ p ∈ buildDepsMap
      (fun dd : MilestoneDef => dd.dependsOnMilestones.getD []) d.milestones [],
      p.1 ∈ omKeys milestones1 := by
    intro p hp
    rcases mem_buildDepsMap _ _ _ _ hp with hin | ⟨dd, hdd, _⟩
    · cases hin
    · exact (K11 p.1).mpr (List.mem_map_of_mem _ hdd)
  rcases he with herr | ⟨⟨h12, milestones2⟩, hp12, he⟩
  · obtain ⟨p, hp, r, hr, hsh, hnk⟩ := milestonePass2_error _ _ _ _ hks12 herr
    rcases mem_buildDepsMap _ _ _ _ hp with hin | ⟨dd, hdd, hv⟩
    · cases hin
    · rw [hv] at hr
      exact Or.inr (Or.inr (Or.inr (Or.inr (Or.inr (Or.inr (Or.inr (Or.inl (⟨(p.1, dd), hdd, r, hr, hsh, fun hc => hnk ((K11 _).mpr hc)⟩))))))))
  have K12iff := milestonePass2_keys _ _ _ _ _ hks12 hp12
  rcases he with herr | ⟨⟨h13, theses⟩, hp13, he⟩
  · obtain ⟨p, hp, hpe⟩ := phaseFold_error _ _ _ _ herr
    obtain ⟨r, hr, hsh, hnk⟩ := thesisStep_error capabilities p.1 p.2 e hpe
    exact Or.inr (Or.inr (Or.inr (Or.inr (Or.inr (Or.inr (Or.inr (Or.inr (Or.inl (⟨p, hp, r, hr, hsh, fun hc => hnk ((K8 _).mpr hc)⟩)))))))))
  rcases he with herr | ⟨⟨h14, repos1⟩, hp14, he⟩
  · obtain ⟨p, hp, hpe⟩ := phaseFold_error _ _ _ _ herr
    rcases repoStep_error products capabilities p.1 p.2 e hpe with
      ⟨r, hr, hsh, hnk⟩ | ⟨r, hr, hsh, hnk⟩
    · exact Or.inr (Or.inr (Or.inr (Or.inr (Or.inr (Or.inr (Or.inr (Or.inr (Or.inr (Or.inl (⟨p, hp, Or.inl ⟨r, hr, hsh, fun hc => hnk ((K9 _).mpr hc)⟩⟩))))))))))
    · exact Or.inr (Or.inr (Or.inr (Or.inr (Or.inr (Or.inr (Or.inr (Or.inr (Or.inr (Or.inl (⟨p, hp, Or.inr ⟨r, hr, hsh, fun hc => hnk ((K8 _).mpr hc)⟩⟩))))))))))
  have K14 : ∀ k, k ∈ omKeys repos1 ↔ k ∈ d.repositories.map (fun q => q.1) :=
    fun k => (phaseFold_keys _ _ _ _ _ _ hp14 k).trans (by simp [omKeys])
  have hks15 : ∀ p ∈ buildDepsMap
      (fun dd : RepositoryDef => (dd.dependsOn.getD [], dd.upstream))
      d.repositories [], p.1 ∈ omKeys repos1 := by
    intro p hp
    rcases mem_buildDepsMap _ _ _ _ hp with hin | ⟨dd, hdd, _⟩
    · cases hin
    · exact (K14 p.1).mpr (List.mem_map_of_mem _ hdd)
  rcases he with herr | ⟨⟨h15, repos2⟩, hp15, he⟩
  · obtain ⟨p, hp, hdisj⟩ := repoPass2_error _ _ _ _ hks15 herr
    rcases mem_buildDepsMap _ _ _ _ hp with hin | ⟨dd, hdd, hv⟩
    · cases hin
    · rcases hdisj with ⟨r, hr, hsh, hnk⟩ | ⟨htr, hsh, hnk⟩
      · rw [hv] at hr
        exact Or.inr (Or.inr (Or.inr (Or.inr (Or.inr (Or.inr (Or.inr (Or.inr (Or.inr (Or.inr (Or.inl (⟨(p.1, dd), hdd, Or.inl ⟨r, hr, hsh, fun hc => hnk ((K14 _).mpr hc)⟩⟩)))))))))))
      · rw [hv] at htr hsh hnk
        exact Or.inr (Or.inr (Or.inr (Or.inr (Or.inr (Or.inr (Or.inr (Or.inr (Or.inr (Or.inr (Or.inl (⟨(p.1, dd), hdd, Or.inr ⟨htr, hsh, fun hc => hnk ((K14 _).mpr hc)⟩⟩)))))))))))
  have K15iff := repoPass2_keys _ _ _ _ _ hks15 hp15
  rcases he with herr | ⟨⟨h16, constraintsM⟩, hp16, he⟩
  · obtain ⟨p, hp, hpe⟩ := phaseFold_error _ _ _ _ herr
    rw [constraintStep] at hpe
    cases hpe
  have K16 : ∀ k, k ∈ omKeys constraintsM ↔ k ∈ d.constraints.map (fun q => q.1) :=
    fun k => (phaseFold_keys _ _ _ _ _ _ hp16 k).trans (by simp [omKeys])
  rcases he with herr | ⟨⟨h17, proxyMetricsM⟩, hp17, he⟩
  · obtain ⟨p, hp, hpe⟩ := phaseFold_error _ _ _ _ herr
    rw [pmStep] at hpe
    cases hpe
  have K17 : ∀ k, k ∈ omKeys proxyMetricsM ↔ k ∈ d.proxyMetrics.map (fun q => q.1) :=
    fun k => (phaseFold_keys _ _ _ _ _ _ hp17 k).trans (by simp [omKeys])
  rcases he with herr | ⟨⟨h18, competenciesM⟩, hp18, he⟩
  · obtain ⟨p, hp, hpe⟩ := phaseFold_error _ _ _ _ herr
    obtain ⟨r, hr, hsh, hnk⟩ := competencyStep_error repos2 p.1 p.2 e hpe
    exact Or.inr (Or.inr (Or.inr (Or.inr (Or.inr (Or.inr (Or.inr (Or.inr (Or.inr (Or.inr (Or.inr (Or.inl (⟨p, hp, r, hr, hsh, fun hc => hnk ((K15iff _).mpr ((K14 _).mpr hc))⟩))))))))))))
  have K18 : ∀ k, k ∈ omKeys competenciesM ↔ k ∈ d.competencies.map (fun q => q.1) :=
    fun k => (phaseFold_keys _ _ _ _ _ _ hp18 k).trans (by simp [omKeys])
  rcases he with herr | ⟨⟨h19, diagnosesM⟩, hp19, he⟩
  · obtain ⟨p, hp, hpe⟩ := phaseFold_error _ _ _ _ herr
    rcases diagnosisStep_error risks constraintsM p.1 p.2 e hpe with
      ⟨r, hr, hsh, hnk⟩ | ⟨r, hr, hsh, hnk⟩
    · exact Or.inr (Or.inr (Or.inr (Or.inr (Or.inr (Or.inr (Or.inr (Or.inr (Or.inr (Or.inr (Or.inr (Or.inr (Or.inl (⟨p, hp, Or.inl ⟨r, hr, hsh, fun hc => hnk ((K7 _).mpr hc)⟩⟩)))))))))))))
    · exact Or.inr (Or.inr (Or.inr (Or.inr (Or.inr (Or.inr (Or.inr (Or.inr (Or.inr (Or.inr (Or.inr (Or.inr (Or.inl (⟨p, hp, Or.inr ⟨r, hr, hsh, fun hc => hnk ((K16 _).mpr hc)⟩⟩)))))))))))))
  have K19 : ∀ k, k ∈ omKeys diagnosesM ↔ k ∈ d.diagnoses.map (fun q => q.1) :=
    fun k => (phaseFold_keys _ _ _ _ _ _ hp19 k).trans (by simp [omKeys])
  rcases he with herr | ⟨⟨h20, gates1⟩, hp20, he⟩
  · obtain ⟨p, hp, hpe⟩ := phaseFold_error _ _ _ _ herr
    obtain ⟨r, hr, hsh, hnk⟩ := gateStep_error proxyMetricsM p.1 p.2 e hpe
    exact Or.inr (Or.inr (Or.inr (Or.inr (Or.inr (Or.inr (Or.inr (Or.inr (Or.inr (Or.inr (Or.inr (Or.inr (Or.inr (Or.inl (⟨p, hp, r, hr, hsh, fun hc => hnk ((K17 _).mpr hc)⟩))))))))))))))
  have K20 : ∀ k, k ∈ omKeys gates1 ↔ k ∈ d.actionGates.map (fun q => q.1) :=
    fun k => (phaseFold_keys _ _ _ _ _ _ hp20 k).trans (by simp [omKeys])
  have hks21 : ∀ p ∈ buildDepsMap
      (fun dd : ActionGateDef => (dd.blockedBy.getD [], dd.unlocks.getD []))
      d.actionGates [], p.1 ∈ omKeys gates1 := by
    intro p hp
    rcases mem_buildDepsMap _ _ _ _ hp with hin | ⟨dd, hdd, _⟩
    · cases hin
    · exact (K20 p.1).mpr (List.mem_map_of_mem _ hdd)
  rcases he with herr | ⟨⟨h21, gates2⟩, hp21, he⟩
  · obtain ⟨p, hp, hdisj⟩ := gatePass2_error _ _ _ _ hks21 herr
    rcases mem_buildDepsMap _ _ _ _ hp with hin | ⟨dd, hdd, hv⟩
    · cases hin
    · rcases hdisj with ⟨r, hr, hsh, hnk⟩ | ⟨r, hr, hsh, hnk⟩
      · rw [hv] at hr
        exact Or.inr (Or.inr (Or.inr (Or.inr (Or.inr (Or.inr (Or.inr (Or.inr (Or.inr (Or.inr (Or.inr (Or.inr (Or.inr (Or.inr (Or.inl (⟨(p.1, dd), hdd, Or.inl ⟨r, hr, hsh, fun hc => hnk ((K20 _).mpr hc)⟩⟩)))))))))))))))
      · rw [hv] at hr
        exact Or.inr (Or.inr (Or.inr (Or.inr (Or.inr (Or.inr (Or.inr (Or.inr (Or.inr (Or.inr (Or.inr (Or.inr (Or.inr (Or.inr (Or.inl (⟨(p.1, dd), hdd, Or.inr ⟨r, hr, hsh, fun hc => hnk ((K20 _).mpr hc)⟩⟩)))))))))))))))
  have K21iff := gatePass2_keys _ _ _ _ _ hks21 hp21
  rcases he with herr | ⟨⟨h22, gps⟩, hp22, he⟩
  · obtain ⟨p, hp, hpe⟩ := phaseFold_error _ _ _ _ herr
    rcases gpStep_error diagnosesM competenciesM constraintsM p.1 p.2 e hpe with
      ⟨hsh, hnk⟩ | ⟨r, hr, hsh, hnk⟩ | ⟨r, hr, hsh, hnk⟩
    · exact Or.inr (Or.inr (Or.inr (Or.inr (Or.inr (Or.inr (Or.inr (Or.inr (Or.inr (Or.inr (Or.inr (Or.inr (Or.inr (Or.inr (Or.inr (Or.inl (⟨p, hp, Or.inl ⟨hsh, fun hc => hnk ((K19 _).mpr hc)⟩⟩))))))))))))))))
    · exact Or.inr (Or.inr (Or.inr (Or.inr (Or.inr (Or.inr (Or.inr (Or.inr (Or.inr (Or.inr (Or.inr (Or.inr (Or.inr (Or.inr (Or.inr (Or.inl (⟨p, hp, Or.inr (Or.inl ⟨r, hr, hsh, fun hc => hnk ((K18 _).mpr hc)⟩)⟩))))))))))))))))
    · exact Or.inr (Or.inr (Or.inr (Or.inr (Or.inr (Or.inr (Or.inr (Or.inr (Or.inr (Or.inr (Or.inr (Or.inr (Or.inr (Or.inr (Or.inr (Or.inl (⟨p, hp, Or.inr (Or.inr ⟨r, hr, hsh, fun hc => hnk ((K16 _).mpr hc)⟩)⟩))))))))))))))))
  have K22 : ∀ k, k ∈ omKeys gps ↔ k ∈ d.guidingPolicies.map (fun q => q.1) :=
    fun k => (phaseFold_keys _ _ _ _ _ _ hp22 k).trans (by simp [omKeys])
  rcases he with herr | ⟨⟨h23, milestones3⟩, hp23, he⟩
  · obtain ⟨p, hp, r, hr, hsh, hnk⟩ := gatedByPass_error _ _ _ _ _ herr
    exact Or.inr (Or.inr (Or.inr (Or.inr (Or.inr (Or.inr (Or.inr (Or.inr (Or.inr (Or.inr (Or.inr (Or.inr (Or.inr (Or.inr (Or.inr (Or.inr (Or.inl (⟨p, hp, r, hr, hsh, fun hc => hnk ((K21iff _).mpr ((K20 _).mpr hc))⟩)))))))))))))))))
  have hks23 : ∀ p ∈ d.milestones, p.1 ∈ omKeys milestones2 :=
    fun p hp => (K12iff p.1).mpr ((K11 p.1).mpr (List.mem_map_of_mem _ hp))
  have K23iff := gatedByPass_keys _ _ _ _ _ _ hks23 hp23
  rcases he with herr | ⟨⟨h24, assumptionsM⟩, hp24, he⟩
  · obtain ⟨p, hp, hpe⟩ := phaseFold_error _ _ _ _ herr
    rcases assumptionStep_error products milestones3 risks p.1 p.2 e hpe with
      ⟨r, hr, hsh, hnk⟩ | ⟨r, hr, hsh, hnk⟩ | ⟨r, hr, hsh, hnk⟩
    · exact Or.inr (Or.inr (Or.inr (Or.inr (Or.inr (Or.inr (Or.inr (Or.inr (Or.inr (Or.inr (Or.inr (Or.inr (Or.inr (Or.inr (Or.inr (Or.inr (Or.inr (Or.inl (⟨p, hp, Or.inl ⟨r, hr, hsh, fun hc => hnk ((K9 _).mpr hc)⟩⟩))))))))))))))))))
    · exact Or.inr (Or.inr (Or.inr (Or.inr (Or.inr (Or.inr (Or.inr (Or.inr (Or.inr (Or.inr (Or.inr (Or.inr (Or.inr (Or.inr (Or.inr (Or.inr (Or.inr (Or.inl (⟨p, hp, Or.inr (Or.inl ⟨r, hr, hsh, fun hc => hnk ((K23iff _).mpr ((K12iff _).mpr ((K11 _).mpr hc)))⟩)⟩))))))))))))))))))
    · exact Or.inr (Or.inr (Or.inr (Or.inr (Or.inr (Or.inr (Or.inr (Or.inr (Or.inr (Or.inr (Or.inr (Or.inr (Or.inr (Or.inr (Or.inr (Or.inr (Or.inr (Or.inl (⟨p, hp, Or.inr (Or.inr ⟨r, hr, hsh, fun hc => hnk ((K7 _).mpr hc)⟩)⟩))))))))))))))))))
  have K24 : ∀ k, k ∈ omKeys assumptionsM ↔ k ∈ d.assumptions.map (fun q => q.1) :=
    fun k => (phaseFold_keys _ _ _ _ _ _ hp24 k).trans (by simp [omKeys])
  rcases he with herr | ⟨⟨h25, decisions1⟩, hp25, he⟩
  · obtain ⟨p, hp, hpe⟩ := phaseFold_error _ _ _ _ herr
    rcases decisionStep_error assumptionsM products milestones3 p.1 p.2 e hpe with
      ⟨r, hr, hsh, hnk⟩ | ⟨r, hr, hsh, hnk⟩ | ⟨r, hr, hsh, hnk⟩
    · exact Or.inr (Or.inr (Or.inr (Or.inr (Or.inr (Or.inr (Or.inr (Or.inr (Or.inr (Or.inr (Or.inr (Or.inr (Or.inr (Or.inr (Or.inr (Or.inr (Or.inr (Or.inr (Or.inl (⟨p, hp, Or.inl ⟨r, hr, hsh, fun hc => hnk ((K24 _).mpr hc)⟩⟩)))))))))))))))))))
    · exact Or.inr (Or.inr (Or.inr (Or.inr (Or.inr (Or.inr (Or.inr (Or.inr (Or.inr (Or.inr (Or.inr (Or.inr (Or.inr (Or.inr (Or.inr (Or.inr (Or.inr (Or.inr (Or.inl (⟨p, hp, Or.inr (Or.inl ⟨r, hr, hsh, fun hc => hnk ((K9 _).mpr hc)⟩)⟩)))))))))))))))))))
    · exact Or.inr (Or.inr (Or.inr (Or.inr (Or.inr (Or.inr (Or.inr (Or.inr (Or.inr (Or.inr (Or.inr (Or.inr (Or.inr (Or.inr (Or.inr (Or.inr (Or.inr (Or.inr (Or.inl (⟨p, hp, Or.inr (Or.inr ⟨r, hr, hsh, fun hc => hnk ((K23iff _).mpr ((K12iff _).mpr ((K11 _).mpr hc)))⟩)⟩)))))))))))))))))))
  have K25 : ∀ k, k ∈ omKeys decisions1 ↔ k ∈ d.decisions.map (fun q => q.1) :=
    fun k => (phaseFold_keys _ _ _ _ _ _ hp25 k).trans (by simp [omKeys])
  have hks26 : ∀ p ∈ buildDepsMap (fun dd : DecisionDef => dd.supersededBy)
      d.decisions [], p.1 ∈ omKeys decisions1 := by
    intro p hp
    rcases mem_buildDepsMap _ _ _ _ hp with hin | ⟨dd, hdd, _⟩
    · cases hin
    · exact (K25 p.1).mpr (List.mem_map_of_mem _ hdd)
  rcases he with herr | ⟨⟨h26, decisions2⟩, hp26, habs⟩
  · obtain ⟨p, hp, htr, hsh, hnk⟩ := decisionPass2_error _ _ _ _ hks26 herr
    rcases mem_buildDepsMap _ _ _ _ hp with hin | ⟨dd, hdd, hv⟩
    · cases hin
    · rw [hv] at htr hsh hnk
      exact Or.inr (Or.inr (Or.inr (Or.inr (Or.inr (Or.inr (Or.inr (Or.inr (Or.inr (Or.inr (Or.inr (Or.inr (Or.inr (Or.inr (Or.inr (Or.inr (Or.inr (Or.inr (Or.inr (⟨(p.1, dd), hdd, htr, hsh, fun hc => hnk ((K25 _).mpr hc)⟩)))))))))))))))))))
  · cases habs

theorem DanglingError_not_WellFormed (d : GraphDef) (e : BuildError)
    (hde : DanglingError d e) (hwf : WellFormedDef d) : False := by
  obtain ⟨⟨w1, w2, w3, w4, w5, w6, w7, w8, w9, w10, w11, w12, w13, w14, w15⟩,
    wms, wrepo, wgate, wdec⟩ := hwf
  rcases hde with ⟨p, hp, _, hnk⟩ | ⟨p, hp, hin⟩ | ⟨p, hp, r, hr, _, hnk⟩ |
    ⟨p, hp, hin⟩ | ⟨p, hp, hin⟩ | ⟨p, hp, hin⟩ | ⟨p, hp, hin⟩ |
    ⟨p, hp, r, hr, _, hnk⟩ | ⟨p, hp, r, hr, _, hnk⟩ | ⟨p, hp, hin⟩ |
    ⟨p, hp, hin⟩ | ⟨p, hp, r, hr, _, hnk⟩ | ⟨p, hp, hin⟩ |
    ⟨p, hp, r, hr, _, hnk⟩ | ⟨p, hp, hin⟩ | ⟨p, hp, hin⟩ |
    ⟨p, hp, r, hr, _, hnk⟩ | ⟨p, hp, hin⟩ | ⟨p, hp, hin⟩ | ⟨p, hp, htr, _, hnk⟩
  · exact hnk (w1 p hp)
  · rcases hin with ⟨r, hr, _, hnk⟩ | ⟨r, hr, _, hnk⟩
    · exact hnk ((w2 p hp).1 r hr)
    · exact hnk ((w2 p hp).2 r hr)
  · exact hnk (w3 p hp r hr)
  · rcases hin with ⟨r, hr, _, hnk⟩ | ⟨r, hr, _, hnk⟩ | ⟨r, hr, _, hnk⟩ |
      ⟨r, hr, _, hnk⟩ | ⟨r, hr, _, hnk⟩
    · exact hnk ((w4 p hp).1 r hr)
    · exact hnk ((w4 p hp).2.1 r hr)
    · exact hnk ((w4 p hp).2.2.1 r hr)
    · exact hnk ((w4 p hp).2.2.2.1 r hr)
    · exact hnk ((w4 p hp).2.2.2.2 r hr)
  · rcases hin with ⟨r, hr, _, hnk⟩ | ⟨r, hr, _, hnk⟩ | ⟨r, hr, _, hnk⟩ |
      ⟨r, hr, _, hnk⟩
    · exact hnk ((w5 p hp).1 r hr)
    · exact hnk ((w5 p hp).2.1 r hr)
    · exact hnk ((w5 p hp).2.2.1 r hr)
    · exact hnk ((w5 p hp).2.2.2 r hr)
  · rcases hin with ⟨r, hr, _, hnk⟩ | ⟨r, hr, _, hnk⟩
    · exact hnk ((w6 p hp).1 r hr)
    · exact hnk ((w6 p hp).2 r hr)
  · rcases hin with ⟨r, hr, _, hnk⟩ | ⟨r, hr, _, hnk⟩
    · exact hnk ((w7 p hp).1 r hr)
    · exact hnk ((w7 p hp).2.1 r hr)
  · exact hnk (wms p hp r hr)
  · exact hnk (w8 p hp r hr)
  · rcases hin with ⟨r, hr, _, hnk⟩ | ⟨r, hr, _, hnk⟩
    · exact hnk ((w9 p hp).1 r hr)
    · exact hnk ((w9 p hp).2 r hr)
  · rcases hin with ⟨r, hr, _, hnk⟩ | ⟨htr, _, hnk⟩
    · exact hnk ((wrepo p hp).1 r hr)
    · exact hnk ((wrepo p hp).2 htr)
  · exact hnk (w10 p hp r hr)
  · rcases hin with ⟨r, hr, _, hnk⟩ | ⟨r, hr, _, hnk⟩
    · exact hnk ((w11 p hp).1 r hr)
    · exact hnk ((w11 p hp).2 r hr)
  · exact hnk (w12 p hp r hr)
  · rcases hin with ⟨r, hr, _, hnk⟩ | ⟨r, hr, _, hnk⟩
    · exact hnk ((wgate p hp).1 r hr)
    · exact hnk ((wgate p hp).2 r hr)
  · rcases hin with ⟨_, hnk⟩ | ⟨r, hr, _, hnk⟩ | ⟨r, hr, _, hnk⟩
    · exact hnk (w13 p hp).1
    · exact hnk ((w13 p hp).2.1 r hr)
    · exact hnk ((w13 p hp).2.2 r hr)
  · exact hnk ((w7 p hp).2.2 r hr)
  · rcases hin with ⟨r, hr, _, hnk⟩ | ⟨r, hr, _, hnk⟩ | ⟨r, hr, _, hnk⟩
    · exact hnk ((w14 p hp).1 r hr)
    · exact hnk ((w14 p hp).2.1 r hr)
    · exact hnk ((w14 p hp).2.2 r hr)
  · rcases hin with ⟨r, hr, _, hnk⟩ | ⟨r, hr, _, hnk⟩ | ⟨r, hr, _, hnk⟩
    · exact hnk ((w15 p hp).1 r hr)
    · exact hnk ((w15 p hp).2.1 r hr)
    · exact hnk ((w15 p hp).2.2 r hr)
  · exact hnk (wdec p hp htr)

theorem checks_to_WF (d : GraphDef)
    (hwf1 : WFpass1 d) (hec : EntryChecks d)
    (hnm : (d.milestones.map (fun q => q.1)).Nodup)
    (hnr : (d.repositories.map (fun q => q.1)).Nodup)
    (hng : (d.actionGates.map (fun q => q.1)).Nodup)
    (hnd : (d.decisions.map (fun q => q.1)).Nodup) :
    WellFormedDef d := by
  obtain ⟨ec1, ec2, ec3, ec4⟩ := hec
  refine ⟨hwf1, ?_, ?_, ?_, ?_⟩
  · intro p hp r hr
    have hmem := buildDepsMap_mem_of_mem
      (fun dd : MilestoneDef => dd.dependsOnMilestones.getD []) d.milestones []
      hnm p.1 p.2 (by rw [Prod.mk.eta]; exact hp)
    exact ec1 _ hmem r hr
  · intro p hp
    have hmem := buildDepsMap_mem_of_mem
      (fun dd : RepositoryDef => (dd.dependsOn.getD [], dd.upstream))
      d.repositories [] hnr p.1 p.2 (by rw [Prod.mk.eta]; exact hp)
    obtain ⟨c1, c2⟩ := ec2 _ hmem
    exact ⟨fun r hr => c1 r hr, fun htr => c2 htr⟩
  · intro p hp
    have hmem := buildDepsMap_mem_of_mem
      (fun dd : ActionGateDef => (dd.blockedBy.getD [], dd.unlocks.getD []))
      d.actionGates [] hng p.1 p.2 (by rw [Prod.mk.eta]; exact hp)
    obtain ⟨c1, c2⟩ := ec3 _ hmem
    exact ⟨fun r hr => c1 r hr, fun r hr => c2 r hr⟩
  · intro p hp htr
    have hmem := buildDepsMap_mem_of_mem
      (fun dd : DecisionDef => dd.supersededBy) d.decisions []
      hnd p.1 p.2 (by rw [Prod.mk.eta]; exact hp)
    exact ec4 _ hmem htr

/-- **C2 (amended)**: for every definition on which `defineGraph` returns
without throwing, every returned address is live in the final heap, and
every relation field of a returned node holds only live addresses whose
node bears the id of some node of the returned sequence — references
survive by *id*, not by object identity (the counterexample shows a
returned milestone still referencing the superseded pass-1 instance of
its dependency, which is not in the returned sequence). -/
theorem claim2_amended_id_closure (d : GraphDef) (H : Heap) (plan : List Addr)
    (hok : defineGraph d = Except.ok (H, plan)) :
    ∀ a ∈ plan, a < H.length ∧
      ∀ r ∈ refsOf (derefD H a).data, r < H.length ∧
        ∃ b ∈ plan, (derefD H b).id = (derefD H r).id := by
  obtain ⟨F1, F2, F3, _, _, _⟩ := defineGraph_ok_master d H plan hok
  intro a ha
  refine ⟨(F1 a ha).1, ?_⟩
  intro r hr
  obtain ⟨hrl, hrid⟩ := F2 a ha r hr
  exact ⟨hrl, F3 _ hrid⟩

theorem claim2_amended_witness :
    defineGraph c2def = Except.ok (c2heap, [3, 4, 2]) ∧
    ∀ a ∈ ([3, 4, 2] : List Addr), a < c2heap.length ∧
      ∀ r ∈ refsOf (derefD c2heap a).data, r < c2heap.length ∧
        ∃ b ∈ ([3, 4, 2] : List Addr),
          (derefD c2heap b).id = (derefD c2heap r).id :=
  ⟨by rfl, claim2_amended_id_closure c2def c2heap [3, 4, 2] (by rfl)⟩

/-- **C8 (amended)**: the sequence returned by `defineGraph` is grouped
contiguously by kind, in the source's return-concatenation order
(primitive, supplier, supplierPrimitive, tooling, customer, competitor,
risk, capability, product, project, milestone, repository, thesis,
constraint, proxyMetric, competency, diagnosis, actionGate,
guidingPolicy, assumption, decision): the kind indices along the plan
are non-decreasing.  This differs from the spec's resolution order —
the counterexample shows customers appearing after supplier
primitives. -/
theorem claim8_amended_kind_blocks (d : GraphDef) (H : Heap) (plan : List Addr)
    (hok : defineGraph d = Except.ok (H, plan)) :
    List.Pairwise (fun x y => x ≤ y)
      (plan.map (fun a => kindIdx (derefD H a).data)) :=
  (defineGraph_ok_master d H plan hok).2.2.2.1

theorem claim8_amended_witness :
    defineGraph c8def = Except.ok (c8heap, [0, 2, 1]) ∧
    List.Pairwise (fun x y => x ≤ y)
      (([0, 2, 1] : List Addr).map (fun a => kindIdx (derefD c8heap a).data)) :=
  ⟨by rfl, claim8_amended_kind_blocks c8def c8heap [0, 2, 1] (by rfl)⟩

/-- **C4**: with unique keys per section (JS object literals cannot
repeat keys), `defineGraph` returns a node sequence without raising
exactly when every string-id reference of the declarative definition
resolves within the node pool of the expected kind; and any raised
error identifies the referencing node's id, its kind, and the dangling
reference, which genuinely fails to resolve. -/
theorem claim4_build_error_iff (d : GraphDef)
    (hnm : (d.milestones.map (fun q => q.1)).Nodup)
    (hnr : (d.repositories.map (fun q => q.1)).Nodup)
    (hng : (d.actionGates.map (fun q => q.1)).Nodup)
    (hnd : (d.decisions.map (fun q => q.1)).Nodup) :
    ((∃ r, defineGraph d = Except.ok r) ↔ WellFormedDef d) ∧
    ∀ e, defineGraph d = Except.error e → DanglingError d e := by
  constructor
  · constructor
    · rintro ⟨⟨H, plan⟩, hok⟩
      obtain ⟨_, _, _, _, hwf1, hec⟩ := defineGraph_ok_master d H plan hok
      exact checks_to_WF d hwf1 hec hnm hnr hng hnd
    · intro hwf
      cases hdg : defineGraph d with
      | ok r => exact ⟨r, rfl⟩
      | error e =>
        exact absurd hwf (fun hwf2 => DanglingError_not_WellFormed d e
          (defineGraph_error_master d e hdg) hwf2)
  · exact fun e he => defineGraph_error_master d e he

theorem claim4_witness :
    (wfDef.milestones.map (fun q => q.1)).Nodup ∧
    WellFormedDef wfDef ∧ (∃ r, defineGraph wfDef = Except.ok r) := by
  have hwf : WellFormedDef wfDef := by
    unfold WellFormedDef WFpass1
    simp [wfDef, omKeys, jsTruthyStr]
  exact ⟨by decide, hwf,
    (claim4_build_error_iff wfDef (by decide) (by decide) (by decide)
      (by decide)).1.mpr hwf⟩

end GraphOfPlan

